import Mathlib

/-!
# Network intrusion detection system: watchdog traffic analysis and desman connection handling

A shallow embedding of `src/watchdog/traffic_analyzer.{h,cpp}`, of
`src/desman/connection_manager.{h,cpp}`, of `ProcessReports` in
`src/desman/main.cpp`, and of the packet handler, the report loop and the two
threads of `src/watchdog/main.cpp`, followed by theorems about the embedded
functions.

Modelling conventions.

* A C++ `int` is a Lean `Int` that holds a value of the 32-bit range, and a
  `size_t` / `vector::size()` is a `Nat`. The `int` arithmetic of the traffic
  data (the packet and byte counters, their sums, the product with 3 in
  `CheckAlert`) and of the totals of `ProcessReports` is reduced to the 32-bit
  range by `wrapInt`, as the two's complement machine does when a result
  leaves the range; extraction of an `int` from text stores the nearest limit
  of the range instead of a value outside it. The report counter
  `m_reportsGenerated` is left on the mathematical integers: it would take
  2^31 reports to leave the range.
* A `std::string` is a Lean `String`; `ostream << n` is `toString n`.
* A `std::map<K, V>` is the list of its entries in ascending key order, which is
  the order in which `begin() .. end()` visits them.
* `LogMessage` appends a line to the log file and to the console; the model
  returns the lines that a call logs, in order.
* The operating system (accept, send, recv) is an explicit input: the outcome
  of the n-th call is given by a function of n.
* The two threads of the watchdog are the sequences of the statements that
  they execute on the mutex, the analyzer, the report queue and the socket;
  a schedule names, step by step, the thread that runs next, and `lock` waits
  while the mutex is held.
-/

namespace NIDS

/-! ## The type `int` -/

/-- The largest value of an `int`. -/
def INT_MAX : Int := 2147483647

/-- The smallest value of an `int`. -/
def INT_MIN : Int := -2147483648

/-- The value is one that an `int` holds. -/
def inIntRange (x : Int) : Prop := -2147483648 ≤ x ∧ x ≤ 2147483647

instance (x : Int) : Decidable (inIntRange x) :=
  inferInstanceAs (Decidable (-2147483648 ≤ x ∧ x ≤ 2147483647))

/-- The `int` that a result of `int` arithmetic leaves behind: the value
itself when it is in the range, and otherwise the value of the range that
differs from it by a multiple of 2^32 (two's complement wrap-around). -/
def wrapInt (x : Int) : Int := (x + 2147483648) % 4294967296 - 2147483648

/-- The `int` that an extraction stores for a decimal value: the value itself
when it is in the range, and otherwise the nearest limit of the range. -/
def clampInt (x : Int) : Int :=
  if x > 2147483647 then 2147483647 else if x < -2147483648 then -2147483648 else x

/-! ## std::map as a key-sorted association list -/

/-- Lexicographic comparison of two character sequences by character code:
`std::string::operator<`. -/
def charsLt : List Char → List Char → Bool
  | [], [] => false
  | [], _ :: _ => true
  | _ :: _, [] => false
  | a :: as, b :: bs =>
    if a.toNat < b.toNat then true
    else if b.toNat < a.toNat then false
    else charsLt as bs

/-- Key comparison of a `std::map<string, _>`. -/
def strLt (a b : String) : Bool := charsLt a.data b.data

/-- Key comparison of a `std::map<int, _>`. -/
def intLt (a b : Int) : Bool := decide (a < b)

/-- Entries of a map are in strictly ascending key order. -/
def MapSorted {κ α : Type} (lt : κ → κ → Bool) (m : List (κ × α)) : Prop :=
  m.Pairwise (fun a b => lt a.1 b.1 = true)

/-- Value stored under key `k` (`find`), if any. -/
def mapFind {κ α : Type} [DecidableEq κ] (k : κ) : List (κ × α) → Option α
  | [] => none
  | (k1, v) :: rest => if k = k1 then some v else mapFind k rest

/-- The update `f(m[k])`: `operator[]` locates the entry of `k`, inserting a
default-constructed value at its place in key order when there is none, and `f`
is applied to the value in place. -/
def mapModify {κ α : Type} [DecidableEq κ] (lt : κ → κ → Bool) (dflt : α) (k : κ)
    (f : α → α) : List (κ × α) → List (κ × α)
  | [] => [(k, f dflt)]
  | (k1, v) :: rest =>
    if k = k1 then (k1, f v) :: rest
    else if lt k k1 then (k, f dflt) :: (k1, v) :: rest
    else (k1, v) :: mapModify lt dflt k f rest

/-- Removal of the entry of `k`: `erase(k)`. -/
def mapErase {κ α : Type} [DecidableEq κ] (k : κ) : List (κ × α) → List (κ × α)
  | [] => []
  | (k1, v) :: rest => if k = k1 then rest else (k1, v) :: mapErase k rest

/-! ## traffic_analyzer.h -/

/-- Flow 5-tuple of src_ip, dst_ip, src_port, dst_port and protocol. -/
abbrev flow_t : Type := String × String × Int × Int × String

/-- Category of alerts. -/
inductive AlertType where
  | PACKETS
  | BYTES
  | FLOWS
  deriving DecidableEq, Repr

/-- Metadata of a single packet. -/
structure PacketInfo where
  size : Int
  src_ip : String
  dst_ip : String
  src_port : Int
  dst_port : Int
  protocol : String
  deriving DecidableEq, Repr

/-- A number of packets, a number of bytes and a list of flows. -/
structure TrafficData where
  packets : Int
  bytes : Int
  flows : List flow_t
  deriving DecidableEq, Repr

/-- Constructor `TrafficData()`: packets and bytes are 0, the flow list is empty. -/
def TrafficData.new : TrafficData := { packets := 0, bytes := 0, flows := [] }

/-- The loop of `AddPacketData` over `flows`: true when some `flows[i] == flow`. -/
def flowListed (flow : flow_t) : List flow_t → Bool
  | [] => false
  | f :: rest => if f = flow then true else flowListed flow rest

/-- Adds the data of one packet: `TrafficData::AddPacketData`. -/
def TrafficData.AddPacketData (d : TrafficData) (size : Int) (flow : flow_t) : TrafficData :=
  let d1 : TrafficData :=
    { d with packets := wrapInt (d.packets + 1), bytes := wrapInt (d.bytes + size) }
  if flowListed flow d1.flows then d1
  else { d1 with flows := d1.flows ++ [flow] }

/-- Addition assignment `TrafficData::operator+=`. -/
def TrafficData.addAssign (this rhs : TrafficData) : TrafficData :=
  { packets := wrapInt (this.packets + rhs.packets)
    bytes := wrapInt (this.bytes + rhs.bytes)
    flows := this.flows ++ rhs.flows }

/-- State of a `TrafficAnalyzer` object. -/
structure TrafficAnalyzer where
  m_logfile : String
  m_dstTrafficMap : List (String × TrafficData)
  m_prevData : TrafficData
  m_reportsGenerated : Int
  deriving DecidableEq, Repr

/-- Array `bool alertFlags[3]`, indexed by `AlertType`. -/
structure AlertFlags where
  packets : Bool
  bytes : Bool
  flows : Bool
  deriving DecidableEq, Repr

/-! ## traffic_analyzer.cpp -/

/-- Constructor `TrafficAnalyzer::TrafficAnalyzer(logfile)`. -/
def TrafficAnalyzer.new (logfile : String) : TrafficAnalyzer :=
  { m_logfile := logfile
    m_dstTrafficMap := []
    m_prevData := TrafficData.new
    m_reportsGenerated := 0 }

/-- Alert check `TrafficAnalyzer::CheckAlert`: the returned pair is the return
value and the flags written to `alertFlags`. -/
def TrafficAnalyzer.CheckAlert (self : TrafficAnalyzer) (trafficData : TrafficData) :
    Bool × AlertFlags :=
  let flags : AlertFlags :=
    { packets := decide (trafficData.packets > wrapInt (self.m_prevData.packets * 3))
      bytes := decide (trafficData.bytes > wrapInt (self.m_prevData.bytes * 3))
      flows := decide (trafficData.flows.length > self.m_prevData.flows.length * 3) }
  (flags.packets || flags.bytes || flags.flows, flags)

/-- Flow of a packet, as built by `make_tuple` in `AddPacket`. -/
def PacketInfo.flow (p : PacketInfo) : flow_t :=
  (p.src_ip, p.dst_ip, p.src_port, p.dst_port, p.protocol)

/-- Packet ingestion `TrafficAnalyzer::AddPacket`. -/
def TrafficAnalyzer.AddPacket (self : TrafficAnalyzer) (p : PacketInfo) : TrafficAnalyzer :=
  let flow := p.flow
  { self with
    m_dstTrafficMap :=
      mapModify strLt TrafficData.new p.dst_ip (fun d => d.AddPacketData p.size flow)
        self.m_dstTrafficMap }

/-- Local variables of the summing loop of `GenerateReport`. -/
structure ScanState where
  totalData : TrafficData
  dstWithMostPackets : String
  dstWithMostBytes : String
  dstWithMostFlows : String
  mostPackets : Int
  mostBytes : Int
  mostFlows : Int
  deriving DecidableEq, Repr

/-- Values of the loop variables before the first iteration. -/
def ScanState.init : ScanState :=
  { totalData := TrafficData.new
    dstWithMostPackets := ""
    dstWithMostBytes := ""
    dstWithMostFlows := ""
    mostPackets := 0
    mostBytes := 0
    mostFlows := 0 }

/-- One iteration of the loop of `GenerateReport` at the entry `it`. The
comparison of `data.flows.size()` with `(unsigned)mostFlows` is a comparison of
naturals: `mostFlows` is 0 or an earlier flow-list size. -/
def ScanState.step (st : ScanState) (it : String × TrafficData) : ScanState :=
  let data := it.2
  let st1 := { st with totalData := st.totalData.addAssign data }
  let st2 :=
    if data.packets > st1.mostPackets then
      { st1 with dstWithMostPackets := it.1, mostPackets := data.packets }
    else st1
  let st3 :=
    if data.bytes > st2.mostBytes then
      { st2 with dstWithMostBytes := it.1, mostBytes := data.bytes }
    else st2
  if (data.flows.length : Int) > st3.mostFlows then
    { st3 with dstWithMostFlows := it.1, mostFlows := (data.flows.length : Int) }
  else st3

/-- The loop of `GenerateReport` over `m_dstTrafficMap` from `begin()` to `end()`. -/
def scanMap (m : List (String × TrafficData)) : ScanState :=
  m.foldl ScanState.step ScanState.init

/-- Text written to `ossAlertLog`. -/
def alertLogText (flags : AlertFlags) : String :=
  "alert" ++ (if flags.packets then " packets" else "")
    ++ (if flags.bytes then " bytes" else "")
    ++ (if flags.flows then " flows" else "")

/-- Text appended to `ossReport` by the statements
`if (alertFlags[PACKETS]) ... else if (alertFlags[BYTES]) ... else if (alertFlags[FLOWS]) ...`. -/
def destinationSuffix (flags : AlertFlags) (st : ScanState) : String :=
  if flags.packets then " " ++ st.dstWithMostPackets
  else if flags.bytes then " " ++ st.dstWithMostBytes
  else if flags.flows then " " ++ st.dstWithMostFlows
  else ""

/-- Text appended to `ossReport` by the two statements that write the report
number and the totals. -/
def reportBody (reportId : Int) (totalData : TrafficData) : String :=
  "report " ++ toString reportId ++ " "
    ++ toString totalData.packets ++ " " ++ toString totalData.bytes ++ " "
    ++ toString totalData.flows.length

/-- Text written to `ossReport`. -/
def reportText (alert : Bool) (flags : AlertFlags) (reportId : Int) (st : ScanState) : String :=
  (if alert then "alert " else "") ++ reportBody reportId st.totalData
    ++ destinationSuffix flags st

/-- Outcome of one call of `GenerateReport`. -/
structure ReportResult where
  report : String
  logged : List String
  state : TrafficAnalyzer
  deriving DecidableEq, Repr

/-- Report generation `TrafficAnalyzer::GenerateReport`: the returned string,
the lines passed to `LogMessage`, and the analyzer afterwards. -/
def TrafficAnalyzer.GenerateReport (self : TrafficAnalyzer) : ReportResult :=
  let reportId := self.m_reportsGenerated + 1
  let st := scanMap self.m_dstTrafficMap
  let chk := self.CheckAlert st.totalData
  let text := reportText chk.1 chk.2 reportId st
  { report := text
    logged := (if chk.1 then [alertLogText chk.2] else []) ++ [text]
    state :=
      { self with
        m_reportsGenerated := reportId
        m_prevData := st.totalData
        m_dstTrafficMap := [] } }

/-! ## Callers of the analyzer -/

/-- One call made on a `TrafficAnalyzer` by its owner. -/
inductive Call where
  | addPacket (p : PacketInfo)
  | generateReport
  deriving DecidableEq, Repr

/-- Runs a sequence of calls in order; the reports come back in the order in
which they were generated. -/
def runCalls : TrafficAnalyzer → List Call → List String × TrafficAnalyzer
  | ta, [] => ([], ta)
  | ta, Call.addPacket p :: rest => runCalls (ta.AddPacket p) rest
  | ta, Call.generateReport :: rest =>
    let r := ta.GenerateReport
    let out := runCalls r.state rest
    (r.report :: out.1, out.2)

/-- One invocation of the capture callback: the packet timestamp in
microseconds (`secs * 1000000 + usecOffset`) and the decoded packet, absent
when the handler returns before `AddPacket` (bad header length, unknown
protocol). -/
structure Delivery where
  ts_usecs : Int
  pkt : Option PacketInfo
  deriving DecidableEq, Repr

/-- The analyzer together with the globals `g_reports` (front of the queue
first) and `g_maxts_usecs` of `watchdog/main.cpp`. -/
structure WatchdogState where
  analyzer : TrafficAnalyzer
  g_reports : List String
  g_maxts_usecs : Int
  deriving DecidableEq, Repr

/-- Capture callback `GetPacket`; `timeslice_usecs` is the value of
`(long long int)(g_timeslice * 1000000.0)`. -/
def GetPacket (g_liveMode : Bool) (timeslice_usecs : Int) (st : WatchdogState)
    (d : Delivery) : WatchdogState :=
  let st1 :=
    if !g_liveMode then
      if d.ts_usecs > st.g_maxts_usecs then
        let st0 :=
          if st.g_maxts_usecs > 0 then
            let r := st.analyzer.GenerateReport
            { st with analyzer := r.state, g_reports := st.g_reports ++ [r.report] }
          else st
        { st0 with g_maxts_usecs := d.ts_usecs + timeslice_usecs }
      else st
    else st
  match d.pkt with
  | none => st1
  | some pktInfo => { st1 with analyzer := st1.analyzer.AddPacket pktInfo }

/-! ## Reading report text: `ProcessReports` of desman/main.cpp -/

/-- Whitespace in the sense of `isspace`: space, tab, newline, vertical tab,
form feed, carriage return. -/
def isSpace (c : Char) : Bool := c.toNat = 32 || (9 ≤ c.toNat && c.toNat ≤ 13)

/-- Whitespace-separated words of a character sequence; `cur` holds the
characters of the word being read, last character first. -/
def wordsAux : List Char → List Char → List (List Char)
  | cur, [] => if cur.isEmpty then [] else [cur.reverse]
  | cur, c :: cs =>
    if isSpace c then
      if cur.isEmpty then wordsAux [] cs else cur.reverse :: wordsAux [] cs
    else wordsAux (c :: cur) cs

/-- The vector `reportData` filled by the loop `while (iss) (iss >> tok; push_back(tok))`:
every whitespace-separated word of the report, then the empty string pushed by
the last, failed extraction. -/
def reportData (report : String) : List (List Char) :=
  wordsAux [] report.data ++ [[]]

/-- Decimal digit test. -/
def isDigitChar (c : Char) : Bool := 48 ≤ c.toNat && c.toNat ≤ 57

/-- Value of the leading decimal digits of a character sequence, continuing
from `acc`. -/
def readDigits : Nat → List Char → Nat
  | acc, [] => acc
  | acc, c :: cs => if isDigitChar c then readDigits (acc * 10 + (c.toNat - 48)) cs else acc

/-- The number that a word denotes in decimal: optional sign, then decimal
digits; 0 when no digit follows. -/
def decimalValue (tok : List Char) : Int :=
  match tok with
  | [] => 0
  | c :: cs =>
    if c.toNat = 45 then -((readDigits 0 cs : Nat) : Int)
    else if c.toNat = 43 then ((readDigits 0 cs : Nat) : Int)
    else ((readDigits 0 (c :: cs) : Nat) : Int)

/-- Extraction `istringstream(tok) >> n` into an `int` that holds 0: optional
sign, then decimal digits; the result stays 0 when no digit follows, and a
number outside the range of `int` is stored as the nearest limit of the range. -/
def extractInt (tok : List Char) : Int := clampInt (decimalValue tok)

/-- Body of the loop of `ProcessReports` for one report: the packets, bytes and
flows read from it. The result is `none` when an index lies outside
`reportData`, where the source reads outside the vector. -/
def reportCounts (report : String) : Option (Int × Int × Int) :=
  let data := reportData report
  let first := if data.head? = some "alert".data then 3 else 2
  match data.get? first, data.get? (first + 1), data.get? (first + 2) with
  | some tp, some tb, some tf => some (extractInt tp, extractInt tb, extractInt tf)
  | _, _, _ => none

/-- Summing loop of `ProcessReports`, from the totals so far. -/
def sumReports : Int × Int × Int → List String → Option (Int × Int × Int)
  | tot, [] => some tot
  | tot, r :: rest =>
    match reportCounts r with
    | none => none
    | some c =>
      sumReports (wrapInt (tot.1 + c.1), wrapInt (tot.2.1 + c.2.1), wrapInt (tot.2.2 + c.2.2))
        rest

/-- Line logged by `ProcessReports` for a batch of reports. -/
def ProcessReports (reports : List String) : Option String :=
  match sumReports (0, 0, 0) reports with
  | none => none
  | some tot =>
    some ("Total traffic " ++ toString tot.1 ++ " " ++ toString tot.2.1 ++ " "
      ++ toString tot.2.2)

/-! ## The report grammar of the wire protocol -/

/-- A report as the grammar of the wire protocol describes it. -/
structure WireReport where
  alert : Bool
  categories : List AlertType
  seq : Int
  packets : Int
  bytes : Int
  flows : Int
  deriving DecidableEq, Repr

/-- Category named by a word of the report, if any. -/
def categoryOfWord (w : List Char) : Option AlertType :=
  if w = "packets".data then some AlertType.PACKETS
  else if w = "bytes".data then some AlertType.BYTES
  else if w = "flows".data then some AlertType.FLOWS
  else none

/-- Leading category words of a word list, and the words after them. -/
def takeCategories : List (List Char) → List AlertType × List (List Char)
  | [] => ([], [])
  | w :: ws =>
    match categoryOfWord w with
    | some c => let r := takeCategories ws; (c :: r.1, r.2)
    | none => ([], w :: ws)

/-- Words `report seq packets bytes flows`, the four numbers read as the decimal
numbers that the words denote; what follows them on the line is the optional
destination address, which is not examined. -/
def specParseBody (alert : Bool) (cats : List AlertType) :
    List (List Char) → Option WireReport
  | w :: s :: p :: b :: f :: _ =>
    if w = "report".data then
      some { alert := alert, categories := cats, seq := decimalValue s,
             packets := decimalValue p, bytes := decimalValue b, flows := decimalValue f }
    else none
  | _ => none

/-- Reader of a report line after the grammar of the wire protocol, the
yardstick for the text that `GenerateReport` composes (desman itself reads only
the three counts, see `reportCounts`). The grammar is
`report seq packets bytes flows` with an optional destination address,
optionally preceded by `alert` and category words among packets, bytes, flows;
the reader accepts `alert` without any category word and then returns an empty
category list. -/
def specParseReport (report : String) : Option WireReport :=
  match wordsAux [] report.data with
  | [] => none
  | w :: ws =>
    if w = "alert".data then
      let r := takeCategories ws
      specParseBody true r.1 r.2
    else specParseBody false [] (w :: ws)

/-- Categories whose flag is set. -/
def AlertFlags.categories (flags : AlertFlags) : List AlertType :=
  (if flags.packets then [AlertType.PACKETS] else [])
    ++ (if flags.bytes then [AlertType.BYTES] else [])
    ++ (if flags.flows then [AlertType.FLOWS] else [])

/-! ## connection_manager.h, connection_manager.cpp -/

/-- State of a `ConnectionManager` object. -/
structure ConnectionManager where
  m_numWatchdogs : Int
  m_logfile : String
  m_idMap : List (Int × Int)
  deriving DecidableEq, Repr

/-- Constructor `ConnectionManager::ConnectionManager(numWDs, logfile)`. -/
def ConnectionManager.new (numWDs : Int) (logfile : String) : ConnectionManager :=
  { m_numWatchdogs := numWDs, m_logfile := logfile, m_idMap := [] }

/-- Stops tracking a watchdog: `ConnectionManager::RemoveWatchdog`. -/
def ConnectionManager.RemoveWatchdog (self : ConnectionManager) (fd : Int) : ConnectionManager :=
  { self with
    m_numWatchdogs := self.m_numWatchdogs - 1
    m_idMap := mapErase fd self.m_idMap }

/-- What the operating system answers in one iteration of the accept loop: the
value returned by `accept`, the peer address text, the value returned by `send`. -/
structure AcceptOutcome where
  fd : Int
  ip : String
  sendRet : Int
  deriving DecidableEq, Repr

/-- Outcome of `EstablishWDConnections`: the return value, the lines logged,
the messages sent (descriptor and text), and the manager afterwards. -/
structure EstablishResult where
  ok : Bool
  logged : List String
  sent : List (Int × String)
  state : ConnectionManager
  deriving DecidableEq, Repr

/-- The accept loop `for (int i = 0; i < m_numWatchdogs; i++)` of
`EstablishWDConnections`; `remaining` counts the iterations still to run. -/
def establishLoop (accepts : Nat → AcceptOutcome) :
    Nat → Int → List String → List (Int × String) → ConnectionManager → EstablishResult
  | 0, _, logged, sent, cm =>
    { ok := true, logged := logged ++ ["All watchdogs connected..."], sent := sent, state := cm }
  | remaining + 1, i, logged, sent, cm =>
    let id := i + 1
    let a := accepts i.toNat
    let watchdog := a.fd
    if watchdog = -1 then { ok := false, logged := logged, sent := sent, state := cm }
    else
      let logged1 := logged ++ ["Incoming watchdog connection from IP " ++ a.ip]
      let idMsg := "UID " ++ toString id
      if a.sendRet = -1 then { ok := false, logged := logged1, sent := sent, state := cm }
      else
        let logged2 :=
          logged1 ++ ["Assigned " ++ toString id ++ " to watchdog at IP " ++ a.ip]
        establishLoop accepts remaining (i + 1) logged2 (sent ++ [(watchdog, idMsg)])
          { cm with m_idMap := mapModify intLt (0 : Int) watchdog (fun _ => id) cm.m_idMap }

/-- Connection set-up `ConnectionManager::EstablishWDConnections`; `listener`
is the value returned by `InitializeSocket` and `listenRet` that of `listen`. -/
def ConnectionManager.EstablishWDConnections (self : ConnectionManager) (listener listenRet : Int)
    (accepts : Nat → AcceptOutcome) : EstablishResult :=
  if listener = -1 then { ok := false, logged := [], sent := [], state := self }
  else if listenRet = -1 then { ok := false, logged := [], sent := [], state := self }
  else
    establishLoop accepts self.m_numWatchdogs.toNat 0 ["Listening on port 11353..."] [] self

/-- What one call of `recv` yields: its return value and the text then held by
the buffer. -/
structure RecvOutcome where
  bytes : Int
  buf : String
  deriving DecidableEq, Repr

/-- Index of the first occurrence of `pat`: `string::find`, with `none` for `npos`. -/
def findSub (pat : List Char) : List Char → Option Nat
  | [] => if pat.isEmpty then some 0 else none
  | c :: cs =>
    if pat.isPrefixOf (c :: cs) then some 0
    else (findSub pat cs).map (fun j => j + 1)

/-- The value of `pos` after `int pos = report.find("report") + 6`. A failed
search gives `npos + 6`, which is 5. -/
def insertPos (report : List Char) : Nat :=
  match findSub "report".data report with
  | some j => j + 6
  | none => 5

/-- The statement `report.insert(pos, idStr)`: `insert` throws `out_of_range`
when `pos` exceeds the length of the report, and the result is then `none`. -/
def insertId (report : List Char) (idStr : List Char) : Option (List Char) :=
  if insertPos report ≤ report.length then
    some (report.take (insertPos report) ++ idStr ++ report.drop (insertPos report))
  else none

/-- Variables of one call of `ReceiveWDReports`: the object, the output vector
`reports`, the counter `reportsToRecv`, and the log lines and the number of
`recv` calls so far. -/
structure RoundState where
  cm : ConnectionManager
  reports : List String
  reportsToRecv : Int
  logged : List String
  recvCalls : Nat
  deriving DecidableEq, Repr

/-- How a call of `ReceiveWDReports`, or a part of it, ends. -/
inductive RoundOutcome where
  | next (st : RoundState)
  | returned (value : Bool) (st : RoundState)
  | threw (st : RoundState)
  | blocked (st : RoundState)
  deriving DecidableEq, Repr

/-- State in which an outcome leaves the variables. -/
def RoundOutcome.st : RoundOutcome → RoundState
  | .next st => st
  | .returned _ st => st
  | .threw st => st
  | .blocked st => st

/-- The loop `for (int i = 0; i <= fdMax; i++)` of `ReceiveWDReports`, over the
descriptors `i` that are members of `watchdogs`, in ascending order. -/
def recvFor (recv : Nat → RecvOutcome) : List Int → RoundState → RoundOutcome
  | [], st => RoundOutcome.next st
  | i :: rest, st =>
    let r := recv st.recvCalls
    let st0 : RoundState := { st with recvCalls := st.recvCalls + 1 }
    if r.bytes ≤ 0 then
      let cm1 : ConnectionManager :=
        { st0.cm with m_idMap := mapModify intLt (0 : Int) i (fun v => v) st0.cm.m_idMap }
      let cm2 : ConnectionManager := cm1.RemoveWatchdog i
      if cm2.m_numWatchdogs = 0 then RoundOutcome.returned false { st0 with cm := cm2 }
      else recvFor recv rest { st0 with cm := cm2, reportsToRecv := st0.reportsToRecv - 1 }
    else
      let report := r.buf
      let st1 : RoundState := { st0 with reports := st0.reports ++ [report] }
      let map1 := mapModify intLt (0 : Int) i (fun v => v) st1.cm.m_idMap
      let st2 : RoundState := { st1 with cm := { st1.cm with m_idMap := map1 } }
      let idStr := " " ++ toString ((mapFind i map1).getD 0)
      match insertId report.data idStr.data with
      | none => RoundOutcome.threw st2
      | some line =>
        recvFor recv rest
          { st2 with logged := st2.logged ++ ["Received " ++ String.mk line]
                     reportsToRecv := st2.reportsToRecv - 1 }

/-- The loop `while (reportsToRecv > 0)` of `ReceiveWDReports`; `passes` bounds
the number of passes. With no descriptor in `watchdogs` and `reportsToRecv > 0`
the call never leaves `select`; the outcome is then `blocked`. -/
def recvWhile (recv : Nat → RecvOutcome) (fds : List Int) : Nat → RoundState → RoundOutcome
  | 0, st => if st.reportsToRecv > 0 then RoundOutcome.blocked st else RoundOutcome.returned true st
  | passes + 1, st =>
    if st.reportsToRecv > 0 then
      match recvFor recv fds st with
      | RoundOutcome.next st1 => recvWhile recv fds passes st1
      | other => other
    else RoundOutcome.returned true st

/-- Report collection `ConnectionManager::ReceiveWDReports`. The descriptors
put into `watchdogs` are the keys of `m_idMap`; the loop visits those from 0
up to `fdMax`. Every pass over a non-empty set lowers `reportsToRecv`, so
`reportsToRecv` passes are enough unless the set is empty. -/
def ConnectionManager.ReceiveWDReports (self : ConnectionManager) (recv : Nat → RecvOutcome) :
    RoundOutcome :=
  let fds := (self.m_idMap.map Prod.fst).filter (fun fd => decide (0 ≤ fd))
  recvWhile recv fds self.m_numWatchdogs.toNat
    { cm := self, reports := [], reportsToRecv := self.m_numWatchdogs, logged := [],
      recvCalls := 0 }

/-- The manager after a successful `EstablishWDConnections`, between rounds:
the entries of `m_idMap` are in key order, the keys are descriptors (not
negative), and `m_numWatchdogs` is the number of entries. -/
def ConnectionManager.Started (self : ConnectionManager) : Prop :=
  MapSorted intLt self.m_idMap ∧ (∀ e ∈ self.m_idMap, 0 ≤ e.1) ∧
    self.m_numWatchdogs = (self.m_idMap.length : Int)

/-! ## Properties used in the theorems -/

/-- A key comparison that is a strict total order. -/
structure StrictTotal {κ : Type} (lt : κ → κ → Bool) : Prop where
  irrefl : ∀ a, lt a a = false
  trans : ∀ a b c, lt a b = true → lt b c = true → lt a c = true
  total : ∀ a b, a ≠ b → lt a b = false → lt b a = true

/-- Accumulator of a destination in the current timeslice: the entry of the
destination in `m_dstTrafficMap`, or the value `TrafficData()` with which
`operator[]` creates the entry when there is none yet. -/
def TrafficAnalyzer.accumulator (self : TrafficAnalyzer) (dst : String) : TrafficData :=
  (mapFind dst self.m_dstTrafficMap).getD TrafficData.new

/-- Totals of the current timeslice: `totalData` after the loop of `GenerateReport`. -/
def TrafficAnalyzer.totals (self : TrafficAnalyzer) : TrafficData :=
  (scanMap self.m_dstTrafficMap).totalData

/-- A packet descriptor of 40 bytes. -/
def examplePacket : PacketInfo :=
  { size := 40, src_ip := "10.0.0.1", dst_ip := "10.0.0.2", src_port := 1234, dst_port := 80,
    protocol := "TCP" }

/-- An analyzer whose previous totals are (10, 1000, 2) and whose current
timeslice holds 31 packets, 1000 bytes and 2 flows, all to one destination. -/
def exampleAnalyzer : TrafficAnalyzer :=
  { m_logfile := "log"
    m_dstTrafficMap :=
      [("10.0.0.2",
        { packets := 31, bytes := 1000,
          flows := [("10.0.0.1", "10.0.0.2", 1234, 80, "TCP"),
                    ("10.0.0.1", "10.0.0.2", 1235, 80, "TCP")] })]
    m_prevData :=
      { packets := 10, bytes := 1000,
        flows := [("10.0.0.7", "10.0.0.8", 1, 80, "TCP"), ("10.0.0.7", "10.0.0.8", 2, 80, "TCP")] }
    m_reportsGenerated := 1 }

/-- The analyzer `exampleAnalyzer` with previous totals (10, 100, 2): the same
current timeslice then alerts on packets and on bytes. -/
def exampleAnalyzerLowBytes : TrafficAnalyzer :=
  { exampleAnalyzer with
    m_prevData := { exampleAnalyzer.m_prevData with bytes := 100 } }

/-- Word written to `ossAlertLog` for a category. -/
def AlertType.word : AlertType → String
  | AlertType.PACKETS => "packets"
  | AlertType.BYTES => "bytes"
  | AlertType.FLOWS => "flows"

/-- The analyzer after `AddPacket` has been called on each packet of a
sequence, in order. -/
def TrafficAnalyzer.AddPackets (self : TrafficAnalyzer) (ps : List PacketInfo) : TrafficAnalyzer :=
  ps.foldl TrafficAnalyzer.AddPacket self

/-- Sequence number that the report grammar reads from a report text. -/
def reportSeq (report : String) : Option Int :=
  (specParseReport report).map (fun r => r.seq)

/-- The watchdog in replay mode before the first packet is delivered: a fresh
analyzer, an empty report queue, `g_maxts_usecs = 0`. -/
def WatchdogState.start (logfile : String) : WatchdogState :=
  { analyzer := TrafficAnalyzer.new logfile, g_reports := [], g_maxts_usecs := 0 }

/-- Buffers of the successful ones among the `count` calls of `recv` that
start with call number `first`, in call order. -/
def payloads (recv : Nat → RecvOutcome) (first count : Nat) : List String :=
  (((List.range count).map (fun t => recv (first + t))).filter
    (fun r => decide (0 < r.bytes))).map (fun r => r.buf)

/-- A manager between rounds with two live watchdogs, on the descriptors 4 and 5. -/
def exampleManager : ConnectionManager :=
  { m_numWatchdogs := 2, m_logfile := "log", m_idMap := [(4, 1), (5, 2)] }

/-- Receives of a round in which the first watchdog has disconnected and the
second delivers a report. -/
def exampleRecv : Nat → RecvOutcome :=
  fun n =>
    if n = 0 then { bytes := 0, buf := "" }
    else { bytes := 33, buf := "alert report 1 31 1000 2 10.0.0.2" }

/-- Receives of a round in which the first receive yields only the two
characters `al`, the beginning of an alert report. -/
def shortPayloadRecv : Nat → RecvOutcome :=
  fun _ => { bytes := 2, buf := "al" }

/-- Descriptors whose receive fails in one pass of the inner loop of
`ReceiveWDReports` over the descriptors `fds`, the first receive being call
number `first`: these are the watchdogs that the pass removes. -/
def lostFds (recv : Nat → RecvOutcome) : Nat → List Int → List Int
  | _, [] => []
  | first, fd :: rest =>
    if (recv first).bytes ≤ 0 then fd :: lostFds recv (first + 1) rest
    else lostFds recv (first + 1) rest

/-- Receives of a round in which the first watchdog has disconnected and the
second delivers only the two characters `al`. -/
def lostThenShortRecv : Nat → RecvOutcome :=
  fun n => if n = 0 then { bytes := 0, buf := "" } else { bytes := 2, buf := "al" }

/-- Receives of a round in which the first watchdog delivers a line that is
not a report and the second delivers a report. -/
def junkRecv : Nat → RecvOutcome :=
  fun n =>
    if n = 0 then { bytes := 25, buf := "hello world, this is junk" }
    else { bytes := 15, buf := "report 1 2 80 1" }

/-- A trace of two packets, at 1.0 s and at 2.5 s. -/
def exampleTrace : List Delivery :=
  [{ ts_usecs := 1000000, pkt := some examplePacket },
   { ts_usecs := 2500000, pkt := some examplePacket }]

/-- How the report loop of `main` in replay mode ends: the loop is left because
the queue is empty; or `send` returned -1 and `main` returns; or
`g_reports.front()` and `g_reports.pop()` were executed on an empty queue,
which has no defined result. Each carries the reports handed to `send` so far. -/
inductive EmissionOutcome where
  | finished (sent : List String)
  | sendFailed (sent : List String)
  | emptyFront (sent : List String)
  deriving DecidableEq, Repr

/-- The report loop of `main` in replay mode,
`do (sleep; lock; report = g_reports.front(); g_reports.pop(); unlock; send(report))
while (!g_reports.empty())`, on the queue `g_reports` (front first). The body
runs before the test: the first line is the body on an empty queue. `sendRet n`
is the value returned by the n-th call of `send`. -/
def replayEmission (sendRet : Nat → Int) : List String → List String → EmissionOutcome
  | [], sent => EmissionOutcome.emptyFront sent
  | report :: rest, sent =>
    if sendRet sent.length = -1 then EmissionOutcome.sendFailed sent
    else if rest.isEmpty then EmissionOutcome.finished (sent ++ [report])
    else replayEmission sendRet rest (sent ++ [report])

/-- The watchdog in replay mode: every packet of the trace is delivered to
`GetPacket`, then the report loop runs on the queue. -/
def replayRun (logfile : String) (timeslice_usecs : Int) (trace : List Delivery)
    (sendRet : Nat → Int) : EmissionOutcome :=
  replayEmission sendRet
    (trace.foldl (GetPacket false timeslice_usecs) (WatchdogState.start logfile)).g_reports []

/-- An analyzer whose timeslice holds three destinations with ties: 10.0.0.2
and 10.0.0.3 have the most packets (5 each), 10.0.0.3 and 10.0.0.4 have the
most bytes (300 each) and the most flows (2 each). -/
def tiedAnalyzer : TrafficAnalyzer :=
  { m_logfile := "log"
    m_dstTrafficMap :=
      [("10.0.0.2",
        { packets := 5, bytes := 200, flows := [("10.0.0.1", "10.0.0.2", 1, 80, "TCP")] }),
       ("10.0.0.3",
        { packets := 5, bytes := 300,
          flows := [("10.0.0.1", "10.0.0.3", 1, 80, "TCP"),
                    ("10.0.0.1", "10.0.0.3", 2, 80, "TCP")] }),
       ("10.0.0.4",
        { packets := 2, bytes := 300,
          flows := [("10.0.0.1", "10.0.0.4", 1, 80, "TCP"),
                    ("10.0.0.1", "10.0.0.4", 2, 80, "TCP")] })]
    m_prevData := TrafficData.new
    m_reportsGenerated := 0 }

/-- The analyzer after a sequence of timeslices: the packets of each timeslice
are ingested in order and `GenerateReport` closes the timeslice. -/
def TrafficAnalyzer.runTimeslices (self : TrafficAnalyzer) (timeslices : List (List PacketInfo)) :
    TrafficAnalyzer :=
  timeslices.foldl (fun s ps => (s.AddPackets ps).GenerateReport.state) self

/-- A packet descriptor of `size` bytes from 10.0.0.1 to 10.0.0.2; the capture
callback passes `ntohs(ip->ip_len)` as the size, a value from 0 to 65535. -/
def packetOfSize (size : Int) : PacketInfo :=
  { size := size, src_ip := "10.0.0.1", dst_ip := "10.0.0.2", src_port := 1234, dst_port := 80,
    protocol := "TCP" }

/-- A fresh analyzer that has ingested 32768 packets of 65535 bytes, all to
10.0.0.2: the byte count of the destination is 2147450880. -/
def nearLimitAnalyzer : TrafficAnalyzer :=
  (TrafficAnalyzer.new "log").AddPackets (List.replicate 32768 (packetOfSize 65535))

/-- A fresh analyzer that has ingested 32769 packets of 65535 bytes, all to
10.0.0.2: the sum of the sizes is 2147516415, more than an `int` holds. -/
def pastLimitAnalyzer : TrafficAnalyzer :=
  (TrafficAnalyzer.new "log").AddPackets (List.replicate 32769 (packetOfSize 65535))

/-- A fresh analyzer that has ingested 30518 packets of 65535 bytes, all to
10.0.0.2: 1999997130 bytes, which an `int` holds. -/
def heavyAnalyzer : TrafficAnalyzer :=
  (TrafficAnalyzer.new "log").AddPackets (List.replicate 30518 (packetOfSize 65535))

/-- An analyzer after a first timeslice of 16000 packets of 50000 bytes: the
previous totals are 16000 packets, 800000000 bytes and 1 flow, and the
destination map is empty. -/
def afterHeavyTimeslice : TrafficAnalyzer :=
  (TrafficAnalyzer.new "log").runTimeslices [List.replicate 16000 (packetOfSize 50000)]

/-! ## The two threads of the watchdog and the mutex `g_mtx` -/

/-- The two threads of `watchdog/main.cpp`: the thread `trafficMonitor_th`, which
runs `MonitorTraffic` and with it the callback `GetPacket`, and the main
thread, which runs the report loop. -/
inductive Thread where
  | capture
  | main
  deriving DecidableEq, Repr

/-- The member functions of `TrafficAnalyzer` that the threads call. -/
inductive EngineCall where
  | addPacket
  | generateReport
  deriving DecidableEq, Repr

/-- The statements of the watchdog that touch the mutex, the analyzer, the
report queue or the socket: `g_mtx.lock()`, `g_mtx.unlock()`, the call of a
member function of the analyzer and the return from it, `g_reports.push`,
`g_reports.front` with `g_reports.pop`, `g_reports.empty`, `send`, `recv`, and
`sleep_for`. -/
inductive Op where
  | lock
  | unlock
  | enter (c : EngineCall)
  | leave
  | queuePush
  | queueFrontPop
  | queueEmpty
  | send
  | recv
  | sleep
  deriving DecidableEq, Repr

/-- The statements that one call of `GetPacket` executes, in order. In replay
mode a packet beyond a boundary that has been set closes the timeslice under
the mutex; a decoded packet is ingested under the mutex; the handler returns
before that when the header length or the protocol is not accepted. -/
def GetPacketOps (g_liveMode : Bool) (st : WatchdogState) (d : Delivery) : List Op :=
  (if !g_liveMode then
    if d.ts_usecs > st.g_maxts_usecs then
      if st.g_maxts_usecs > 0 then
        [Op.lock, Op.enter EngineCall.generateReport, Op.leave, Op.queuePush, Op.unlock]
      else []
    else []
  else []) ++
  (match d.pkt with
   | none => []
   | some _ => [Op.lock, Op.enter EngineCall.addPacket, Op.leave, Op.unlock])

/-- The statements of the capture thread: `MonitorTraffic` calls `GetPacket`
for each packet, in order. -/
def MonitorTrafficOps (g_liveMode : Bool) (timeslice_usecs : Int) :
    WatchdogState → List Delivery → List Op
  | _, [] => []
  | st, d :: rest =>
    GetPacketOps g_liveMode st d
      ++ MonitorTrafficOps g_liveMode timeslice_usecs
          (GetPacket g_liveMode timeslice_usecs st d) rest

/-- The statements of one pass of the report loop of `main`: in live mode
`sleep; lock; GenerateReport; unlock; send`, in replay mode
`sleep; lock; front; pop; unlock; send` and the test `g_reports.empty()` of
the loop. -/
def reportPassOps (g_liveMode : Bool) : List Op :=
  if g_liveMode then
    [Op.sleep, Op.lock, Op.enter EngineCall.generateReport, Op.leave, Op.unlock, Op.send]
  else [Op.sleep, Op.lock, Op.queueFrontPop, Op.unlock, Op.send, Op.queueEmpty]

/-- The statements of the main thread: the two receives of `ConnectToDesman`
and `StandbyToStart`, then `passes` passes of the report loop. -/
def mainOps (g_liveMode : Bool) : Nat → List Op
  | 0 => [Op.recv, Op.recv]
  | passes + 1 => mainOps g_liveMode passes ++ reportPassOps g_liveMode

/-- Lock discipline of a sequence of statements of one thread, given whether
the thread holds the mutex and whether it is within a member function of the
analyzer: `lock` and `unlock` alternate, the analyzer is entered only while
the mutex is held and left before the mutex is released, and no `send` or
`recv` is executed while the mutex is held. -/
def lockDiscipline : Bool → Bool → List Op → Bool
  | held, inside, [] => !held && !inside
  | held, inside, Op.lock :: r => !held && !inside && lockDiscipline true false r
  | held, inside, Op.unlock :: r => held && !inside && lockDiscipline false false r
  | held, inside, Op.enter _ :: r => held && !inside && lockDiscipline true true r
  | held, inside, Op.leave :: r => held && inside && lockDiscipline true false r
  | held, inside, Op.send :: r => !held && !inside && lockDiscipline false false r
  | held, inside, Op.recv :: r => !held && !inside && lockDiscipline false false r
  | held, inside, Op.queuePush :: r => !inside && lockDiscipline held false r
  | held, inside, Op.queueFrontPop :: r => !inside && lockDiscipline held false r
  | held, inside, Op.queueEmpty :: r => !inside && lockDiscipline held false r
  | held, inside, Op.sleep :: r => !inside && lockDiscipline held false r

/-- What can go wrong when the two threads run: a thread enters the analyzer
while the other thread is within it; a thread enters the analyzer without
holding the mutex; `send` or `recv` is executed while the mutex is held; a
thread unlocks a mutex that it does not hold. -/
inductive Fault where
  | race
  | notLocked
  | ioUnderLock
  | badUnlock
  deriving DecidableEq, Repr

/-- The two threads together: the owner of `g_mtx`, the thread that is within a
member function of the analyzer, the statements that each thread has still to
execute, and the faults so far. -/
structure ThreadsState where
  g_mtx : Option Thread
  inAnalyzer : Option Thread
  ops : Thread → List Op
  faults : List Fault

/-- The threads before their first statement. -/
def ThreadsState.init (captureOps mainThreadOps : List Op) : ThreadsState :=
  { g_mtx := none
    inAnalyzer := none
    ops := fun u => match u with
      | Thread.capture => captureOps
      | Thread.main => mainThreadOps
    faults := [] }

/-- Thread `t` executes its next statement. `lock` waits while the mutex is
held: the state then stays as it is. -/
def ThreadsState.step (s : ThreadsState) (t : Thread) : ThreadsState :=
  match s.ops t with
  | [] => s
  | Op.lock :: r =>
    if s.g_mtx = none then
      { s with g_mtx := some t, ops := fun u => if u = t then r else s.ops u }
    else s
  | Op.unlock :: r =>
    { s with g_mtx := none
             ops := fun u => if u = t then r else s.ops u
             faults := s.faults ++ (if s.g_mtx = some t then [] else [Fault.badUnlock]) }
  | Op.enter _ :: r =>
    { s with inAnalyzer := some t
             ops := fun u => if u = t then r else s.ops u
             faults := s.faults ++ (if s.g_mtx = some t then [] else [Fault.notLocked])
               ++ (if s.inAnalyzer = none then [] else [Fault.race]) }
  | Op.leave :: r =>
    { s with inAnalyzer := none, ops := fun u => if u = t then r else s.ops u }
  | Op.send :: r =>
    { s with ops := fun u => if u = t then r else s.ops u
             faults := s.faults ++ (if s.g_mtx = some t then [Fault.ioUnderLock] else []) }
  | Op.recv :: r =>
    { s with ops := fun u => if u = t then r else s.ops u
             faults := s.faults ++ (if s.g_mtx = some t then [Fault.ioUnderLock] else []) }
  | _ :: r => { s with ops := fun u => if u = t then r else s.ops u }

/-- The threads after the steps of a schedule: the schedule names, step by
step, the thread that runs next. -/
def ThreadsState.run (s : ThreadsState) (schedule : List Thread) : ThreadsState :=
  schedule.foldl ThreadsState.step s

/-- The state of the two threads is in order: no fault has occurred, the
statements that each thread has still to execute keep the lock discipline from
where the thread stands, and a thread within the analyzer holds the mutex. -/
def ThreadsState.Safe (s : ThreadsState) : Prop :=
  s.faults = [] ∧
  (∀ u, lockDiscipline (decide (s.g_mtx = some u)) (decide (s.inAnalyzer = some u)) (s.ops u)
    = true) ∧
  (∀ u, s.inAnalyzer = some u → s.g_mtx = some u)

/-! # Theorems -/

/-! ## Arithmetic of `int` -/

theorem wrapInt_of_inIntRange {x : Int} (h : inIntRange x) : wrapInt x = x := by
  unfold inIntRange at h
  unfold wrapInt
  omega

theorem wrapInt_inIntRange (x : Int) : inIntRange (wrapInt x) := by
  unfold inIntRange wrapInt
  omega

theorem wrapInt_wrapInt_add (a b : Int) : wrapInt (wrapInt a + b) = wrapInt (a + b) := by
  unfold wrapInt
  omega

theorem clampInt_of_inIntRange {x : Int} (h : inIntRange x) : clampInt x = x := by
  unfold inIntRange at h
  unfold clampInt
  split
  · omega
  · split
    · omega
    · rfl

theorem clampInt_wrapInt (x : Int) : clampInt (wrapInt x) = wrapInt x :=
  clampInt_of_inIntRange (wrapInt_inIntRange x)

theorem wrapInt_zero : wrapInt 0 = 0 := by decide

/-- The `int` product with 3 of a value that is not negative and whose
threefold an `int` holds is that threefold. -/
theorem wrapInt_threefold {p : Int} (h0 : 0 ≤ p) (h1 : 3 * p ≤ 2147483647) :
    wrapInt (p * 3) = p * 3 := by
  unfold wrapInt
  omega

/-! ## Key order of `std::map<string, _>` and `std::map<int, _>` -/

theorem charsLt_irrefl (a : List Char) : charsLt a a = false := by
  induction a with
  | nil => rfl
  | cons c cs ih => simp [charsLt, ih]

theorem charsLt_trans : ∀ (a b c : List Char),
    charsLt a b = true → charsLt b c = true → charsLt a c = true
  | [], [], _, h, _ => by simp [charsLt] at h
  | [], _ :: _, [], _, h => by simp [charsLt] at h
  | [], _ :: _, _ :: _, _, _ => by simp [charsLt]
  | _ :: _, [], _, h, _ => by simp [charsLt] at h
  | _ :: _, _ :: _, [], _, h => by simp [charsLt] at h
  | x :: xs, y :: ys, z :: zs, h1, h2 => by
    have ih := charsLt_trans xs ys zs
    simp only [charsLt] at h1 h2 ⊢
    by_cases hxy : x.toNat < y.toNat
    · by_cases hyz : y.toNat < z.toNat
      · have : x.toNat < z.toNat := by omega
        simp [this]
      · simp only [hyz, if_false] at h2
        by_cases hzy : z.toNat < y.toNat
        · simp [hzy] at h2
        · have : x.toNat < z.toNat := by omega
          simp [this]
    · simp only [hxy, if_false] at h1
      by_cases hyx : y.toNat < x.toNat
      · simp [hyx] at h1
      · simp only [hyx, if_false] at h1
        have hxy2 : x.toNat = y.toNat := by omega
        by_cases hyz : y.toNat < z.toNat
        · have : x.toNat < z.toNat := by omega
          simp [this]
        · simp only [hyz, if_false] at h2
          by_cases hzy : z.toNat < y.toNat
          · simp [hzy] at h2
          · simp only [hzy, if_false] at h2
            have h3 : ¬ x.toNat < z.toNat := by omega
            have h4 : ¬ z.toNat < x.toNat := by omega
            simp only [h3, h4, if_false]
            exact ih h1 h2

theorem char_eq_of_toNat_eq (a b : Char) (h : a.toNat = b.toNat) : a = b := by
  apply Char.ext
  apply UInt32.ext
  exact h

theorem charsLt_total : ∀ (a b : List Char), a ≠ b → charsLt a b = false → charsLt b a = true
  | [], [], h, _ => by simp at h
  | [], _ :: _, _, h => by simp [charsLt] at h
  | _ :: _, [], _, _ => by simp [charsLt]
  | x :: xs, y :: ys, hne, h => by
    have ih := charsLt_total xs ys
    simp only [charsLt] at h ⊢
    by_cases hxy : x.toNat < y.toNat
    · simp [hxy] at h
    · simp only [hxy, if_false] at h
      by_cases hyx : y.toNat < x.toNat
      · simp [hyx]
      · simp only [hyx, if_false] at h ⊢
        have hxy2 : x = y := char_eq_of_toNat_eq x y (by omega)
        subst hxy2
        simp only [lt_self_iff_false, if_false]
        apply ih _ h
        intro hh; apply hne; rw [hh]


theorem strLt_strictTotal : StrictTotal strLt where
  irrefl a := charsLt_irrefl a.data
  trans a b c := charsLt_trans a.data b.data c.data
  total a b hne h := by
    apply charsLt_total a.data b.data _ h
    intro hh; apply hne; exact String.ext hh

theorem intLt_strictTotal : StrictTotal intLt where
  irrefl a := by simp [intLt]
  trans a b c := by simp only [intLt, decide_eq_true_eq]; omega
  total a b := by simp only [intLt, decide_eq_true_eq, decide_eq_false_iff_not]; omega

section MapLemmas
variable {κ α : Type} {lt : κ → κ → Bool}

theorem mapSorted_cons {e : κ × α} {m : List (κ × α)} :
    MapSorted lt (e :: m) ↔ (∀ x ∈ m, lt e.1 x.1 = true) ∧ MapSorted lt m := by
  simp [MapSorted, List.pairwise_cons]

variable [DecidableEq κ]

theorem mapFind_eq_none_of_lt (h : StrictTotal lt) (k : κ) :
    ∀ (m : List (κ × α)), (∀ x ∈ m, lt k x.1 = true) → mapFind k m = none
  | [], _ => rfl
  | (k1, v) :: rest, hall => by
    have h1 : lt k k1 = true := hall (k1, v) (by simp)
    have hne : k ≠ k1 := by
      intro hh; subst hh; rw [h.irrefl] at h1; exact Bool.noConfusion h1
    simp only [mapFind, hne, if_false]
    exact mapFind_eq_none_of_lt h k rest (fun x hx => hall x (by simp [hx]))

theorem mapFind_mapModify_self (h : StrictTotal lt) (dflt : α) (k : κ) (f : α → α) :
    ∀ (m : List (κ × α)), MapSorted lt m →
      mapFind k (mapModify lt dflt k f m) = some (f ((mapFind k m).getD dflt))
  | [], _ => by simp [mapModify, mapFind]
  | (k1, v) :: rest, hs => by
    rw [mapSorted_cons] at hs
    by_cases h1 : k = k1
    · subst h1; simp [mapModify, mapFind]
    · cases h2 : lt k k1 with
      | true =>
        have hnone : mapFind k rest = none := by
          apply mapFind_eq_none_of_lt h
          intro x hx
          exact h.trans _ _ _ h2 (hs.1 x hx)
        simp [mapModify, mapFind, h1, h2, hnone]
      | false =>
        simp only [mapModify, mapFind, h1, h2, if_false, Bool.false_eq_true]
        exact mapFind_mapModify_self h dflt k f rest hs.2

theorem mapFind_mapModify_other (dflt : α) (k k2 : κ) (f : α → α) (hne : k2 ≠ k) :
    ∀ (m : List (κ × α)), mapFind k2 (mapModify lt dflt k f m) = mapFind k2 m
  | [] => by simp [mapModify, mapFind, hne]
  | (k1, v) :: rest => by
    by_cases h1 : k = k1
    · subst h1; simp [mapModify, mapFind, hne]
    · cases h2 : lt k k1 with
      | true => simp [mapModify, mapFind, h1, h2, hne]
      | false =>
        simp only [mapModify, mapFind, h1, h2, if_false, Bool.false_eq_true]
        by_cases h3 : k2 = k1
        · simp [h3]
        · simp only [h3, if_false]
          exact mapFind_mapModify_other dflt k k2 f hne rest

theorem mem_mapModify (dflt : α) (k : κ) (f : α → α) :
    ∀ (m : List (κ × α)) (x : κ × α), x ∈ mapModify lt dflt k f m → x.1 = k ∨ x ∈ m
  | [], x, hx => by
    simp only [mapModify, List.mem_singleton] at hx
    left; rw [hx]
  | (k1, v) :: rest, x, hx => by
    by_cases h1 : k = k1
    · subst h1
      simp only [mapModify, if_true, List.mem_cons] at hx
      rcases hx with hx | hx
      · left; rw [hx]
      · right; simp [hx]
    · cases h2 : lt k k1 with
      | true =>
        simp only [mapModify, h1, h2, if_true, if_false, List.mem_cons] at hx
        rcases hx with hx | hx | hx
        · left; rw [hx]
        · right; simp [hx]
        · right; simp [hx]
      | false =>
        simp only [mapModify, h1, h2, if_false, Bool.false_eq_true, List.mem_cons] at hx
        rcases hx with hx | hx
        · right; simp [hx]
        · rcases mem_mapModify dflt k f rest x hx with h3 | h3
          · left; exact h3
          · right; simp [h3]

theorem mapSorted_mapModify (h : StrictTotal lt) (dflt : α) (k : κ) (f : α → α) :
    ∀ (m : List (κ × α)), MapSorted lt m → MapSorted lt (mapModify lt dflt k f m)
  | [], _ => by simp [mapModify, MapSorted]
  | (k1, v) :: rest, hs => by
    have hs0 := hs
    rw [mapSorted_cons] at hs
    by_cases h1 : k = k1
    · subst h1
      simp only [mapModify, if_true]
      rw [mapSorted_cons]
      exact ⟨hs.1, hs.2⟩
    · cases h2 : lt k k1 with
      | true =>
        simp only [mapModify, h1, h2, if_true, if_false]
        rw [mapSorted_cons]
        refine ⟨?_, hs0⟩
        intro x hx
        rw [List.mem_cons] at hx
        rcases hx with hx | hx
        · rw [hx]; exact h2
        · exact h.trans _ _ _ h2 (hs.1 x hx)
      | false =>
        simp only [mapModify, h1, h2, if_false, Bool.false_eq_true]
        rw [mapSorted_cons]
        refine ⟨?_, mapSorted_mapModify h dflt k f rest hs.2⟩
        intro x hx
        rcases mem_mapModify dflt k f rest x hx with h3 | h3
        · rw [h3]
          exact h.total k k1 h1 h2
        · exact hs.1 x h3

end MapLemmas

/-! ## Packet ingestion -/

theorem flowListed_iff (flow : flow_t) (l : List flow_t) : flowListed flow l = true ↔ flow ∈ l := by
  induction l with
  | nil => simp [flowListed]
  | cons f rest ih =>
    by_cases h : f = flow
    · simp [flowListed, h]
    · have h2 : ¬ flow = f := fun hh => h hh.symm
      simp [flowListed, h, h2, ih]

theorem AddPacketData_packets (d : TrafficData) (size : Int) (flow : flow_t) :
    (d.AddPacketData size flow).packets = wrapInt (d.packets + 1) := by
  unfold TrafficData.AddPacketData
  dsimp only
  split <;> rfl

theorem AddPacketData_bytes (d : TrafficData) (size : Int) (flow : flow_t) :
    (d.AddPacketData size flow).bytes = wrapInt (d.bytes + size) := by
  unfold TrafficData.AddPacketData
  dsimp only
  split <;> rfl

theorem AddPacketData_flows (d : TrafficData) (size : Int) (flow : flow_t) :
    (d.AddPacketData size flow).flows = if flow ∈ d.flows then d.flows else d.flows ++ [flow] := by
  unfold TrafficData.AddPacketData
  by_cases h : flow ∈ d.flows
  · have := (flowListed_iff flow d.flows).mpr h
    simp [h, this]
  · have : flowListed flow d.flows = false := by
      cases hh : flowListed flow d.flows with
      | false => rfl
      | true => exact absurd ((flowListed_iff flow d.flows).mp hh) h
    simp [h, this]

theorem AddPacket_sorted (s : TrafficAnalyzer) (p : PacketInfo)
    (hs : MapSorted strLt s.m_dstTrafficMap) : MapSorted strLt (s.AddPacket p).m_dstTrafficMap :=
  mapSorted_mapModify strLt_strictTotal _ _ _ _ hs

theorem AddPacket_accumulator (s : TrafficAnalyzer) (p : PacketInfo)
    (hs : MapSorted strLt s.m_dstTrafficMap) :
    mapFind p.dst_ip (s.AddPacket p).m_dstTrafficMap
      = some ((s.accumulator p.dst_ip).AddPacketData p.size p.flow) :=
  mapFind_mapModify_self strLt_strictTotal _ _ _ _ hs

theorem AddPacket_other (s : TrafficAnalyzer) (p : PacketInfo) (dst : String)
    (hne : dst ≠ p.dst_ip) :
    mapFind dst (s.AddPacket p).m_dstTrafficMap = mapFind dst s.m_dstTrafficMap :=
  mapFind_mapModify_other _ _ _ _ hne _

/-- The analyzer after one or more packets with the same descriptor have been
ingested into an empty destination map: one destination, one flow, and the
counts reduced to the range of `int`. -/
theorem AddPackets_replicate (s : TrafficAnalyzer) (hs : s.m_dstTrafficMap = [])
    (p : PacketInfo) (n : Nat) :
    s.AddPackets (List.replicate (n + 1) p)
      = { s with
          m_dstTrafficMap :=
            [(p.dst_ip,
              { packets := wrapInt ((n : Int) + 1), bytes := wrapInt (((n : Int) + 1) * p.size),
                flows := [p.flow] })] } := by
  induction n with
  | zero =>
    simp [TrafficAnalyzer.AddPackets, TrafficAnalyzer.AddPacket, hs, mapModify,
      TrafficData.AddPacketData, TrafficData.new, flowListed]
  | succ n ih =>
    have happ : s.AddPackets (List.replicate (n + 1 + 1) p)
        = (s.AddPackets (List.replicate (n + 1) p)).AddPacket p := by
      rw [List.replicate_succ' (n + 1) p]
      unfold TrafficAnalyzer.AddPackets
      rw [List.foldl_append]
      rfl
    rw [happ, ih]
    have h1 : wrapInt (wrapInt ((n : Int) + 1) + 1) = wrapInt (((n + 1 : Nat) : Int) + 1) := by
      rw [wrapInt_wrapInt_add, Nat.cast_add, Nat.cast_one]
    have h2 : wrapInt (wrapInt (((n : Int) + 1) * p.size) + p.size)
        = wrapInt ((((n + 1 : Nat) : Int) + 1) * p.size) := by
      have e : ((n : Int) + 1) * p.size + p.size = (((n + 1 : Nat) : Int) + 1) * p.size := by
        rw [Nat.cast_add, Nat.cast_one]
        ring
      rw [wrapInt_wrapInt_add, e]
    simp [TrafficAnalyzer.AddPacket, mapModify, TrafficData.AddPacketData, flowListed, h1, h2]

theorem nearLimitAnalyzer_eq :
    nearLimitAnalyzer
      = { m_logfile := "log"
          m_dstTrafficMap :=
            [("10.0.0.2",
              { packets := 32768, bytes := 2147450880,
                flows := [("10.0.0.1", "10.0.0.2", 1234, 80, "TCP")] })]
          m_prevData := TrafficData.new
          m_reportsGenerated := 0 } := by
  unfold nearLimitAnalyzer
  rw [show (32768 : Nat) = 32767 + 1 from rfl, AddPackets_replicate _ rfl]
  decide

theorem pastLimitAnalyzer_eq :
    pastLimitAnalyzer
      = { m_logfile := "log"
          m_dstTrafficMap :=
            [("10.0.0.2",
              { packets := 32769, bytes := -2147450881,
                flows := [("10.0.0.1", "10.0.0.2", 1234, 80, "TCP")] })]
          m_prevData := TrafficData.new
          m_reportsGenerated := 0 } := by
  unfold pastLimitAnalyzer
  rw [show (32769 : Nat) = 32768 + 1 from rfl, AddPackets_replicate _ rfl]
  decide

theorem heavyAnalyzer_eq :
    heavyAnalyzer
      = { m_logfile := "log"
          m_dstTrafficMap :=
            [("10.0.0.2",
              { packets := 30518, bytes := 1999997130,
                flows := [("10.0.0.1", "10.0.0.2", 1234, 80, "TCP")] })]
          m_prevData := TrafficData.new
          m_reportsGenerated := 0 } := by
  unfold heavyAnalyzer
  rw [show (30518 : Nat) = 30517 + 1 from rfl, AddPackets_replicate _ rfl]
  decide

theorem afterHeavyTimeslice_eq :
    afterHeavyTimeslice
      = { m_logfile := "log"
          m_dstTrafficMap := []
          m_prevData :=
            { packets := 16000, bytes := 800000000,
              flows := [("10.0.0.1", "10.0.0.2", 1234, 80, "TCP")] }
          m_reportsGenerated := 1 } := by
  unfold afterHeavyTimeslice TrafficAnalyzer.runTimeslices
  simp only [List.foldl_cons, List.foldl_nil]
  rw [show (16000 : Nat) = 15999 + 1 from rfl, AddPackets_replicate _ rfl]
  decide

/-- C1 (as amended): for every engine state and every packet p, AddPacket(p)
leaves an accumulator for p's destination whose packet count is the former
one plus 1 and whose byte count is the former one plus p.size whenever that
sum is a value of an `int`; the counters are `int`s, and a sum outside the
range is reduced to the range. The flow count is the former one plus 1 when
p's FlowKey was not yet in that destination's flow list and plus 0 otherwise;
the accumulators of the other destinations are untouched; and ingesting a
second packet q with the same FlowKey raises the packet count by 2 in all,
again whenever the sum is a value of an `int`, and the flow count by no more
than the first packet did, that is by 1 for a FlowKey that was not listed. -/
theorem C1_AddPacket_counts (s : TrafficAnalyzer) (p : PacketInfo)
    (hs : MapSorted strLt s.m_dstTrafficMap) :
    (mapFind p.dst_ip (s.AddPacket p).m_dstTrafficMap).isSome = true ∧
    ((s.AddPacket p).accumulator p.dst_ip).packets
      = wrapInt ((s.accumulator p.dst_ip).packets + 1) ∧
    ((s.AddPacket p).accumulator p.dst_ip).bytes
      = wrapInt ((s.accumulator p.dst_ip).bytes + p.size) ∧
    (inIntRange ((s.accumulator p.dst_ip).packets + 1) →
      ((s.AddPacket p).accumulator p.dst_ip).packets = (s.accumulator p.dst_ip).packets + 1) ∧
    (inIntRange ((s.accumulator p.dst_ip).bytes + p.size) →
      ((s.AddPacket p).accumulator p.dst_ip).bytes = (s.accumulator p.dst_ip).bytes + p.size) ∧
    ((s.AddPacket p).accumulator p.dst_ip).flows.length
      = (s.accumulator p.dst_ip).flows.length
        + (if p.flow ∈ (s.accumulator p.dst_ip).flows then 0 else 1) ∧
    (∀ dst, dst ≠ p.dst_ip →
      mapFind dst (s.AddPacket p).m_dstTrafficMap = mapFind dst s.m_dstTrafficMap) ∧
    (∀ q : PacketInfo, q.flow = p.flow →
      (((s.AddPacket p).AddPacket q).accumulator p.dst_ip).packets
        = wrapInt ((s.accumulator p.dst_ip).packets + 2) ∧
      (((s.AddPacket p).AddPacket q).accumulator p.dst_ip).bytes
        = wrapInt ((s.accumulator p.dst_ip).bytes + p.size + q.size) ∧
      (inIntRange ((s.accumulator p.dst_ip).packets + 2) →
        (((s.AddPacket p).AddPacket q).accumulator p.dst_ip).packets
          = (s.accumulator p.dst_ip).packets + 2) ∧
      (inIntRange ((s.accumulator p.dst_ip).bytes + p.size + q.size) →
        (((s.AddPacket p).AddPacket q).accumulator p.dst_ip).bytes
          = (s.accumulator p.dst_ip).bytes + p.size + q.size) ∧
      (((s.AddPacket p).AddPacket q).accumulator p.dst_ip).flows.length
        = (s.accumulator p.dst_ip).flows.length
          + (if p.flow ∈ (s.accumulator p.dst_ip).flows then 0 else 1)) := by
  have h1 := AddPacket_accumulator s p hs
  have hacc : (s.AddPacket p).accumulator p.dst_ip
      = (s.accumulator p.dst_ip).AddPacketData p.size p.flow := by
    simp [TrafficAnalyzer.accumulator, h1]
  have hlen : ((s.accumulator p.dst_ip).AddPacketData p.size p.flow).flows.length
      = (s.accumulator p.dst_ip).flows.length
        + (if p.flow ∈ (s.accumulator p.dst_ip).flows then 0 else 1) := by
    rw [AddPacketData_flows]
    split <;> simp
  refine ⟨by simp [h1], ?_, ?_, ?_, ?_, ?_, ?_, ?_⟩
  · rw [hacc, AddPacketData_packets]
  · rw [hacc, AddPacketData_bytes]
  · intro hr
    rw [hacc, AddPacketData_packets, wrapInt_of_inIntRange hr]
  · intro hr
    rw [hacc, AddPacketData_bytes, wrapInt_of_inIntRange hr]
  · rw [hacc, hlen]
  · intro dst hne
    exact AddPacket_other s p dst hne
  · intro q hq
    have hdst : q.dst_ip = p.dst_ip := by
      have := congrArg (fun f : flow_t => f.2.1) hq
      simpa [PacketInfo.flow] using this
    have h2 := AddPacket_accumulator (s.AddPacket p) q (AddPacket_sorted s p hs)
    rw [hdst] at h2
    have hacc2 : ((s.AddPacket p).AddPacket q).accumulator p.dst_ip
        = ((s.AddPacket p).accumulator p.dst_ip).AddPacketData q.size q.flow := by
      simp [TrafficAnalyzer.accumulator, h2]
    have hin : q.flow ∈ ((s.accumulator p.dst_ip).AddPacketData p.size p.flow).flows := by
      rw [hq, AddPacketData_flows]
      split <;> simp_all
    have hpk : (((s.AddPacket p).AddPacket q).accumulator p.dst_ip).packets
        = wrapInt ((s.accumulator p.dst_ip).packets + 2) := by
      rw [hacc2, AddPacketData_packets, hacc, AddPacketData_packets, wrapInt_wrapInt_add]
      congr 1
      ring
    have hby : (((s.AddPacket p).AddPacket q).accumulator p.dst_ip).bytes
        = wrapInt ((s.accumulator p.dst_ip).bytes + p.size + q.size) := by
      rw [hacc2, AddPacketData_bytes, hacc, AddPacketData_bytes, wrapInt_wrapInt_add]
    refine ⟨hpk, hby, ?_, ?_, ?_⟩
    · intro hr
      rw [hpk, wrapInt_of_inIntRange hr]
    · intro hr
      rw [hby, wrapInt_of_inIntRange hr]
    · rw [hacc2, AddPacketData_flows, hacc, if_pos hin, hlen]

/-- Witness of C1: a packet ingested into a fresh analyzer, whose map is empty. -/
theorem C1_AddPacket_counts_witness :
    MapSorted strLt (TrafficAnalyzer.new "log").m_dstTrafficMap ∧
    inIntRange (((TrafficAnalyzer.new "log").accumulator examplePacket.dst_ip).packets + 1) ∧
    (((TrafficAnalyzer.new "log").AddPacket examplePacket).accumulator
        examplePacket.dst_ip).packets
      = ((TrafficAnalyzer.new "log").accumulator examplePacket.dst_ip).packets + 1 :=
  ⟨by simp [MapSorted, TrafficAnalyzer.new], by decide,
   (C1_AddPacket_counts (TrafficAnalyzer.new "log") examplePacket
      (by simp [MapSorted, TrafficAnalyzer.new])).2.2.2.1 (by decide)⟩

/-- Counterexample to C1 as stated: after 32768 packets of 65535 bytes to
10.0.0.2 the byte count of that destination is 2147450880; one more packet of
65535 bytes leaves the byte count -2147450881, not 2147450880 + 65535, while
the packet count goes from 32768 to 32769. -/
theorem C1_counterexample :
    (packetOfSize 65535).size = 65535 ∧ (packetOfSize 65535).dst_ip = "10.0.0.2" ∧
    (nearLimitAnalyzer.accumulator "10.0.0.2").packets = 32768 ∧
    (nearLimitAnalyzer.accumulator "10.0.0.2").bytes = 2147450880 ∧
    ((nearLimitAnalyzer.AddPacket (packetOfSize 65535)).accumulator "10.0.0.2").packets
      = 32769 ∧
    ((nearLimitAnalyzer.AddPacket (packetOfSize 65535)).accumulator "10.0.0.2").bytes
      = -2147450881 ∧
    ((nearLimitAnalyzer.AddPacket (packetOfSize 65535)).accumulator "10.0.0.2").bytes
      ≠ (nearLimitAnalyzer.accumulator "10.0.0.2").bytes + (packetOfSize 65535).size := by
  rw [nearLimitAnalyzer_eq]
  decide

/-! ## Alert check -/

/-- C2 (as amended): for every pair of previous totals and current totals,
CheckAlert sets the flag of the packets metric and of the bytes metric exactly
when the current total exceeds the `int` product of 3 and the previous total,
which is 3 times the previous total whenever that is a value of an `int`, and
the flag of the flows metric exactly when the current total exceeds 3 times
the previous total; it returns true exactly when at least one flag is set;
with previous (10, 1000, 2) and current (31, 1000, 2) only the packets flag is
set; and with previous (0, 0, 0) a metric alerts exactly when its current
total is positive. -/
theorem C2_CheckAlert_threshold (s : TrafficAnalyzer) (cur : TrafficData) :
    ((s.CheckAlert cur).2.packets = true
      ↔ cur.packets > wrapInt (3 * s.m_prevData.packets)) ∧
    ((s.CheckAlert cur).2.bytes = true ↔ cur.bytes > wrapInt (3 * s.m_prevData.bytes)) ∧
    (inIntRange (3 * s.m_prevData.packets) →
      ((s.CheckAlert cur).2.packets = true ↔ cur.packets > 3 * s.m_prevData.packets)) ∧
    (inIntRange (3 * s.m_prevData.bytes) →
      ((s.CheckAlert cur).2.bytes = true ↔ cur.bytes > 3 * s.m_prevData.bytes)) ∧
    ((s.CheckAlert cur).2.flows = true ↔ cur.flows.length > 3 * s.m_prevData.flows.length) ∧
    ((s.CheckAlert cur).1 = true ↔
      ((s.CheckAlert cur).2.packets = true ∨ (s.CheckAlert cur).2.bytes = true
        ∨ (s.CheckAlert cur).2.flows = true)) ∧
    (s.m_prevData.packets = 10 ∧ s.m_prevData.bytes = 1000 ∧ s.m_prevData.flows.length = 2 ∧
      cur.packets = 31 ∧ cur.bytes = 1000 ∧ cur.flows.length = 2 →
      (s.CheckAlert cur).2 = { packets := true, bytes := false, flows := false }) ∧
    (s.m_prevData.packets = 0 ∧ s.m_prevData.bytes = 0 ∧ s.m_prevData.flows.length = 0 →
      ((s.CheckAlert cur).2.packets = true ↔ 0 < cur.packets) ∧
      ((s.CheckAlert cur).2.bytes = true ↔ 0 < cur.bytes) ∧
      ((s.CheckAlert cur).2.flows = true ↔ 0 < cur.flows.length)) := by
  have hp : (s.CheckAlert cur).2.packets = true
      ↔ cur.packets > wrapInt (3 * s.m_prevData.packets) := by
    simp only [TrafficAnalyzer.CheckAlert, decide_eq_true_eq, mul_comm]
  have hb : (s.CheckAlert cur).2.bytes = true ↔ cur.bytes > wrapInt (3 * s.m_prevData.bytes) := by
    simp only [TrafficAnalyzer.CheckAlert, decide_eq_true_eq, mul_comm]
  have h30 : wrapInt 30 = 30 := by decide
  have h3000 : wrapInt 3000 = 3000 := by decide
  refine ⟨hp, hb, ?_, ?_, ?_, ?_, ?_, ?_⟩
  · intro hr
    rw [hp, wrapInt_of_inIntRange hr]
  · intro hr
    rw [hb, wrapInt_of_inIntRange hr]
  · simp only [TrafficAnalyzer.CheckAlert, decide_eq_true_eq]; constructor <;> intro h <;> omega
  · simp only [TrafficAnalyzer.CheckAlert, Bool.or_eq_true, or_assoc]
  · rintro ⟨h1, h2, h3, h4, h5, h6⟩
    simp [TrafficAnalyzer.CheckAlert, h1, h2, h3, h4, h5, h6, h30, h3000]
  · rintro ⟨h1, h2, h3⟩
    simp [TrafficAnalyzer.CheckAlert, h1, h2, h3, wrapInt_zero]

/-- Witness of C2: the analyzer with previous totals (10, 1000, 2) and current
totals (31, 1000, 2). -/
theorem C2_CheckAlert_threshold_witness :
    (exampleAnalyzer.m_prevData.packets = 10 ∧ exampleAnalyzer.m_prevData.bytes = 1000 ∧
      exampleAnalyzer.m_prevData.flows.length = 2 ∧ exampleAnalyzer.totals.packets = 31 ∧
      exampleAnalyzer.totals.bytes = 1000 ∧ exampleAnalyzer.totals.flows.length = 2) ∧
    (exampleAnalyzer.CheckAlert exampleAnalyzer.totals).2
      = { packets := true, bytes := false, flows := false } :=
  ⟨by decide, (C2_CheckAlert_threshold exampleAnalyzer exampleAnalyzer.totals).2.2.2.2.2.2.1
    (by decide)⟩

/-- Counterexample to C2 as stated. First, after a timeslice of 16000 packets
of 50000 bytes the previous byte total is 800000000; in the next timeslice
one packet of 1000 bytes arrives, and the current byte total 1000 does not
exceed 3 * 800000000, yet CheckAlert sets the bytes flag: the `int` product is
-1894967296. Second, a fresh analyzer has previous totals (0, 0, 0); after
32769 packets of 65535 bytes the current byte total is -2147450881, which is
not zero, and CheckAlert does not set the bytes flag. -/
theorem C2_counterexample :
    ((afterHeavyTimeslice.AddPacket (packetOfSize 1000)).m_prevData.bytes = 800000000 ∧
      (afterHeavyTimeslice.AddPacket (packetOfSize 1000)).totals.bytes = 1000 ∧
      ¬ ((afterHeavyTimeslice.AddPacket (packetOfSize 1000)).totals.bytes
          > 3 * (afterHeavyTimeslice.AddPacket (packetOfSize 1000)).m_prevData.bytes) ∧
      ((afterHeavyTimeslice.AddPacket (packetOfSize 1000)).CheckAlert
        (afterHeavyTimeslice.AddPacket (packetOfSize 1000)).totals).2.bytes = true) ∧
    (pastLimitAnalyzer.m_prevData = { packets := 0, bytes := 0, flows := [] } ∧
      pastLimitAnalyzer.totals.bytes = -2147450881 ∧
      pastLimitAnalyzer.totals.bytes ≠ 0 ∧
      (pastLimitAnalyzer.CheckAlert pastLimitAnalyzer.totals).2.bytes = false) := by
  rw [afterHeavyTimeslice_eq, pastLimitAnalyzer_eq]
  decide

/-! ## Decimal text of integers -/

theorem digitChar_spec (d : Nat) (h : d < 10) :
    isDigitChar (Nat.digitChar d) = true ∧ (Nat.digitChar d).toNat - 48 = d ∧
      isSpace (Nat.digitChar d) = false := by
  interval_cases d <;> decide

theorem readDigits_append_digits (l : List Char) (hl : ∀ c ∈ l, isDigitChar c = true) :
    ∀ (acc : Nat) (rest : List Char),
      readDigits acc (l ++ rest) = readDigits (readDigits acc l) rest := by
  induction l with
  | nil => intro acc rest; simp [readDigits]
  | cons c cs ih =>
    intro acc rest
    have hc : isDigitChar c = true := hl c (by simp)
    simp only [List.cons_append, readDigits, hc, if_true]
    exact ih (fun x hx => hl x (by simp [hx])) _ _

/-- The digits that `Nat.toDigitsCore` puts in front of `ds`. -/
theorem toDigitsCore_spec : ∀ (fuel n : Nat) (ds : List Char), n < fuel →
    ∃ l : List Char, Nat.toDigitsCore 10 fuel n ds = l ++ ds ∧ l ≠ [] ∧
      (∀ c ∈ l, isDigitChar c = true ∧ isSpace c = false) ∧
      ∀ acc : Nat, readDigits acc l = acc * 10 ^ l.length + n
  | 0, n, ds, h => by omega
  | fuel + 1, n, ds, h => by
    have hd := digitChar_spec (n % 10) (Nat.mod_lt _ (by decide))
    simp only [Nat.toDigitsCore]
    by_cases h0 : n / 10 = 0
    · simp only [h0, if_true]
      refine ⟨[Nat.digitChar (n % 10)], rfl, by simp, ?_, ?_⟩
      · intro c hc
        rw [List.mem_singleton] at hc
        rw [hc]; exact ⟨hd.1, hd.2.2⟩
      · intro acc
        have hn : n % 10 = n := by omega
        simp only [readDigits, hd.1, if_true, hd.2.1, List.length_singleton, pow_one]
        rw [hn]
    · simp only [h0, if_false]
      have hlt : n / 10 < fuel := by omega
      obtain ⟨l, hl1, _, hl3, hl4⟩ :=
        toDigitsCore_spec fuel (n / 10) (Nat.digitChar (n % 10) :: ds) hlt
      refine ⟨l ++ [Nat.digitChar (n % 10)], by simp [hl1], by simp, ?_, ?_⟩
      · intro c hc
        rw [List.mem_append, List.mem_singleton] at hc
        rcases hc with hc | hc
        · exact hl3 c hc
        · rw [hc]; exact ⟨hd.1, hd.2.2⟩
      · intro acc
        rw [readDigits_append_digits l (fun c hc => (hl3 c hc).1), hl4]
        simp only [readDigits, hd.1, if_true, hd.2.1, List.length_append, List.length_singleton,
          pow_succ]
        have := Nat.div_add_mod n 10
        nlinarith [Nat.div_add_mod n 10]

theorem natRepr_spec (n : Nat) :
    (toString n).data ≠ [] ∧
      (∀ c ∈ (toString n).data, isDigitChar c = true ∧ isSpace c = false) ∧
      readDigits 0 (toString n).data = n := by
  obtain ⟨l, h1, h2, h3, h4⟩ := toDigitsCore_spec (n + 1) n [] (by omega)
  have hdata : (toString n).data = l := by
    show (Nat.repr n).data = l
    simp [Nat.repr, Nat.toDigits, h1, List.asString]
  rw [hdata]
  exact ⟨h2, h3, by simp [h4]⟩

theorem digit_not_sign (c : Char) (h : isDigitChar c = true) : c.toNat ≠ 45 ∧ c.toNat ≠ 43 := by
  simp only [isDigitChar, Bool.and_eq_true, decide_eq_true_eq] at h
  omega

theorem decimalValue_natRepr (n : Nat) : decimalValue (toString n).data = (n : Int) := by
  obtain ⟨h1, h2, h3⟩ := natRepr_spec n
  cases hd : (toString n).data with
  | nil => exact absurd hd h1
  | cons c cs =>
    rw [hd] at h2 h3
    have hc := digit_not_sign c (h2 c (by simp)).1
    simp only [decimalValue, hc.1, hc.2, if_false, h3]

/-- The decimal text of an integer denotes the integer, and the text is one
word: not empty and without whitespace. -/
theorem intRepr_spec (i : Int) :
    (toString i).data ≠ [] ∧ (∀ c ∈ (toString i).data, isSpace c = false) ∧
      decimalValue (toString i).data = i := by
  cases i with
  | ofNat n =>
    have h := natRepr_spec n
    have hs : toString (Int.ofNat n) = toString n := rfl
    rw [hs]
    exact ⟨h.1, fun c hc => (h.2.1 c hc).2, decimalValue_natRepr n⟩
  | negSucc n =>
    have h := natRepr_spec (n + 1)
    have hs : (toString (Int.negSucc n)).data = Char.ofNat 45 :: (toString (n + 1)).data := by
      show (Int.repr (Int.negSucc n)).data = _
      simp only [Int.repr, String.data_append]
      rfl
    rw [hs]
    refine ⟨by simp, ?_, ?_⟩
    · intro c hc
      rw [List.mem_cons] at hc
      rcases hc with hc | hc
      · rw [hc]; decide
      · exact (h.2.1 c hc).2
    · have h45 : (Char.ofNat 45).toNat = 45 := by decide
      simp only [decimalValue, h45, if_true, h.2.2]
      rfl

/-- Extraction of an `int` from the decimal text of an integer stores the
integer when an `int` holds it, and the nearest limit of the range otherwise. -/
theorem extractInt_intRepr (i : Int) : extractInt (toString i).data = clampInt i := by
  unfold extractInt
  rw [(intRepr_spec i).2.2]

theorem extractInt_natRepr (n : Nat) : extractInt (toString n).data = clampInt (n : Int) := by
  unfold extractInt
  rw [decimalValue_natRepr]

/-! ## Words of a report -/

theorem wordsAux_word (w : List Char) (hw : ∀ c ∈ w, isSpace c = false) (tail : List Char)
    (ht : ∀ c ∈ tail.head?, isSpace c = true) :
    ∀ cur : List Char, cur.reverse ++ w ≠ [] →
      wordsAux cur (w ++ tail) = (cur.reverse ++ w) :: wordsAux [] tail := by
  induction w with
  | nil =>
    intro cur hne
    have hcur : cur ≠ [] := by simpa using hne
    have hemp : cur.isEmpty = false := by
      cases cur with
      | nil => exact absurd rfl hcur
      | cons _ _ => rfl
    cases tail with
    | nil => simp [wordsAux, hemp]
    | cons c rest =>
      have hc : isSpace c = true := ht c (by simp)
      simp [wordsAux, hc, hemp]
  | cons c w ih =>
    intro cur _
    have hc : isSpace c = false := hw c (by simp)
    have h := ih (fun x hx => hw x (by simp [hx])) (c :: cur) (by simp)
    show wordsAux cur (c :: (w ++ tail)) = _
    simp only [wordsAux, hc, Bool.false_eq_true, if_false]
    rw [h]
    simp

/-- A word in front of a blank, or at the end of the text, is the first word. -/
theorem words_word (w : List Char) (hne : w ≠ []) (hw : ∀ c ∈ w, isSpace c = false)
    (tail : List Char) (ht : ∀ c ∈ tail.head?, isSpace c = true) :
    wordsAux [] (w ++ tail) = w :: wordsAux [] tail := by
  have h := wordsAux_word w hw tail ht [] (by simpa using hne)
  simpa using h

theorem destinationSuffix_head (flags : AlertFlags) (st : ScanState) :
    ∀ c ∈ (destinationSuffix flags st).data.head?, isSpace c = true := by
  intro c hc
  unfold destinationSuffix at hc
  split at hc
  · simp only [String.data_append] at hc
    have : c = Char.ofNat 32 := by simpa using hc.symm
    rw [this]; decide
  · split at hc
    · simp only [String.data_append] at hc
      have : c = Char.ofNat 32 := by simpa using hc.symm
      rw [this]; decide
    · split at hc
      · simp only [String.data_append] at hc
        have : c = Char.ofNat 32 := by simpa using hc.symm
        rw [this]; decide
      · simp at hc

theorem reportText_data (alert : Bool) (flags : AlertFlags) (reportId : Int) (st : ScanState) :
    (reportText alert flags reportId st).data
      = (if alert then "alert".data ++ [Char.ofNat 32] else [])
        ++ ("report".data ++ Char.ofNat 32 :: ((toString reportId).data
        ++ Char.ofNat 32 :: ((toString st.totalData.packets).data
        ++ Char.ofNat 32 :: ((toString st.totalData.bytes).data
        ++ Char.ofNat 32 :: ((toString st.totalData.flows.length).data
        ++ (destinationSuffix flags st).data))))) := by
  unfold reportText reportBody
  cases alert <;> simp [String.data_append]

/-- The words of the text composed by `GenerateReport`. -/
theorem words_reportText (alert : Bool) (flags : AlertFlags) (reportId : Int) (st : ScanState) :
    wordsAux [] (reportText alert flags reportId st).data
      = (if alert then ["alert".data] else [])
        ++ ("report".data :: (toString reportId).data :: (toString st.totalData.packets).data
          :: (toString st.totalData.bytes).data :: (toString st.totalData.flows.length).data
          :: wordsAux [] (destinationSuffix flags st).data) := by
  have hsp : ∀ (l : List Char), ∀ c ∈ (Char.ofNat 32 :: l).head?, isSpace c = true := by
    intro l c hc
    have : c = Char.ofNat 32 := by simpa using hc.symm
    rw [this]; decide
  have hblank : ∀ (l : List Char), wordsAux [] (Char.ofNat 32 :: l) = wordsAux [] l := by
    intro l
    have : isSpace (Char.ofNat 32) = true := by decide
    simp [wordsAux, this]
  have hid := intRepr_spec reportId
  have hp := intRepr_spec st.totalData.packets
  have hb := intRepr_spec st.totalData.bytes
  have hf := natRepr_spec st.totalData.flows.length
  have hbody : wordsAux [] ("report".data ++ Char.ofNat 32 :: ((toString reportId).data
        ++ Char.ofNat 32 :: ((toString st.totalData.packets).data
        ++ Char.ofNat 32 :: ((toString st.totalData.bytes).data
        ++ Char.ofNat 32 :: ((toString st.totalData.flows.length).data
        ++ (destinationSuffix flags st).data)))))
      = "report".data :: (toString reportId).data :: (toString st.totalData.packets).data
          :: (toString st.totalData.bytes).data :: (toString st.totalData.flows.length).data
          :: wordsAux [] (destinationSuffix flags st).data := by
    rw [words_word "report".data (by decide) (by decide) _ (hsp _), hblank,
      words_word _ hid.1 hid.2.1 _ (hsp _), hblank,
      words_word _ hp.1 hp.2.1 _ (hsp _), hblank,
      words_word _ hb.1 hb.2.1 _ (hsp _), hblank,
      words_word _ hf.1 (fun c hc => (hf.2.1 c hc).2) _ (destinationSuffix_head flags st)]
  rw [reportText_data]
  cases alert with
  | false => simpa using hbody
  | true =>
    simp only [if_true, List.append_assoc, List.singleton_append]
    rw [words_word "alert".data (by decide) (by decide) _ (hsp _), hblank, hbody]

/-! ## Reading a composed report -/

/-- The grammar reads a composed report back as its sequence number and totals,
with the alert marker and without any category. -/
theorem specParseReport_reportText (alert : Bool) (flags : AlertFlags) (reportId : Int)
    (st : ScanState) :
    specParseReport (reportText alert flags reportId st)
      = some { alert := alert, categories := [], seq := reportId,
               packets := st.totalData.packets, bytes := st.totalData.bytes,
               flows := (st.totalData.flows.length : Int) } := by
  have hid := (intRepr_spec reportId).2.2
  have hp := (intRepr_spec st.totalData.packets).2.2
  have hb := (intRepr_spec st.totalData.bytes).2.2
  have hf := decimalValue_natRepr st.totalData.flows.length
  have hcat : categoryOfWord "report".data = none := by decide
  have hne : ¬ ("report".data = "alert".data) := by decide
  unfold specParseReport
  rw [words_reportText]
  cases alert with
  | true =>
    simp only [if_true, List.singleton_append, takeCategories, hcat, specParseBody, hid, hp, hb,
      hf]
  | false =>
    simp only [Bool.false_eq_true, if_false, List.nil_append, hne, specParseBody, hid, hp, hb,
      hf, if_true]

/-- What `ProcessReports` reads from a composed report are its totals, as far
as an `int` holds them. -/
theorem reportCounts_reportText (alert : Bool) (flags : AlertFlags) (reportId : Int)
    (st : ScanState) :
    reportCounts (reportText alert flags reportId st)
      = some (clampInt st.totalData.packets, clampInt st.totalData.bytes,
          clampInt (st.totalData.flows.length : Int)) := by
  have hp := extractInt_intRepr st.totalData.packets
  have hb := extractInt_intRepr st.totalData.bytes
  have hf := extractInt_natRepr st.totalData.flows.length
  have hne : ¬ ("report".data = "alert".data) := by decide
  unfold reportCounts reportData
  rw [words_reportText]
  cases alert with
  | true => simp [hp, hb, hf]
  | false => simp [hne, hp, hb, hf]

/-! ## Alert marker and alert log line -/

theorem GenerateReport_report (s : TrafficAnalyzer) :
    s.GenerateReport.report
      = reportText (s.CheckAlert s.totals).1 (s.CheckAlert s.totals).2 (s.m_reportsGenerated + 1)
          (scanMap s.m_dstTrafficMap) := rfl

theorem words_alertLogText (flags : AlertFlags) :
    wordsAux [] (alertLogText flags).data
      = "alert".data :: flags.categories.map (fun c => c.word.data) := by
  rcases flags with ⟨p, b, f⟩
  cases p <;> cases b <;> cases f <;> decide

/-- C3 (as amended): for every timeslice in which one or more metrics alert,
the report text returned by GenerateReport starts with the two words `alert`
and `report`: its prefix is the bare marker `alert` and names no category, so
that the text reads back with an empty category list. The alerted categories,
every one of them and no other, are named on the separate line that
GenerateReport logs before the report. For previous totals (10, 1000, 2) and
current totals (31, 1000, 2) the returned text is
`alert report 2 31 1000 2 10.0.0.2` and the logged line is `alert packets`. -/
theorem C3_alert_marker_without_categories (s : TrafficAnalyzer)
    (halert : (s.CheckAlert s.totals).1 = true) :
    (wordsAux [] s.GenerateReport.report.data).take 2 = ["alert".data, "report".data] ∧
    (specParseReport s.GenerateReport.report).map (fun r => r.categories) = some [] ∧
    s.GenerateReport.logged
      = [alertLogText (s.CheckAlert s.totals).2, s.GenerateReport.report] ∧
    wordsAux [] (alertLogText (s.CheckAlert s.totals).2).data
      = "alert".data :: (s.CheckAlert s.totals).2.categories.map (fun c => c.word.data) ∧
    exampleAnalyzer.GenerateReport.report = "alert report 2 31 1000 2 10.0.0.2" ∧
    exampleAnalyzer.GenerateReport.logged
      = ["alert packets", "alert report 2 31 1000 2 10.0.0.2"] := by
  refine ⟨?_, ?_, ?_, words_alertLogText _, by decide, by decide⟩
  · rw [GenerateReport_report, words_reportText, halert]
    rfl
  · rw [GenerateReport_report, specParseReport_reportText]
    rfl
  · have h : s.GenerateReport.logged
        = (if (s.CheckAlert s.totals).1 then [alertLogText (s.CheckAlert s.totals).2] else [])
          ++ [s.GenerateReport.report] := rfl
    rw [h, halert]
    rfl

/-- Witness of C3: the analyzer with previous totals (10, 1000, 2) and current
totals (31, 1000, 2) alerts. -/
theorem C3_alert_marker_without_categories_witness :
    (exampleAnalyzer.CheckAlert exampleAnalyzer.totals).1 = true ∧
    (wordsAux [] exampleAnalyzer.GenerateReport.report.data).take 2
      = ["alert".data, "report".data] :=
  ⟨by decide, (C3_alert_marker_without_categories exampleAnalyzer (by decide)).1⟩

/-- Counterexample to C3 as stated: with previous totals (10, 1000, 2) and
current totals (31, 1000, 2) only the packets flag is set, and the returned
text contains neither `alert packets` nor the category name `packets`. -/
theorem C3_counterexample :
    exampleAnalyzer.m_prevData.packets = 10 ∧ exampleAnalyzer.m_prevData.bytes = 1000 ∧
    exampleAnalyzer.m_prevData.flows.length = 2 ∧
    exampleAnalyzer.totals.packets = 31 ∧ exampleAnalyzer.totals.bytes = 1000 ∧
    exampleAnalyzer.totals.flows.length = 2 ∧
    (exampleAnalyzer.CheckAlert exampleAnalyzer.totals).2
      = { packets := true, bytes := false, flows := false } ∧
    ¬ ("alert packets".data <:+: exampleAnalyzer.GenerateReport.report.data) ∧
    ¬ ("packets".data <:+: exampleAnalyzer.GenerateReport.report.data) := by
  decide

/-! ## Totals of a timeslice -/

theorem step_totalData (st : ScanState) (it : String × TrafficData) :
    (st.step it).totalData = st.totalData.addAssign it.2 := by
  unfold ScanState.step
  dsimp only
  split <;> split <;> split <;> rfl

theorem foldl_step_totalData (m : List (String × TrafficData)) :
    ∀ st : ScanState, inIntRange st.totalData.packets → inIntRange st.totalData.bytes →
      (m.foldl ScanState.step st).totalData
        = { packets := wrapInt (st.totalData.packets + (m.map (fun e => e.2.packets)).sum)
            bytes := wrapInt (st.totalData.bytes + (m.map (fun e => e.2.bytes)).sum)
            flows := st.totalData.flows ++ (m.map (fun e => e.2.flows)).flatten } := by
  induction m with
  | nil =>
    intro st hp hb
    simp [wrapInt_of_inIntRange hp, wrapInt_of_inIntRange hb]
  | cons e rest ih =>
    intro st hp hb
    have h1 : inIntRange (st.step e).totalData.packets := by
      rw [step_totalData]; exact wrapInt_inIntRange _
    have h2 : inIntRange (st.step e).totalData.bytes := by
      rw [step_totalData]; exact wrapInt_inIntRange _
    rw [List.foldl_cons, ih _ h1 h2, step_totalData]
    simp [TrafficData.addAssign, wrapInt_wrapInt_add, add_assoc]

/-- The totals are the sums over the destination accumulators, reduced to the
range of `int`, the flow list being the concatenation of the per-destination
flow lists. -/
theorem totals_eq (s : TrafficAnalyzer) :
    s.totals
      = { packets := wrapInt (s.m_dstTrafficMap.map (fun e => e.2.packets)).sum
          bytes := wrapInt (s.m_dstTrafficMap.map (fun e => e.2.bytes)).sum
          flows := (s.m_dstTrafficMap.map (fun e => e.2.flows)).flatten } := by
  unfold TrafficAnalyzer.totals scanMap
  rw [foldl_step_totalData _ _ (by decide) (by decide)]
  simp [ScanState.init, TrafficData.new]

theorem totals_inIntRange (s : TrafficAnalyzer) :
    inIntRange s.totals.packets ∧ inIntRange s.totals.bytes := by
  rw [totals_eq]
  exact ⟨wrapInt_inIntRange _, wrapInt_inIntRange _⟩

theorem sum_mapModify {κ α : Type} [DecidableEq κ] {lt : κ → κ → Bool} (h : StrictTotal lt)
    (g : α → Int) (dflt : α) (hg : g dflt = 0) (k : κ) (f : α → α) :
    ∀ (m : List (κ × α)), MapSorted lt m →
      ((mapModify lt dflt k f m).map (fun e => g e.2)).sum
        = (m.map (fun e => g e.2)).sum + g (f ((mapFind k m).getD dflt))
          - g ((mapFind k m).getD dflt)
  | [], _ => by simp [mapModify, mapFind, hg]
  | (k1, v) :: rest, hs => by
    rw [mapSorted_cons] at hs
    by_cases h1 : k = k1
    · subst h1
      simp only [mapModify, mapFind, if_true, List.map_cons, List.sum_cons, Option.getD_some]
      ring
    · cases h2 : lt k k1 with
      | true =>
        have hnone : mapFind k rest = none := by
          apply mapFind_eq_none_of_lt h
          intro x hx
          exact h.trans _ _ _ h2 (hs.1 x hx)
        simp only [mapModify, mapFind, h1, h2, if_true, if_false, List.map_cons, List.sum_cons,
          hnone, Option.getD_none, hg]
        ring
      | false =>
        simp only [mapModify, mapFind, h1, h2, if_false, Bool.false_eq_true, List.map_cons,
          List.sum_cons]
        rw [sum_mapModify h g dflt hg k f rest hs.2]
        ring

section MapMembers
variable {κ α : Type} [DecidableEq κ] {lt : κ → κ → Bool}

theorem mem_of_mapFind (k : κ) (v : α) :
    ∀ (m : List (κ × α)), mapFind k m = some v → (k, v) ∈ m
  | [], h => by simp [mapFind] at h
  | (k1, v1) :: rest, h => by
    by_cases h1 : k = k1
    · subst h1
      simp only [mapFind, if_true, Option.some.injEq] at h
      simp [h]
    · simp only [mapFind, h1, if_false] at h
      exact List.mem_cons_of_mem _ (mem_of_mapFind k v rest h)

theorem mapFind_of_mem (h : StrictTotal lt) (k : κ) (v : α) :
    ∀ (m : List (κ × α)), MapSorted lt m → (k, v) ∈ m → mapFind k m = some v
  | [], _, hm => by simp at hm
  | (k1, v1) :: rest, hs, hm => by
    rw [mapSorted_cons] at hs
    rw [List.mem_cons] at hm
    rcases hm with hm | hm
    · simp only [Prod.mk.injEq] at hm
      simp [mapFind, hm.1, hm.2]
    · have hlt : lt k1 k = true := hs.1 (k, v) hm
      have hne : k ≠ k1 := by
        intro hh; subst hh; rw [h.irrefl] at hlt; exact Bool.noConfusion hlt
      simp only [mapFind, hne, if_false]
      exact mapFind_of_mem h k v rest hs.2 hm

theorem mem_mapModify_cases (h : StrictTotal lt) (dflt : α) (k : κ) (f : α → α) :
    ∀ (m : List (κ × α)) (x : κ × α), MapSorted lt m → x ∈ mapModify lt dflt k f m →
      x ∈ m ∨ (x.1 = k ∧ x.2 = f ((mapFind k m).getD dflt))
  | [], x, _, hx => by
    simp only [mapModify, List.mem_singleton] at hx
    right; simp [hx, mapFind]
  | (k1, v) :: rest, x, hs, hx => by
    rw [mapSorted_cons] at hs
    by_cases h1 : k = k1
    · subst h1
      simp only [mapModify, if_true, List.mem_cons] at hx
      rcases hx with hx | hx
      · right; simp [hx, mapFind]
      · left; simp [hx]
    · cases h2 : lt k k1 with
      | true =>
        have hnone : mapFind k rest = none := by
          apply mapFind_eq_none_of_lt h
          intro y hy
          exact h.trans _ _ _ h2 (hs.1 y hy)
        simp only [mapModify, h1, h2, if_true, if_false, List.mem_cons] at hx
        rcases hx with hx | hx | hx
        · right; simp [hx, mapFind, h1, hnone]
        · left; simp [hx]
        · left; simp [hx]
      | false =>
        simp only [mapModify, h1, h2, if_false, Bool.false_eq_true, List.mem_cons] at hx
        rcases hx with hx | hx
        · left; simp [hx]
        · rcases mem_mapModify_cases h dflt k f rest x hs.2 hx with h3 | h3
          · left; simp [h3]
          · right; simp [mapFind, h1, h3]

end MapMembers
/-! ## Packets ingested during a timeslice -/

theorem flow_dst (p : PacketInfo) : p.flow.2.1 = p.dst_ip := rfl

/-- What the destination map holds after the packets `qs` have been ingested
into an empty map, kept by one more `AddPacket`; the packet and byte counts
are `int`s, so their sums agree with the number of packets and the sum of the
sizes up to the reduction to the range of `int`. -/
theorem AddPacket_holds (s : TrafficAnalyzer) (qs : List PacketInfo) (p : PacketInfo)
    (hsorted : MapSorted strLt s.m_dstTrafficMap)
    (hlisted : ∀ x : flow_t, x ∈ (s.accumulator x.2.1).flows ↔ x ∈ qs.map PacketInfo.flow)
    (htagged : ∀ e ∈ s.m_dstTrafficMap, ∀ x ∈ e.2.flows, x.2.1 = e.1)
    (hpackets : wrapInt (s.m_dstTrafficMap.map (fun e => e.2.packets)).sum
      = wrapInt (qs.length : Int))
    (hbytes : wrapInt (s.m_dstTrafficMap.map (fun e => e.2.bytes)).sum
      = wrapInt (qs.map (fun q => q.size)).sum)
    (hflows : (s.m_dstTrafficMap.map (fun e => (e.2.flows.length : Int))).sum
      = ((qs.map PacketInfo.flow).toFinset.card : Int)) :
    MapSorted strLt (s.AddPacket p).m_dstTrafficMap ∧
    (∀ x : flow_t, x ∈ ((s.AddPacket p).accumulator x.2.1).flows
      ↔ x ∈ (qs ++ [p]).map PacketInfo.flow) ∧
    (∀ e ∈ (s.AddPacket p).m_dstTrafficMap, ∀ x ∈ e.2.flows, x.2.1 = e.1) ∧
    wrapInt ((s.AddPacket p).m_dstTrafficMap.map (fun e => e.2.packets)).sum
      = wrapInt ((qs ++ [p]).length : Int) ∧
    wrapInt ((s.AddPacket p).m_dstTrafficMap.map (fun e => e.2.bytes)).sum
      = wrapInt ((qs ++ [p]).map (fun q => q.size)).sum ∧
    ((s.AddPacket p).m_dstTrafficMap.map (fun e => (e.2.flows.length : Int))).sum
      = ((((qs ++ [p]).map PacketInfo.flow).toFinset.card : Nat) : Int) := by
  have hacc := AddPacket_accumulator s p hsorted
  have hflowsP := AddPacketData_flows (s.accumulator p.dst_ip) p.size p.flow
  refine ⟨AddPacket_sorted s p hsorted, ?_, ?_, ?_, ?_, ?_⟩
  · intro x
    by_cases hx : x.2.1 = p.dst_ip
    · have h1 : (s.AddPacket p).accumulator x.2.1
          = (s.accumulator p.dst_ip).AddPacketData p.size p.flow := by
        simp [TrafficAnalyzer.accumulator, hx, hacc]
      have h2 := hlisted x
      rw [hx] at h2
      rw [h1, hflowsP]
      simp only [List.map_append, List.map_cons, List.map_nil, List.mem_append,
        List.mem_singleton]
      split
      · rename_i hin
        constructor
        · intro h; left; exact h2.mp h
        · rintro (h | h)
          · exact h2.mpr h
          · rw [h]; exact hin
      · simp only [List.mem_append, List.mem_singleton]
        rw [h2]
    · have h1 : (s.AddPacket p).accumulator x.2.1 = s.accumulator x.2.1 := by
        simp [TrafficAnalyzer.accumulator, AddPacket_other s p x.2.1 hx]
      have hne : x ≠ p.flow := by
        intro hh; apply hx; rw [hh]; rfl
      rw [h1, hlisted x]
      simp [hne]
  · intro e he x hx
    rcases mem_mapModify_cases strLt_strictTotal _ _ _ _ e hsorted he with h1 | ⟨h1, h2⟩
    · exact htagged e h1 x hx
    · have h3 : e.2 = (s.accumulator p.dst_ip).AddPacketData p.size p.flow := h2
      rw [h3, hflowsP] at hx
      rw [h1]
      have hold : ∀ y ∈ (s.accumulator p.dst_ip).flows, y.2.1 = p.dst_ip := by
        intro y hy
        unfold TrafficAnalyzer.accumulator at hy
        cases hf : mapFind p.dst_ip s.m_dstTrafficMap with
        | none => rw [hf] at hy; simp [TrafficData.new] at hy
        | some d =>
          rw [hf] at hy
          exact htagged (p.dst_ip, d) (mem_of_mapFind _ _ _ hf) y hy
      split at hx
      · exact hold x hx
      · rw [List.mem_append, List.mem_singleton] at hx
        rcases hx with hx | hx
        · exact hold x hx
        · rw [hx]; rfl
  · have h := sum_mapModify strLt_strictTotal (fun d : TrafficData => d.packets)
      TrafficData.new rfl p.dst_ip (fun d => d.AddPacketData p.size p.flow)
      s.m_dstTrafficMap hsorted
    have h' : ((s.AddPacket p).m_dstTrafficMap.map (fun e => e.2.packets)).sum
        = (s.m_dstTrafficMap.map (fun e => e.2.packets)).sum
          + ((s.accumulator p.dst_ip).AddPacketData p.size p.flow).packets
          - (s.accumulator p.dst_ip).packets := h
    rw [h', AddPacketData_packets]
    simp only [List.length_append, List.length_singleton, Nat.cast_add, Nat.cast_one]
    unfold wrapInt at hpackets ⊢
    omega
  · have h := sum_mapModify strLt_strictTotal (fun d : TrafficData => d.bytes)
      TrafficData.new rfl p.dst_ip (fun d => d.AddPacketData p.size p.flow)
      s.m_dstTrafficMap hsorted
    have h' : ((s.AddPacket p).m_dstTrafficMap.map (fun e => e.2.bytes)).sum
        = (s.m_dstTrafficMap.map (fun e => e.2.bytes)).sum
          + ((s.accumulator p.dst_ip).AddPacketData p.size p.flow).bytes
          - (s.accumulator p.dst_ip).bytes := h
    rw [h', AddPacketData_bytes]
    simp only [List.map_append, List.sum_append, List.map_cons, List.map_nil, List.sum_cons,
      List.sum_nil, add_zero]
    unfold wrapInt at hbytes ⊢
    omega
  · have h := sum_mapModify strLt_strictTotal (fun d : TrafficData => (d.flows.length : Int))
      TrafficData.new rfl p.dst_ip (fun d => d.AddPacketData p.size p.flow)
      s.m_dstTrafficMap hsorted
    have h' : ((s.AddPacket p).m_dstTrafficMap.map (fun e => (e.2.flows.length : Int))).sum
        = (s.m_dstTrafficMap.map (fun e => (e.2.flows.length : Int))).sum
          + (((s.accumulator p.dst_ip).AddPacketData p.size p.flow).flows.length : Int)
          - ((s.accumulator p.dst_ip).flows.length : Int) := h
    have h2 := hlisted p.flow
    rw [flow_dst] at h2
    have hset : ((qs ++ [p]).map PacketInfo.flow).toFinset
        = insert p.flow (qs.map PacketInfo.flow).toFinset := by
      ext y
      simp only [List.map_append, List.map_cons, List.map_nil, List.mem_toFinset, List.mem_append,
        List.mem_singleton, Finset.mem_insert]
      tauto
    rw [h', hflowsP, hflows, hset]
    by_cases hin : p.flow ∈ (s.accumulator p.dst_ip).flows
    · have hin2 : p.flow ∈ (qs.map PacketInfo.flow).toFinset := by
        rw [List.mem_toFinset]; exact h2.mp hin
      rw [if_pos hin, Finset.insert_eq_of_mem hin2]
      ring
    · have hin2 : p.flow ∉ (qs.map PacketInfo.flow).toFinset := by
        rw [List.mem_toFinset]; exact fun hh => hin (h2.mpr hh)
      rw [if_neg hin, Finset.card_insert_of_not_mem hin2]
      simp only [List.length_append, List.length_singleton, Nat.cast_add, Nat.cast_one]
      ring

theorem natCast_sum_map {β : Type} (g : β → Nat) (l : List β) :
    (((l.map g).sum : Nat) : Int) = (l.map (fun e => (g e : Int))).sum := by
  induction l with
  | nil => simp
  | cons a l ih => simp [ih]

theorem AddPackets_holds (ps : List PacketInfo) :
    ∀ (s : TrafficAnalyzer) (qs : List PacketInfo),
    MapSorted strLt s.m_dstTrafficMap →
    (∀ x : flow_t, x ∈ (s.accumulator x.2.1).flows ↔ x ∈ qs.map PacketInfo.flow) →
    (∀ e ∈ s.m_dstTrafficMap, ∀ x ∈ e.2.flows, x.2.1 = e.1) →
    wrapInt (s.m_dstTrafficMap.map (fun e => e.2.packets)).sum = wrapInt (qs.length : Int) →
    wrapInt (s.m_dstTrafficMap.map (fun e => e.2.bytes)).sum
      = wrapInt (qs.map (fun q => q.size)).sum →
    (s.m_dstTrafficMap.map (fun e => (e.2.flows.length : Int))).sum
      = ((qs.map PacketInfo.flow).toFinset.card : Int) →
    MapSorted strLt (s.AddPackets ps).m_dstTrafficMap ∧
    (∀ x : flow_t, x ∈ ((s.AddPackets ps).accumulator x.2.1).flows
      ↔ x ∈ (qs ++ ps).map PacketInfo.flow) ∧
    (∀ e ∈ (s.AddPackets ps).m_dstTrafficMap, ∀ x ∈ e.2.flows, x.2.1 = e.1) ∧
    wrapInt ((s.AddPackets ps).m_dstTrafficMap.map (fun e => e.2.packets)).sum
      = wrapInt ((qs ++ ps).length : Int) ∧
    wrapInt ((s.AddPackets ps).m_dstTrafficMap.map (fun e => e.2.bytes)).sum
      = wrapInt ((qs ++ ps).map (fun q => q.size)).sum ∧
    ((s.AddPackets ps).m_dstTrafficMap.map (fun e => (e.2.flows.length : Int))).sum
      = ((((qs ++ ps).map PacketInfo.flow).toFinset.card : Nat) : Int) := by
  induction ps with
  | nil =>
    intro s qs h1 h2 h3 h4 h5 h6
    simp only [List.append_nil]
    exact ⟨h1, h2, h3, h4, h5, h6⟩
  | cons p ps ih =>
    intro s qs h1 h2 h3 h4 h5 h6
    obtain ⟨g1, g2, g3, g4, g5, g6⟩ := AddPacket_holds s qs p h1 h2 h3 h4 h5 h6
    have h := ih (s.AddPacket p) (qs ++ [p]) g1 g2 g3 g4 g5 g6
    have happ : qs ++ [p] ++ ps = qs ++ p :: ps := by simp
    rw [happ] at h
    exact h

/-- Totals of a timeslice that started from an empty destination map. -/
theorem totals_of_AddPackets (s : TrafficAnalyzer) (ps : List PacketInfo)
    (hempty : s.m_dstTrafficMap = []) :
    (s.AddPackets ps).totals.packets = wrapInt (ps.length : Int) ∧
    (s.AddPackets ps).totals.bytes = wrapInt (ps.map (fun q => q.size)).sum ∧
    (s.AddPackets ps).totals.flows.length = (ps.map PacketInfo.flow).toFinset.card ∧
    (s.AddPackets ps).totals.flows.Nodup ∧
    (∀ x, x ∈ (s.AddPackets ps).totals.flows ↔ x ∈ ps.map PacketInfo.flow) ∧
    (∀ e ∈ (s.AddPackets ps).m_dstTrafficMap, ∀ x ∈ e.2.flows, x.2.1 = e.1) := by
  obtain ⟨g1, g2, g3, g4, g5, g6⟩ := AddPackets_holds ps s []
    (by simp [hempty, MapSorted])
    (by intro x; simp [TrafficAnalyzer.accumulator, hempty, mapFind, TrafficData.new])
    (by simp [hempty]) (by simp [hempty]) (by simp [hempty]) (by simp [hempty])
  simp only [List.nil_append] at g2 g4 g5 g6
  have hlen : (s.AddPackets ps).totals.flows.length = (ps.map PacketInfo.flow).toFinset.card := by
    have h : ((s.AddPackets ps).totals.flows.length : Int)
        = (((ps.map PacketInfo.flow).toFinset.card : Nat) : Int) := by
      rw [← g6, totals_eq]
      simp only [List.length_flatten, List.map_map]
      exact natCast_sum_map (fun e : String × TrafficData => e.2.flows.length) _
    exact_mod_cast h
  have hmem : ∀ x, x ∈ (s.AddPackets ps).totals.flows ↔ x ∈ ps.map PacketInfo.flow := by
    intro x
    rw [← g2 x, totals_eq]
    simp only [List.mem_flatten, List.mem_map]
    constructor
    · rintro ⟨l, ⟨e, he, rfl⟩, hx⟩
      have hk := g3 e he x hx
      have hf := mapFind_of_mem strLt_strictTotal e.1 e.2 _ g1 he
      simp [TrafficAnalyzer.accumulator, hk, hf, hx]
    · intro hx
      unfold TrafficAnalyzer.accumulator at hx
      cases hf : mapFind x.2.1 (s.AddPackets ps).m_dstTrafficMap with
      | none => rw [hf] at hx; simp [TrafficData.new] at hx
      | some d =>
        rw [hf] at hx
        exact ⟨d.flows, ⟨(x.2.1, d), mem_of_mapFind _ _ _ hf, rfl⟩, hx⟩
  refine ⟨?_, ?_, hlen, ?_, hmem, g3⟩
  · rw [totals_eq]; exact g4
  · rw [totals_eq]; exact g5
  · have hfin : (s.AddPackets ps).totals.flows.toFinset = (ps.map PacketInfo.flow).toFinset := by
      ext x; simp only [List.mem_toFinset]; exact hmem x
    have hcard : (s.AddPackets ps).totals.flows.toFinset.card
        = (s.AddPackets ps).totals.flows.length := by
      rw [hfin, ← hlen]
    have hiff : ((s.AddPackets ps).totals.flows : Multiset flow_t).toFinset.card
        = Multiset.card ((s.AddPackets ps).totals.flows : Multiset flow_t)
        ↔ ((s.AddPackets ps).totals.flows : Multiset flow_t).Nodup :=
      Multiset.toFinset_card_eq_card_iff_nodup
    exact hiff.mp hcard

/-- C4 (as amended): for every sequence of packets ingested via AddPacket
since the previous GenerateReport or since construction (the destination map
is empty at both points), the totals written into the next report are:
packets = the number of ingested packets whenever that number is a value of
an `int`, bytes = the sum of their sizes whenever that sum is a value of an
`int` (the totals are `int`s, and a number outside the range is reduced to the
range), flows = the number of distinct FlowKeys among them. These are the
third to fifth number words of the report text and what ProcessReports reads
from it. The summed flow list holds no FlowKey twice, and every flow is stored
under its own destination address. -/
theorem C4_report_totals (s : TrafficAnalyzer) (ps : List PacketInfo)
    (hstart : s.m_dstTrafficMap = []) :
    (s.AddPackets ps).totals.packets = wrapInt (ps.length : Int) ∧
    (s.AddPackets ps).totals.bytes = wrapInt (ps.map (fun q => q.size)).sum ∧
    (inIntRange (ps.length : Int) → (s.AddPackets ps).totals.packets = (ps.length : Int)) ∧
    (inIntRange (ps.map (fun q => q.size)).sum →
      (s.AddPackets ps).totals.bytes = (ps.map (fun q => q.size)).sum) ∧
    (s.AddPackets ps).totals.flows.length = (ps.map PacketInfo.flow).toFinset.card ∧
    wordsAux [] (s.AddPackets ps).GenerateReport.report.data
      = (if ((s.AddPackets ps).CheckAlert (s.AddPackets ps).totals).1 then ["alert".data] else [])
        ++ ("report".data :: (toString ((s.AddPackets ps).m_reportsGenerated + 1)).data
          :: (toString (wrapInt (ps.length : Int))).data
          :: (toString (wrapInt (ps.map (fun q => q.size)).sum)).data
          :: (toString (ps.map PacketInfo.flow).toFinset.card).data
          :: wordsAux [] (destinationSuffix
              ((s.AddPackets ps).CheckAlert (s.AddPackets ps).totals).2
              (scanMap (s.AddPackets ps).m_dstTrafficMap)).data) ∧
    reportCounts (s.AddPackets ps).GenerateReport.report
      = some (wrapInt (ps.length : Int), wrapInt (ps.map (fun q => q.size)).sum,
          clampInt ((ps.map PacketInfo.flow).toFinset.card : Int)) ∧
    (s.AddPackets ps).totals.flows.Nodup ∧
    (∀ e ∈ (s.AddPackets ps).m_dstTrafficMap, ∀ x ∈ e.2.flows, x.2.1 = e.1) ∧
    (∀ logfile : String, (TrafficAnalyzer.new logfile).m_dstTrafficMap = []) ∧
    (∀ s0 : TrafficAnalyzer, s0.GenerateReport.state.m_dstTrafficMap = []) := by
  obtain ⟨h1, h2, h3, h4, _, h6⟩ := totals_of_AddPackets s ps hstart
  have ht : (scanMap (s.AddPackets ps).m_dstTrafficMap).totalData = (s.AddPackets ps).totals := rfl
  refine ⟨h1, h2, ?_, ?_, h3, ?_, ?_, h4, h6, fun _ => rfl, fun _ => rfl⟩
  · intro hr
    rw [h1, wrapInt_of_inIntRange hr]
  · intro hr
    rw [h2, wrapInt_of_inIntRange hr]
  · rw [GenerateReport_report, words_reportText, ht, h1, h2, h3]
  · rw [GenerateReport_report, reportCounts_reportText, ht, h1, h2, h3, clampInt_wrapInt,
      clampInt_wrapInt]

/-- Witness of C4: three packets, two of them of one flow, ingested into a
fresh analyzer; the packet total is their number. -/
theorem C4_report_totals_witness :
    (TrafficAnalyzer.new "log").m_dstTrafficMap = [] ∧
    inIntRange (([examplePacket, packetOfSize 60, examplePacket].length : Nat) : Int) ∧
    ((TrafficAnalyzer.new "log").AddPackets
        [examplePacket, packetOfSize 60, examplePacket]).totals.packets
      = (([examplePacket, packetOfSize 60, examplePacket].length : Nat) : Int) :=
  ⟨rfl, by decide, (C4_report_totals (TrafficAnalyzer.new "log")
    [examplePacket, packetOfSize 60, examplePacket] rfl).2.2.1 (by decide)⟩

/-- Counterexample to C4 as stated: 32769 packets of 65535 bytes are ingested
into a fresh analyzer; the sum of their sizes is 2147516415, and the report
carries the byte total -2147450881 and no alert on bytes. -/
theorem C4_counterexample :
    (TrafficAnalyzer.new "log").m_dstTrafficMap = [] ∧
    pastLimitAnalyzer
      = (TrafficAnalyzer.new "log").AddPackets (List.replicate 32769 (packetOfSize 65535)) ∧
    ((List.replicate 32769 (packetOfSize 65535)).map (fun q => q.size)).sum = 2147516415 ∧
    pastLimitAnalyzer.totals.bytes = -2147450881 ∧
    pastLimitAnalyzer.GenerateReport.report = "alert report 1 32769 -2147450881 1 10.0.0.2" ∧
    (pastLimitAnalyzer.CheckAlert pastLimitAnalyzer.totals).2
      = { packets := true, bytes := false, flows := true } := by
  refine ⟨rfl, rfl, ?_, ?_⟩
  · rw [List.map_replicate, List.sum_replicate]
    simp only [packetOfSize, nsmul_eq_mul]
    norm_num
  · rw [pastLimitAnalyzer_eq]
    decide

/-! ## Leading destinations -/

theorem step_mostPackets (st : ScanState) (it : String × TrafficData) :
    (st.step it).mostPackets
        = (if it.2.packets > st.mostPackets then it.2.packets else st.mostPackets) ∧
    (st.step it).dstWithMostPackets
        = (if it.2.packets > st.mostPackets then it.1 else st.dstWithMostPackets) := by
  unfold ScanState.step
  dsimp only
  split <;> split <;> split <;> exact ⟨rfl, rfl⟩

theorem step_mostBytes (st : ScanState) (it : String × TrafficData) :
    (st.step it).mostBytes
        = (if it.2.bytes > st.mostBytes then it.2.bytes else st.mostBytes) ∧
    (st.step it).dstWithMostBytes
        = (if it.2.bytes > st.mostBytes then it.1 else st.dstWithMostBytes) := by
  unfold ScanState.step
  dsimp only
  split <;> split <;> split <;> exact ⟨rfl, rfl⟩

theorem step_mostFlows (st : ScanState) (it : String × TrafficData) :
    (st.step it).mostFlows
        = (if (it.2.flows.length : Int) > st.mostFlows then (it.2.flows.length : Int)
            else st.mostFlows) ∧
    (st.step it).dstWithMostFlows
        = (if (it.2.flows.length : Int) > st.mostFlows then it.1 else st.dstWithMostFlows) := by
  unfold ScanState.step
  dsimp only
  split <;> split <;> split <;> exact ⟨rfl, rfl⟩

/-- A maximum tracked with a strict comparison, and the key at which it was
first reached: after the loop, the tracked value is at least the start value
and at least the value of every entry, and when it exceeds the start value
the tracked key is the key of an entry that has the tracked value. -/
theorem leader_fold (g : TrafficData → Int) (most : ScanState → Int) (dst : ScanState → String)
    (hmost : ∀ st it, most (ScanState.step st it)
      = if g it.2 > most st then g it.2 else most st)
    (hdst : ∀ st it, dst (ScanState.step st it) = if g it.2 > most st then it.1 else dst st) :
    ∀ (m : List (String × TrafficData)) (st : ScanState),
      most st ≤ most (m.foldl ScanState.step st) ∧
      (∀ e ∈ m, g e.2 ≤ most (m.foldl ScanState.step st)) ∧
      (most st < most (m.foldl ScanState.step st) →
        ∃ e ∈ m, e.1 = dst (m.foldl ScanState.step st)
          ∧ g e.2 = most (m.foldl ScanState.step st)) ∧
      (most (m.foldl ScanState.step st) = most st → dst (m.foldl ScanState.step st) = dst st) := by
  intro m
  induction m with
  | nil => intro st; simp
  | cons it rest ih =>
    intro st
    obtain ⟨i1, i2, i3, i4⟩ := ih (st.step it)
    have hm := hmost st it
    have hd := hdst st it
    rw [List.foldl_cons]
    by_cases hgt : g it.2 > most st
    · rw [if_pos hgt] at hm hd
      refine ⟨by omega, ?_, ?_, ?_⟩
      · intro e he
        rw [List.mem_cons] at he
        rcases he with he | he
        · rw [he]; omega
        · exact i2 e he
      · intro _
        by_cases hlt : most (st.step it) < most (rest.foldl ScanState.step (st.step it))
        · obtain ⟨e, he, h1, h2⟩ := i3 hlt
          exact ⟨e, List.mem_cons_of_mem _ he, h1, h2⟩
        · have heq : most (rest.foldl ScanState.step (st.step it)) = most (st.step it) := by
            omega
          refine ⟨it, by simp, ?_, ?_⟩
          · rw [i4 heq, hd]
          · rw [heq, hm]
      · intro heq
        omega
    · rw [if_neg hgt] at hm hd
      refine ⟨by omega, ?_, ?_, ?_⟩
      · intro e he
        rw [List.mem_cons] at he
        rcases he with he | he
        · rw [he]; omega
        · exact i2 e he
      · intro hlt
        obtain ⟨e, he, h1, h2⟩ := i3 (by omega)
        exact ⟨e, List.mem_cons_of_mem _ he, h1, h2⟩
      · intro heq
        rw [i4 (by omega), hd]

theorem exists_pos_of_sum_pos (l : List Int) (h : 0 < l.sum) : ∃ x ∈ l, 0 < x := by
  induction l with
  | nil => simp at h
  | cons a l ih =>
    rw [List.sum_cons] at h
    by_cases ha : 0 < a
    · exact ⟨a, by simp, ha⟩
    · obtain ⟨x, hx, hpos⟩ := ih (by omega)
      exact ⟨x, List.mem_cons_of_mem _ hx, hpos⟩

/-- When some destination has a positive value of a metric, the leading
destination of that metric is a destination of the timeslice, its value is
positive, and no destination has a larger value. -/
theorem leader_mem (g : TrafficData → Int) (most : ScanState → Int) (dst : ScanState → String)
    (hmost : ∀ st it, most (ScanState.step st it)
      = if g it.2 > most st then g it.2 else most st)
    (hdst : ∀ st it, dst (ScanState.step st it) = if g it.2 > most st then it.1 else dst st)
    (hinit : most ScanState.init = 0) (m : List (String × TrafficData))
    (hpos : ∃ x ∈ m, 0 < g x.2) :
    ∃ e ∈ m, e.1 = dst (scanMap m) ∧ g e.2 = most (scanMap m) ∧ 0 < g e.2 ∧
      ∀ x ∈ m, g x.2 ≤ g e.2 := by
  obtain ⟨e0, he0, hxpos⟩ := hpos
  obtain ⟨_, i2, i3, _⟩ := leader_fold g most dst hmost hdst m ScanState.init
  have hle := i2 e0 he0
  have hlt : most ScanState.init < most (m.foldl ScanState.step ScanState.init) := by
    rw [hinit]; omega
  obtain ⟨e, he, h1, h2⟩ := i3 hlt
  refine ⟨e, he, h1, h2, ?_, ?_⟩
  · rw [h2]; omega
  · intro y hy
    rw [h2]; exact i2 y hy

theorem exists_pos_of_wrap_sum_pos (l : List Int) (hnn : ∀ x ∈ l, 0 ≤ x)
    (h : 0 < wrapInt l.sum) : ∃ x ∈ l, 0 < x := by
  apply exists_pos_of_sum_pos
  have h0 : 0 ≤ l.sum := List.sum_nonneg hnn
  by_contra hc
  have hz : l.sum = 0 := by omega
  rw [hz, wrapInt_zero] at h
  exact absurd h (lt_irrefl 0)

theorem exists_pos_of_map_sum_pos (g : TrafficData → Int) (m : List (String × TrafficData))
    (hnn : ∀ x ∈ m, 0 ≤ g x.2) (h : 0 < wrapInt (m.map (fun e => g e.2)).sum) :
    ∃ x ∈ m, 0 < g x.2 := by
  have hnn2 : ∀ y ∈ m.map (fun e => g e.2), 0 ≤ y := by
    intro y hy
    obtain ⟨e, he, hye⟩ := List.mem_map.mp hy
    rw [← hye]
    exact hnn e he
  obtain ⟨x, hx, hxpos⟩ := exists_pos_of_wrap_sum_pos _ hnn2 h
  obtain ⟨e0, he0, hxe⟩ := List.mem_map.mp hx
  exact ⟨e0, he0, by rw [hxe]; exact hxpos⟩

/-- The packets-leading destination, when the packet total is positive and no
destination has a negative packet count. -/
theorem leader_packets (s : TrafficAnalyzer) (hnn : ∀ x ∈ s.m_dstTrafficMap, 0 ≤ x.2.packets)
    (hpos : 0 < s.totals.packets) :
    ∃ e ∈ s.m_dstTrafficMap, e.1 = (scanMap s.m_dstTrafficMap).dstWithMostPackets ∧
      0 < e.2.packets ∧ ∀ x ∈ s.m_dstTrafficMap, x.2.packets ≤ e.2.packets := by
  rw [totals_eq] at hpos
  obtain ⟨e, he, h1, _, h3, h4⟩ := leader_mem (fun d => d.packets) ScanState.mostPackets
    ScanState.dstWithMostPackets (fun st it => (step_mostPackets st it).1)
    (fun st it => (step_mostPackets st it).2) rfl s.m_dstTrafficMap
    (exists_pos_of_map_sum_pos (fun d => d.packets) _ hnn hpos)
  exact ⟨e, he, h1, h3, h4⟩

/-- The bytes-leading destination, when the byte total is positive and no
destination has a negative byte count. -/
theorem leader_bytes (s : TrafficAnalyzer) (hnn : ∀ x ∈ s.m_dstTrafficMap, 0 ≤ x.2.bytes)
    (hpos : 0 < s.totals.bytes) :
    ∃ e ∈ s.m_dstTrafficMap, e.1 = (scanMap s.m_dstTrafficMap).dstWithMostBytes ∧
      0 < e.2.bytes ∧ ∀ x ∈ s.m_dstTrafficMap, x.2.bytes ≤ e.2.bytes := by
  rw [totals_eq] at hpos
  obtain ⟨e, he, h1, _, h3, h4⟩ := leader_mem (fun d => d.bytes) ScanState.mostBytes
    ScanState.dstWithMostBytes (fun st it => (step_mostBytes st it).1)
    (fun st it => (step_mostBytes st it).2) rfl s.m_dstTrafficMap
    (exists_pos_of_map_sum_pos (fun d => d.bytes) _ hnn hpos)
  exact ⟨e, he, h1, h3, h4⟩

/-- The flows-leading destination, when the flow total is positive. -/
theorem leader_flows (s : TrafficAnalyzer) (hpos : 0 < s.totals.flows.length) :
    ∃ e ∈ s.m_dstTrafficMap, e.1 = (scanMap s.m_dstTrafficMap).dstWithMostFlows ∧
      0 < e.2.flows.length ∧
      ∀ x ∈ s.m_dstTrafficMap, x.2.flows.length ≤ e.2.flows.length := by
  rw [totals_eq] at hpos
  have hex : ∃ x ∈ s.m_dstTrafficMap, 0 < ((x.2.flows.length : Nat) : Int) := by
    obtain ⟨f, hf⟩ := List.exists_mem_of_length_pos hpos
    obtain ⟨l, hl, hfl⟩ := List.mem_flatten.mp hf
    obtain ⟨x, hx, hxl⟩ := List.mem_map.mp hl
    refine ⟨x, hx, ?_⟩
    have : 0 < x.2.flows.length := by
      rw [hxl]; exact List.length_pos_of_mem hfl
    omega
  obtain ⟨e, he, h1, _, h3, h4⟩ := leader_mem (fun d => (d.flows.length : Int))
    ScanState.mostFlows ScanState.dstWithMostFlows (fun st it => (step_mostFlows st it).1)
    (fun st it => (step_mostFlows st it).2) rfl s.m_dstTrafficMap hex
  refine ⟨e, he, h1, by omega, ?_⟩
  intro x hx
  have := h4 x hx
  simp only at this
  omega

/-! ## Destination address of an alert -/

theorem words_blank_word (d : String) (hne : d.data ≠ []) (hw : ∀ c ∈ d.data, isSpace c = false) :
    wordsAux [] (" " ++ d).data = [d.data] := by
  have hsp : isSpace (Char.ofNat 32) = true := by decide
  have h1 : (" " ++ d).data = Char.ofNat 32 :: d.data := by
    simp [String.data_append]
  have h2 := words_word d.data hne hw [] (by simp)
  rw [h1]
  simp only [wordsAux, hsp, if_true, List.isEmpty_nil]
  simpa [wordsAux] using h2

/-- The report of a timeslice that alerts, when the precedence selects `d`. -/
theorem report_with_destination (s : TrafficAnalyzer) (d : String)
    (halert : (s.CheckAlert s.totals).1 = true)
    (hsuffix : destinationSuffix (s.CheckAlert s.totals).2 (scanMap s.m_dstTrafficMap) = " " ++ d) :
    s.GenerateReport.report
      = "alert " ++ reportBody (s.m_reportsGenerated + 1) s.totals ++ " " ++ d ∧
    (d.data ≠ [] → (∀ c ∈ d.data, isSpace c = false) →
      wordsAux [] s.GenerateReport.report.data
        = ["alert".data, "report".data, (toString (s.m_reportsGenerated + 1)).data,
            (toString s.totals.packets).data, (toString s.totals.bytes).data,
            (toString s.totals.flows.length).data, d.data]) := by
  constructor
  · rw [GenerateReport_report]
    unfold reportText
    rw [halert, hsuffix]
    simp only [if_true, String.append_assoc]
    rfl
  · intro hne hw
    rw [GenerateReport_report, words_reportText, halert, hsuffix, words_blank_word d hne hw]
    rfl

/-- C5 (as amended): for every timeslice, the report text is the report body
followed by no address when no metric alerts, and is `alert`, the report body,
a blank and the leader string of one metric when at least one metric alerts:
that of the packets-leading destination if the packets metric alerted,
otherwise that of the bytes-leading destination if the bytes metric alerted,
otherwise that of the flows-leading destination. The leader string is the
address of a destination of the timeslice, one that holds the largest value of
the metric: always for flows, and for packets and bytes when the previous
total of the metric is not negative, 3 times it is a value of an `int`, and no
destination of the timeslice has a negative count of the metric. Where the
address is one word, it is the seventh and last word of the text. -/
theorem C5_destination_precedence (s : TrafficAnalyzer) :
    ((s.CheckAlert s.totals).1 = false →
      s.GenerateReport.report = reportBody (s.m_reportsGenerated + 1) s.totals ∧
      wordsAux [] s.GenerateReport.report.data
        = ["report".data, (toString (s.m_reportsGenerated + 1)).data,
            (toString s.totals.packets).data, (toString s.totals.bytes).data,
            (toString s.totals.flows.length).data]) ∧
    ((s.CheckAlert s.totals).2.packets = true →
      s.GenerateReport.report
        = "alert " ++ reportBody (s.m_reportsGenerated + 1) s.totals ++ " "
          ++ (scanMap s.m_dstTrafficMap).dstWithMostPackets ∧
      ((scanMap s.m_dstTrafficMap).dstWithMostPackets.data ≠ [] →
        (∀ c ∈ (scanMap s.m_dstTrafficMap).dstWithMostPackets.data, isSpace c = false) →
        wordsAux [] s.GenerateReport.report.data
          = ["alert".data, "report".data, (toString (s.m_reportsGenerated + 1)).data,
              (toString s.totals.packets).data, (toString s.totals.bytes).data,
              (toString s.totals.flows.length).data,
              (scanMap s.m_dstTrafficMap).dstWithMostPackets.data]) ∧
      (0 ≤ s.m_prevData.packets → 3 * s.m_prevData.packets ≤ 2147483647 →
        (∀ x ∈ s.m_dstTrafficMap, 0 ≤ x.2.packets) →
        ∃ e ∈ s.m_dstTrafficMap, e.1 = (scanMap s.m_dstTrafficMap).dstWithMostPackets ∧
          0 < e.2.packets ∧ ∀ x ∈ s.m_dstTrafficMap, x.2.packets ≤ e.2.packets)) ∧
    ((s.CheckAlert s.totals).2.packets = false → (s.CheckAlert s.totals).2.bytes = true →
      s.GenerateReport.report
        = "alert " ++ reportBody (s.m_reportsGenerated + 1) s.totals ++ " "
          ++ (scanMap s.m_dstTrafficMap).dstWithMostBytes ∧
      ((scanMap s.m_dstTrafficMap).dstWithMostBytes.data ≠ [] →
        (∀ c ∈ (scanMap s.m_dstTrafficMap).dstWithMostBytes.data, isSpace c = false) →
        wordsAux [] s.GenerateReport.report.data
          = ["alert".data, "report".data, (toString (s.m_reportsGenerated + 1)).data,
              (toString s.totals.packets).data, (toString s.totals.bytes).data,
              (toString s.totals.flows.length).data,
              (scanMap s.m_dstTrafficMap).dstWithMostBytes.data]) ∧
      (0 ≤ s.m_prevData.bytes → 3 * s.m_prevData.bytes ≤ 2147483647 →
        (∀ x ∈ s.m_dstTrafficMap, 0 ≤ x.2.bytes) →
        ∃ e ∈ s.m_dstTrafficMap, e.1 = (scanMap s.m_dstTrafficMap).dstWithMostBytes ∧
          0 < e.2.bytes ∧ ∀ x ∈ s.m_dstTrafficMap, x.2.bytes ≤ e.2.bytes)) ∧
    ((s.CheckAlert s.totals).2.packets = false → (s.CheckAlert s.totals).2.bytes = false →
      (s.CheckAlert s.totals).2.flows = true →
      s.GenerateReport.report
        = "alert " ++ reportBody (s.m_reportsGenerated + 1) s.totals ++ " "
          ++ (scanMap s.m_dstTrafficMap).dstWithMostFlows ∧
      ((scanMap s.m_dstTrafficMap).dstWithMostFlows.data ≠ [] →
        (∀ c ∈ (scanMap s.m_dstTrafficMap).dstWithMostFlows.data, isSpace c = false) →
        wordsAux [] s.GenerateReport.report.data
          = ["alert".data, "report".data, (toString (s.m_reportsGenerated + 1)).data,
              (toString s.totals.packets).data, (toString s.totals.bytes).data,
              (toString s.totals.flows.length).data,
              (scanMap s.m_dstTrafficMap).dstWithMostFlows.data]) ∧
      (∃ e ∈ s.m_dstTrafficMap, e.1 = (scanMap s.m_dstTrafficMap).dstWithMostFlows ∧
        0 < e.2.flows.length ∧
        ∀ x ∈ s.m_dstTrafficMap, x.2.flows.length ≤ e.2.flows.length)) := by
  have hret : (s.CheckAlert s.totals).1
      = ((s.CheckAlert s.totals).2.packets || (s.CheckAlert s.totals).2.bytes
        || (s.CheckAlert s.totals).2.flows) := rfl
  refine ⟨?_, ?_, ?_, ?_⟩
  · intro h0
    have hf := h0
    rw [hret] at hf
    simp only [Bool.or_eq_false_iff] at hf
    have hsuffix : destinationSuffix (s.CheckAlert s.totals).2 (scanMap s.m_dstTrafficMap) = "" := by
      unfold destinationSuffix
      simp [hf.1.1, hf.1.2, hf.2]
    constructor
    · rw [GenerateReport_report]
      unfold reportText
      rw [h0, hsuffix]
      simp
      rfl
    · rw [GenerateReport_report, words_reportText, h0, hsuffix]
      rfl
  · intro hp
    have hr := report_with_destination s (scanMap s.m_dstTrafficMap).dstWithMostPackets
      (by rw [hret, hp]; rfl) (by unfold destinationSuffix; simp [hp])
    refine ⟨hr.1, hr.2, ?_⟩
    intro hprev hthree hnn
    have hgt : s.totals.packets > wrapInt (s.m_prevData.packets * 3) := of_decide_eq_true hp
    rw [wrapInt_threefold hprev hthree] at hgt
    exact leader_packets s hnn (by omega)
  · intro hp hb
    have hr := report_with_destination s (scanMap s.m_dstTrafficMap).dstWithMostBytes
      (by rw [hret, hp, hb]; rfl) (by unfold destinationSuffix; simp [hp, hb])
    refine ⟨hr.1, hr.2, ?_⟩
    intro hprev hthree hnn
    have hgt : s.totals.bytes > wrapInt (s.m_prevData.bytes * 3) := of_decide_eq_true hb
    rw [wrapInt_threefold hprev hthree] at hgt
    exact leader_bytes s hnn (by omega)
  · intro hp hb hf
    have hr := report_with_destination s (scanMap s.m_dstTrafficMap).dstWithMostFlows
      (by rw [hret, hp, hb, hf]; rfl) (by unfold destinationSuffix; simp [hp, hb, hf])
    refine ⟨hr.1, hr.2, ?_⟩
    have hgt : s.totals.flows.length > s.m_prevData.flows.length * 3 := of_decide_eq_true hf
    exact leader_flows s (by omega)

/-- Witness of C5: a timeslice that alerts on packets only, after previous
totals (10, 1000, 2); the address is that of the destination 10.0.0.2 of the
timeslice. -/
theorem C5_destination_precedence_witness :
    (exampleAnalyzer.CheckAlert exampleAnalyzer.totals).2.packets = true ∧
    0 ≤ exampleAnalyzer.m_prevData.packets ∧
    3 * exampleAnalyzer.m_prevData.packets ≤ 2147483647 ∧
    (∀ x ∈ exampleAnalyzer.m_dstTrafficMap, 0 ≤ x.2.packets) ∧
    exampleAnalyzer.GenerateReport.report
      = "alert " ++ reportBody (exampleAnalyzer.m_reportsGenerated + 1) exampleAnalyzer.totals
        ++ " " ++ (scanMap exampleAnalyzer.m_dstTrafficMap).dstWithMostPackets ∧
    (scanMap exampleAnalyzer.m_dstTrafficMap).dstWithMostPackets = "10.0.0.2" ∧
    ∃ e ∈ exampleAnalyzer.m_dstTrafficMap,
      e.1 = (scanMap exampleAnalyzer.m_dstTrafficMap).dstWithMostPackets ∧ 0 < e.2.packets ∧
        ∀ x ∈ exampleAnalyzer.m_dstTrafficMap, x.2.packets ≤ e.2.packets :=
  ⟨by decide, by decide, by decide, by decide,
    ((C5_destination_precedence exampleAnalyzer).2.1 (by decide)).1, by decide,
    ((C5_destination_precedence exampleAnalyzer).2.1 (by decide)).2.2 (by decide) (by decide)
      (by decide)⟩

/-- Counterexample to C5 as stated: after a timeslice of 16000 packets of
50000 bytes, whose byte total 800000000 becomes the previous total, comes a
timeslice without any packet. CheckAlert sets the bytes flag, because the
`int` product of 800000000 and 3 is negative, and no destination leads on
bytes: the report text is `alert report 2 0 0 0 `, which ends with a blank and
carries no destination address. -/
theorem C5_counterexample :
    afterHeavyTimeslice.m_prevData.bytes = 800000000 ∧
    afterHeavyTimeslice.m_dstTrafficMap = [] ∧
    afterHeavyTimeslice.CheckAlert afterHeavyTimeslice.totals
      = (true, { packets := false, bytes := true, flows := false }) ∧
    afterHeavyTimeslice.GenerateReport.report = "alert report 2 0 0 0 " ∧
    wordsAux [] afterHeavyTimeslice.GenerateReport.report.data
      = ["alert".data, "report".data, "2".data, "0".data, "0".data, "0".data] := by
  rw [afterHeavyTimeslice_eq]
  decide

/-! ## Report, then reset -/

/-- What `ProcessReports` reads from a generated report: the packet and byte
totals, which are values of an `int`, and the flow total as far as an `int`
holds it. -/
theorem reportCounts_GenerateReport (s : TrafficAnalyzer) :
    reportCounts s.GenerateReport.report
      = some (s.totals.packets, s.totals.bytes, clampInt (s.totals.flows.length : Int)) := by
  have ht : (scanMap s.m_dstTrafficMap).totalData = s.totals := rfl
  rw [GenerateReport_report, reportCounts_reportText, ht,
    clampInt_of_inIntRange (totals_inIntRange s).1, clampInt_of_inIntRange (totals_inIntRange s).2]

/-- C6: for every engine state, after GenerateReport returns the destination
map is empty and the stored previous totals are exactly the totals just
reported (packets, bytes and flow list), which are the totals that the report
text carries and that ProcessReports reads from it (a flow total beyond the
range of `int` is read as the largest `int`); consequently, when no packet is
ingested before the next GenerateReport, the next report has the next sequence
number and carries the totals 0 0 0, and leaves the map empty again. -/
theorem C6_report_then_reset (s : TrafficAnalyzer) :
    s.GenerateReport.state.m_dstTrafficMap = [] ∧
    s.GenerateReport.state.m_prevData = s.totals ∧
    (specParseReport s.GenerateReport.report).map (fun r => (r.packets, r.bytes, r.flows))
      = some (s.totals.packets, s.totals.bytes, (s.totals.flows.length : Int)) ∧
    reportCounts s.GenerateReport.report
      = some (s.totals.packets, s.totals.bytes, clampInt (s.totals.flows.length : Int)) ∧
    s.GenerateReport.state.totals = { packets := 0, bytes := 0, flows := [] } ∧
    reportCounts s.GenerateReport.state.GenerateReport.report = some (0, 0, 0) ∧
    wordsAux [] s.GenerateReport.state.GenerateReport.report.data
      = (if (s.GenerateReport.state.CheckAlert s.GenerateReport.state.totals).1
          then ["alert".data] else [])
        ++ ("report".data :: (toString (s.m_reportsGenerated + 2)).data :: "0".data :: "0".data
          :: "0".data
          :: wordsAux [] (destinationSuffix
              (s.GenerateReport.state.CheckAlert s.GenerateReport.state.totals).2
              (scanMap s.GenerateReport.state.m_dstTrafficMap)).data) ∧
    s.GenerateReport.state.GenerateReport.state.m_dstTrafficMap = [] ∧
    s.GenerateReport.state.GenerateReport.state.m_prevData
      = { packets := 0, bytes := 0, flows := [] } := by
  have hnext : s.GenerateReport.state.totals = { packets := 0, bytes := 0, flows := [] } := rfl
  have hid : s.GenerateReport.state.m_reportsGenerated + 1 = s.m_reportsGenerated + 2 := by
    show s.m_reportsGenerated + 1 + 1 = s.m_reportsGenerated + 2
    ring
  refine ⟨rfl, rfl, ?_, reportCounts_GenerateReport s, hnext, ?_, ?_, rfl, rfl⟩
  · rw [GenerateReport_report, specParseReport_reportText]; rfl
  · rw [reportCounts_GenerateReport, hnext]; rfl
  · have ht : (scanMap s.GenerateReport.state.m_dstTrafficMap).totalData
        = { packets := 0, bytes := 0, flows := [] } := rfl
    have h0 : toString (0 : Int) = "0" := by decide
    have h1 : toString (0 : Nat) = "0" := by decide
    rw [GenerateReport_report, words_reportText, hid, ht]
    simp only [List.length_nil, h0, h1]

/-! ## Sequence numbers -/

theorem reportSeq_GenerateReport (s : TrafficAnalyzer) :
    reportSeq s.GenerateReport.report = some (s.m_reportsGenerated + 1) := by
  unfold reportSeq
  rw [GenerateReport_report, specParseReport_reportText]
  rfl

theorem GenerateReport_counter (s : TrafficAnalyzer) :
    s.GenerateReport.state.m_reportsGenerated = s.m_reportsGenerated + 1 := rfl

theorem AddPacket_counter (s : TrafficAnalyzer) (p : PacketInfo) :
    (s.AddPacket p).m_reportsGenerated = s.m_reportsGenerated := rfl

/-- Reports of a run carry the numbers that follow the counter, in order. -/
theorem runCalls_seq (calls : List Call) :
    ∀ s : TrafficAnalyzer,
      (runCalls s calls).1.map reportSeq
        = (List.range (runCalls s calls).1.length).map
            (fun i : Nat => some (s.m_reportsGenerated + 1 + (i : Int))) ∧
      (runCalls s calls).1.length = calls.count Call.generateReport ∧
      (runCalls s calls).2.m_reportsGenerated
        = s.m_reportsGenerated + ((runCalls s calls).1.length : Int) := by
  induction calls with
  | nil => intro s; simp [runCalls]
  | cons c rest ih =>
    intro s
    cases c with
    | addPacket p =>
      have h := ih (s.AddPacket p)
      rw [AddPacket_counter] at h
      have hc : (Call.addPacket p :: rest).count Call.generateReport
          = rest.count Call.generateReport := by
        rw [List.count_cons]; simp
      simp only [runCalls, hc]
      exact h
    | generateReport =>
      have h := ih s.GenerateReport.state
      rw [GenerateReport_counter] at h
      obtain ⟨h1, h2, h3⟩ := h
      simp only [runCalls, List.map_cons, List.length_cons, List.count_cons_self]
      refine ⟨?_, by rw [h2], ?_⟩
      · rw [List.range_succ_eq_map, List.map_cons, List.map_map, h1, reportSeq_GenerateReport]
        simp only [Nat.cast_zero, add_zero, List.cons.injEq, true_and]
        apply List.map_congr_left
        intro i _
        simp only [Function.comp, Nat.cast_succ]
        congr 1
        ring
      · rw [h3]
        push_cast
        ring

/-- The replay-mode queue holds the reports numbered 1, 2, 3, ... in order,
and the counter of the analyzer is the length of the queue. -/
theorem GetPacket_queue_seq (timeslice_usecs : Int) (st : WatchdogState) (d : Delivery)
    (hq : st.g_reports.map reportSeq
      = (List.range st.g_reports.length).map (fun i : Nat => some ((i : Int) + 1)))
    (hc : st.analyzer.m_reportsGenerated = (st.g_reports.length : Int)) :
    (GetPacket false timeslice_usecs st d).g_reports.map reportSeq
      = (List.range (GetPacket false timeslice_usecs st d).g_reports.length).map
          (fun i : Nat => some ((i : Int) + 1)) ∧
    (GetPacket false timeslice_usecs st d).analyzer.m_reportsGenerated
      = ((GetPacket false timeslice_usecs st d).g_reports.length : Int) := by
  have hpush : (st.g_reports ++ [st.analyzer.GenerateReport.report]).map reportSeq
      = (List.range (st.g_reports ++ [st.analyzer.GenerateReport.report]).length).map
          (fun i : Nat => some ((i : Int) + 1)) := by
    rw [List.map_append, hq, List.length_append, List.length_singleton, List.range_succ,
      List.map_append, List.map_singleton, List.map_singleton, reportSeq_GenerateReport, hc]
  have hcount : st.analyzer.GenerateReport.state.m_reportsGenerated
      = ((st.g_reports ++ [st.analyzer.GenerateReport.report]).length : Int) := by
    rw [GenerateReport_counter, hc]
    simp
  unfold GetPacket
  simp only [Bool.not_false, if_true]
  by_cases h1 : d.ts_usecs > st.g_maxts_usecs
  · by_cases h2 : st.g_maxts_usecs > 0
    · simp only [h1, h2, if_true]
      cases d.pkt with
      | none => exact ⟨hpush, hcount⟩
      | some p => exact ⟨hpush, hcount⟩
    · simp only [h1, h2, if_true, if_false]
      cases d.pkt with
      | none => exact ⟨hq, hc⟩
      | some p => exact ⟨hq, hc⟩
  · simp only [h1, if_false]
    cases d.pkt with
    | none => exact ⟨hq, hc⟩
    | some p => exact ⟨hq, hc⟩

theorem replay_queue_seq (timeslice_usecs : Int) (ds : List Delivery) :
    ∀ st : WatchdogState,
      st.g_reports.map reportSeq
        = (List.range st.g_reports.length).map (fun i : Nat => some ((i : Int) + 1)) →
      st.analyzer.m_reportsGenerated = (st.g_reports.length : Int) →
      (ds.foldl (GetPacket false timeslice_usecs) st).g_reports.map reportSeq
        = (List.range (ds.foldl (GetPacket false timeslice_usecs) st).g_reports.length).map
            (fun i : Nat => some ((i : Int) + 1)) := by
  induction ds with
  | nil => intro st hq _; exact hq
  | cons d rest ih =>
    intro st hq hc
    obtain ⟨h1, h2⟩ := GetPacket_queue_seq timeslice_usecs st d hq hc
    exact ih _ h1 h2

/-- C7: for every sequence of AddPacket and GenerateReport calls on a freshly
constructed TrafficAnalyzer, the reports, in generation order, carry the
sequence numbers 1, 2, 3, ...: the k-th call of GenerateReport produces the
report whose sequence number is k. There are as many reports as GenerateReport
calls; GenerateReport raises the counter by 1 and AddPacket never changes it.
The same numbering holds of the FIFO queue that GetPacket fills in replay
mode, from front to back. -/
theorem C7_sequence_numbers (logfile : String) (calls : List Call) (timeslice_usecs : Int)
    (ds : List Delivery) :
    (runCalls (TrafficAnalyzer.new logfile) calls).1.map reportSeq
      = (List.range (calls.count Call.generateReport)).map (fun i : Nat => some ((i : Int) + 1)) ∧
    (runCalls (TrafficAnalyzer.new logfile) calls).1.length = calls.count Call.generateReport ∧
    (∀ k : Nat, k < calls.count Call.generateReport →
      ((runCalls (TrafficAnalyzer.new logfile) calls).1.get? k).bind reportSeq
        = some ((k : Int) + 1)) ∧
    (∀ (s : TrafficAnalyzer) (p : PacketInfo),
      (s.AddPacket p).m_reportsGenerated = s.m_reportsGenerated) ∧
    (∀ s : TrafficAnalyzer,
      s.GenerateReport.state.m_reportsGenerated = s.m_reportsGenerated + 1 ∧
      reportSeq s.GenerateReport.report = some (s.m_reportsGenerated + 1)) ∧
    (ds.foldl (GetPacket false timeslice_usecs) (WatchdogState.start logfile)).g_reports.map
        reportSeq
      = (List.range (ds.foldl (GetPacket false timeslice_usecs)
          (WatchdogState.start logfile)).g_reports.length).map
          (fun i : Nat => some ((i : Int) + 1)) := by
  obtain ⟨h1, h2, _⟩ := runCalls_seq calls (TrafficAnalyzer.new logfile)
  have h1' : (runCalls (TrafficAnalyzer.new logfile) calls).1.map reportSeq
      = (List.range (calls.count Call.generateReport)).map (fun i : Nat => some ((i : Int) + 1)) := by
    rw [h1, h2]
    apply List.map_congr_left
    intro i _
    simp [TrafficAnalyzer.new, add_comm]
  refine ⟨h1', h2, ?_, AddPacket_counter, fun s => ⟨rfl, reportSeq_GenerateReport s⟩, ?_⟩
  · intro k hk
    have hget : ((runCalls (TrafficAnalyzer.new logfile) calls).1.map reportSeq).get? k
        = some (some ((k : Int) + 1)) := by
      rw [h1']
      simp [List.getElem?_range hk, hk]
    rw [List.get?_eq_getElem?, List.getElem?_map] at hget
    rw [List.get?_eq_getElem?]
    cases hv : (runCalls (TrafficAnalyzer.new logfile) calls).1[k]? with
    | none => rw [hv] at hget; simp at hget
    | some r =>
      rw [hv] at hget
      simpa using hget
  · exact replay_queue_seq timeslice_usecs ds (WatchdogState.start logfile) (by
      simp [WatchdogState.start]) (by simp [WatchdogState.start, TrafficAnalyzer.new])

/-- Witness of C7: the second of two reports of a run carries the number 2. -/
theorem C7_sequence_numbers_witness :
    1 < [Call.generateReport, Call.addPacket examplePacket, Call.generateReport].count
        Call.generateReport ∧
    ((runCalls (TrafficAnalyzer.new "log")
        [Call.generateReport, Call.addPacket examplePacket, Call.generateReport]).1.get? 1).bind
        reportSeq
      = some (((1 : Nat) : Int) + 1) :=
  ⟨by decide, (C7_sequence_numbers "log"
    [Call.generateReport, Call.addPacket examplePacket, Call.generateReport] 1000000 []).2.2.1 1
    (by decide)⟩

/-! ## Round trip of a report -/

theorem alert_iff_categories (s : TrafficAnalyzer) (cur : TrafficData) :
    (s.CheckAlert cur).1 = decide ((s.CheckAlert cur).2.categories ≠ []) := by
  have h : (s.CheckAlert cur).1
      = ((s.CheckAlert cur).2.packets || (s.CheckAlert cur).2.bytes
        || (s.CheckAlert cur).2.flows) := rfl
  rw [h]
  unfold AlertFlags.categories
  cases (s.CheckAlert cur).2.packets <;> cases (s.CheckAlert cur).2.bytes <;>
    cases (s.CheckAlert cur).2.flows <;> decide

/-- C8 (as amended): for every sequence number, totals and alert flags, the
report string composed by GenerateReport parses back, under the report grammar
of the wire protocol, to the identical sequence number and the identical
packets/bytes/flows totals, and to the alert marker, which is present exactly
when the set of alerted categories is not empty; the category list read back
is empty whatever the alerted categories are, because the composed string does
not carry them. ProcessReports reads the same totals from the string, where a
flow total beyond the range of `int` is read as the largest `int`. -/
theorem C8_round_trip (s : TrafficAnalyzer) :
    specParseReport s.GenerateReport.report
      = some { alert := decide ((s.CheckAlert s.totals).2.categories ≠ [])
               categories := []
               seq := s.m_reportsGenerated + 1
               packets := s.totals.packets
               bytes := s.totals.bytes
               flows := (s.totals.flows.length : Int) } ∧
    reportCounts s.GenerateReport.report
      = some (s.totals.packets, s.totals.bytes, clampInt (s.totals.flows.length : Int)) ∧
    (∀ (alert : Bool) (flags : AlertFlags) (reportId : Int) (st : ScanState),
      specParseReport (reportText alert flags reportId st)
        = some { alert := alert, categories := [], seq := reportId,
                 packets := st.totalData.packets, bytes := st.totalData.bytes,
                 flows := (st.totalData.flows.length : Int) }) := by
  refine ⟨?_, reportCounts_GenerateReport s, specParseReport_reportText⟩
  rw [GenerateReport_report, specParseReport_reportText, alert_iff_categories]
  rfl

/-- Counterexample to C8 as stated: the same timeslice alerts on packets alone
after previous totals (10, 1000, 2) and on packets and bytes after previous
totals (10, 100, 2); the two composed strings are equal, so the category set
cannot be read back from the string, and the grammar reads an empty category
list from it. -/
theorem C8_counterexample :
    (exampleAnalyzer.CheckAlert exampleAnalyzer.totals).2.categories = [AlertType.PACKETS] ∧
    (exampleAnalyzerLowBytes.CheckAlert exampleAnalyzerLowBytes.totals).2.categories
      = [AlertType.PACKETS, AlertType.BYTES] ∧
    exampleAnalyzer.GenerateReport.report = exampleAnalyzerLowBytes.GenerateReport.report ∧
    (specParseReport exampleAnalyzer.GenerateReport.report).map (fun r => r.categories)
      = some [] ∧
    (specParseReport exampleAnalyzer.GenerateReport.report).map (fun r => r.categories)
      ≠ some (exampleAnalyzer.CheckAlert exampleAnalyzer.totals).2.categories := by
  decide

/-! ## Identity map of the connection manager -/

section MapInsertErase
variable {κ α : Type} [DecidableEq κ] {lt : κ → κ → Bool}

theorem mapFind_eq_none_iff (k : κ) :
    ∀ (m : List (κ × α)), mapFind k m = none ↔ k ∉ m.map Prod.fst
  | [] => by simp [mapFind]
  | (k1, v) :: rest => by
    by_cases h1 : k = k1
    · subst h1; simp [mapFind]
    · simp only [mapFind, h1, if_false, List.map_cons, List.mem_cons, false_or]
      exact mapFind_eq_none_iff k rest

/-- Writing under a key that the map does not hold adds one entry. -/
theorem mapModify_perm_new (dflt : α) (k : κ) (f : α → α) :
    ∀ (m : List (κ × α)), k ∉ m.map Prod.fst →
      (mapModify lt dflt k f m).Perm ((k, f dflt) :: m)
  | [], _ => by simp [mapModify]
  | (k1, v) :: rest, hk => by
    have h1 : k ≠ k1 := by
      intro hh; apply hk; simp [hh]
    have hk2 : k ∉ rest.map Prod.fst := by
      intro hh; apply hk; simp [hh]
    cases h2 : lt k k1 with
    | true => simp [mapModify, h1, h2]
    | false =>
      simp only [mapModify, h1, h2, if_false, Bool.false_eq_true]
      exact ((mapModify_perm_new dflt k f rest hk2).cons (k1, v)).trans (List.Perm.swap _ _ _)

/-- Reading `m[k]` under a key that the map holds leaves the map as it is. -/
theorem mapModify_id_of_mem (h : StrictTotal lt) (dflt : α) (k : κ) :
    ∀ (m : List (κ × α)), MapSorted lt m → k ∈ m.map Prod.fst →
      mapModify lt dflt k (fun v => v) m = m
  | [], _, hk => by simp at hk
  | (k1, v) :: rest, hs, hk => by
    rw [mapSorted_cons] at hs
    by_cases h1 : k = k1
    · subst h1; simp [mapModify]
    · have hk2 : k ∈ rest.map Prod.fst := by
        simpa [h1] using hk
      obtain ⟨e, he, hek⟩ := List.mem_map.mp hk2
      have hlt : lt k1 k = true := by rw [← hek]; exact hs.1 e he
      have h2 : lt k k1 = false := by
        cases hh : lt k k1 with
        | false => rfl
        | true =>
          have := h.trans _ _ _ hh hlt
          rw [h.irrefl] at this
          exact Bool.noConfusion this
      simp only [mapModify, h1, h2, if_false, Bool.false_eq_true]
      rw [mapModify_id_of_mem h dflt k rest hs.2 hk2]

theorem mem_mapErase (k : κ) :
    ∀ (m : List (κ × α)) (x : κ × α), x ∈ mapErase k m → x ∈ m
  | [], x, hx => by simp [mapErase] at hx
  | (k1, v) :: rest, x, hx => by
    by_cases h1 : k = k1
    · simp only [mapErase, h1, if_true] at hx
      exact List.mem_cons_of_mem _ hx
    · simp only [mapErase, h1, if_false, List.mem_cons] at hx
      rcases hx with hx | hx
      · simp [hx]
      · exact List.mem_cons_of_mem _ (mem_mapErase k rest x hx)

theorem mapSorted_mapErase (k : κ) :
    ∀ (m : List (κ × α)), MapSorted lt m → MapSorted lt (mapErase k m)
  | [], hs => by simpa [mapErase] using hs
  | (k1, v) :: rest, hs => by
    rw [mapSorted_cons] at hs
    by_cases h1 : k = k1
    · simp only [mapErase, h1, if_true]; exact hs.2
    · simp only [mapErase, h1, if_false]
      rw [mapSorted_cons]
      exact ⟨fun x hx => hs.1 x (mem_mapErase k rest x hx), mapSorted_mapErase k rest hs.2⟩

theorem mapFind_mapErase_other (k k2 : κ) (hne : k2 ≠ k) :
    ∀ (m : List (κ × α)), mapFind k2 (mapErase k m) = mapFind k2 m
  | [] => rfl
  | (k1, v) :: rest => by
    by_cases h1 : k = k1
    · subst h1; simp [mapErase, mapFind, hne]
    · simp only [mapErase, h1, if_false, mapFind]
      rw [mapFind_mapErase_other k k2 hne rest]

theorem mapFind_mapErase_self (h : StrictTotal lt) (k : κ) :
    ∀ (m : List (κ × α)), MapSorted lt m → mapFind k (mapErase k m) = none
  | [], _ => rfl
  | (k1, v) :: rest, hs => by
    rw [mapSorted_cons] at hs
    by_cases h1 : k = k1
    · subst h1
      simp only [mapErase, if_true]
      exact mapFind_eq_none_of_lt h k rest hs.1
    · simp only [mapErase, h1, if_false, mapFind]
      exact mapFind_mapErase_self h k rest hs.2

theorem length_mapErase_of_mem (k : κ) :
    ∀ (m : List (κ × α)), k ∈ m.map Prod.fst → (mapErase k m).length + 1 = m.length
  | [], hk => by simp at hk
  | (k1, v) :: rest, hk => by
    by_cases h1 : k = k1
    · simp [mapErase, h1]
    · have hk2 : k ∈ rest.map Prod.fst := by simpa [h1] using hk
      simp only [mapErase, h1, if_false, List.length_cons]
      rw [length_mapErase_of_mem k rest hk2]

theorem keys_mapErase (h : StrictTotal lt) (k : κ) :
    ∀ (m : List (κ × α)), MapSorted lt m →
      (mapErase k m).map Prod.fst = (m.map Prod.fst).filter (fun x => decide (x ≠ k))
  | [], _ => rfl
  | (k1, v) :: rest, hs => by
    rw [mapSorted_cons] at hs
    by_cases h1 : k = k1
    · subst h1
      simp only [mapErase, if_true, List.map_cons, ne_eq, not_true_eq_false, decide_False,
        Bool.false_eq_true, not_false_eq_true, List.filter_cons_of_neg]
      symm
      rw [List.filter_eq_self]
      intro x hx
      obtain ⟨e, he, hek⟩ := List.mem_map.mp hx
      have hlt : lt k x = true := by rw [← hek]; exact hs.1 e he
      simp only [ne_eq, decide_not, Bool.not_eq_true', decide_eq_false_iff_not]
      intro hh
      rw [hh, h.irrefl] at hlt
      exact Bool.noConfusion hlt
    · have h1' : k1 ≠ k := fun hh => h1 hh.symm
      simp only [mapErase, h1, if_false, List.map_cons]
      rw [keys_mapErase h k rest hs.2]
      simp [h1']

end MapInsertErase

/-! ## Accepting the watchdogs -/

theorem establishLoop_spec (accepts : Nat → AcceptOutcome) :
    ∀ (r j0 : Nat) (logged : List String) (sent : List (Int × String)) (cm : ConnectionManager),
      (∀ t, t < r → (accepts (j0 + t)).fd ≠ -1 ∧ (accepts (j0 + t)).sendRet ≠ -1) →
      (∀ t, t < r → (accepts (j0 + t)).fd ∉ cm.m_idMap.map Prod.fst) →
      (∀ t u, t < r → u < r → (accepts (j0 + t)).fd = (accepts (j0 + u)).fd → t = u) →
      MapSorted intLt cm.m_idMap →
      (establishLoop accepts r (j0 : Int) logged sent cm).ok = true ∧
      (establishLoop accepts r (j0 : Int) logged sent cm).state.m_numWatchdogs
        = cm.m_numWatchdogs ∧
      MapSorted intLt (establishLoop accepts r (j0 : Int) logged sent cm).state.m_idMap ∧
      (establishLoop accepts r (j0 : Int) logged sent cm).state.m_idMap.Perm
        (cm.m_idMap
          ++ (List.range r).map (fun t : Nat => ((accepts (j0 + t)).fd, ((j0 + t : Nat) : Int) + 1))) ∧
      (establishLoop accepts r (j0 : Int) logged sent cm).sent
        = sent ++ (List.range r).map
            (fun t : Nat => ((accepts (j0 + t)).fd, "UID " ++ toString (((j0 + t : Nat) : Int) + 1))) := by
  intro r
  induction r with
  | zero =>
    intro j0 logged sent cm _ _ _ hs
    simp [establishLoop, hs]
  | succ r ih =>
    intro j0 logged sent cm hok hnew hinj hs
    have h0 := hok 0 (Nat.succ_pos r)
    have hn0 := hnew 0 (Nat.succ_pos r)
    simp only [Nat.add_zero] at h0 hn0
    have hidx : ((j0 : Int)).toNat = j0 := Int.toNat_natCast j0
    have hnext : ((j0 : Int) + 1) = ((j0 + 1 : Nat) : Int) := by push_cast; rfl
    have hperm : (mapModify intLt (0 : Int) (accepts j0).fd (fun _ => (j0 : Int) + 1)
        cm.m_idMap).Perm (((accepts j0).fd, (j0 : Int) + 1) :: cm.m_idMap) :=
      mapModify_perm_new (0 : Int) (accepts j0).fd (fun _ => (j0 : Int) + 1) cm.m_idMap hn0
    have hsorted := mapSorted_mapModify intLt_strictTotal (0 : Int) (accepts j0).fd
      (fun _ => (j0 : Int) + 1) cm.m_idMap hs
    have hkeys : ∀ t, t < r → (accepts (j0 + 1 + t)).fd
        ∉ (mapModify intLt (0 : Int) (accepts j0).fd (fun _ => (j0 : Int) + 1)
            cm.m_idMap).map Prod.fst := by
      intro t ht hmem
      have hmem2 := (hperm.map Prod.fst).mem_iff.mp hmem
      have hidx2 : j0 + 1 + t = j0 + (t + 1) := by omega
      rw [hidx2] at hmem2
      simp only [List.map_cons, List.mem_cons] at hmem2
      rcases hmem2 with hh | hh
      · have := hinj (t + 1) 0 (by omega) (by omega) (by simpa using hh)
        omega
      · exact hnew (t + 1) (by omega) hh
    have hrec := ih (j0 + 1)
      (logged ++ ["Incoming watchdog connection from IP " ++ (accepts j0).ip]
        ++ ["Assigned " ++ toString ((j0 : Int) + 1) ++ " to watchdog at IP " ++ (accepts j0).ip])
      (sent ++ [((accepts j0).fd, "UID " ++ toString ((j0 : Int) + 1))])
      { cm with m_idMap := mapModify intLt (0 : Int) (accepts j0).fd (fun _ => (j0 : Int) + 1)
                  cm.m_idMap }
      (by intro t ht
          have hidx2 : j0 + 1 + t = j0 + (t + 1) := by omega
          rw [hidx2]; exact hok (t + 1) (by omega))
      hkeys
      (by intro t u ht hu he
          have h1 : j0 + 1 + t = j0 + (t + 1) := by omega
          have h2 : j0 + 1 + u = j0 + (u + 1) := by omega
          rw [h1, h2] at he
          have := hinj (t + 1) (u + 1) (by omega) (by omega) he
          omega)
      hsorted
    have hunfold : establishLoop accepts (r + 1) (j0 : Int) logged sent cm
        = establishLoop accepts r ((j0 + 1 : Nat) : Int)
            (logged ++ ["Incoming watchdog connection from IP " ++ (accepts j0).ip]
              ++ ["Assigned " ++ toString ((j0 : Int) + 1) ++ " to watchdog at IP "
                ++ (accepts j0).ip])
            (sent ++ [((accepts j0).fd, "UID " ++ toString ((j0 : Int) + 1))])
            { cm with m_idMap := mapModify intLt (0 : Int) (accepts j0).fd
                        (fun _ => (j0 : Int) + 1) cm.m_idMap } := by
      simp only [establishLoop, hidx, h0.1, h0.2, if_false, hnext]
    rw [hunfold]
    obtain ⟨g1, g2, g3, g4, g5⟩ := hrec
    have hshift : ∀ (g : Nat → Int × Int),
        (List.range (r + 1)).map (fun t : Nat => g (j0 + t))
          = g j0 :: (List.range r).map (fun t : Nat => g (j0 + 1 + t)) := by
      intro g
      rw [List.range_succ_eq_map, List.map_cons, List.map_map]
      simp only [Nat.add_zero, List.cons.injEq, true_and]
      apply List.map_congr_left
      intro t _
      simp only [Function.comp, Nat.succ_eq_add_one]
      congr 1
      omega
    have hshift2 : ∀ (g : Nat → Int × String),
        (List.range (r + 1)).map (fun t : Nat => g (j0 + t))
          = g j0 :: (List.range r).map (fun t : Nat => g (j0 + 1 + t)) := by
      intro g
      rw [List.range_succ_eq_map, List.map_cons, List.map_map]
      simp only [Nat.add_zero, List.cons.injEq, true_and]
      apply List.map_congr_left
      intro t _
      simp only [Function.comp, Nat.succ_eq_add_one]
      congr 1
      omega
    refine ⟨g1, g2, g3, ?_, ?_⟩
    · rw [hshift (fun n => ((accepts n).fd, ((n : Nat) : Int) + 1))]
      refine g4.trans ?_
      refine (List.Perm.append_right _ hperm).trans ?_
      simp only [List.cons_append]
      exact List.perm_middle.symm
    · rw [g5, hshift2 (fun n => ((accepts n).fd, "UID " ++ toString (((n : Nat) : Int) + 1)))]
      simp

theorem RemoveWatchdog_fold_sorted (gone : List Int) :
    ∀ cm : ConnectionManager, MapSorted intLt cm.m_idMap →
      MapSorted intLt (gone.foldl ConnectionManager.RemoveWatchdog cm).m_idMap := by
  induction gone with
  | nil => intro cm hs; exact hs
  | cons g rest ih =>
    intro cm hs
    exact ih _ (mapSorted_mapErase g cm.m_idMap hs)

theorem RemoveWatchdog_fold_none (gone : List Int) (fd : Int) :
    ∀ cm : ConnectionManager, mapFind fd cm.m_idMap = none →
      mapFind fd (gone.foldl ConnectionManager.RemoveWatchdog cm).m_idMap = none := by
  induction gone with
  | nil => intro cm h; exact h
  | cons g rest ih =>
    intro cm h
    apply ih
    show mapFind fd (mapErase g cm.m_idMap) = none
    rw [mapFind_eq_none_iff] at h ⊢
    intro hmem
    obtain ⟨e, he, hek⟩ := List.mem_map.mp hmem
    exact h (List.mem_map.mpr ⟨e, mem_mapErase g _ e he, hek⟩)

theorem RemoveWatchdog_fold_find (gone : List Int) (fd : Int) :
    ∀ cm : ConnectionManager, MapSorted intLt cm.m_idMap →
      (fd ∉ gone →
        mapFind fd (gone.foldl ConnectionManager.RemoveWatchdog cm).m_idMap
          = mapFind fd cm.m_idMap) ∧
      (fd ∈ gone →
        mapFind fd (gone.foldl ConnectionManager.RemoveWatchdog cm).m_idMap = none) := by
  induction gone with
  | nil => intro cm _; simp
  | cons g rest ih =>
    intro cm hs
    have hs2 : MapSorted intLt (cm.RemoveWatchdog g).m_idMap := mapSorted_mapErase g cm.m_idMap hs
    obtain ⟨i1, i2⟩ := ih (cm.RemoveWatchdog g) hs2
    constructor
    · intro hnot
      have hne : fd ≠ g := fun hh => hnot (by simp [hh])
      have hnr : fd ∉ rest := fun hh => hnot (by simp [hh])
      rw [List.foldl_cons, i1 hnr]
      exact mapFind_mapErase_other g fd hne cm.m_idMap
    · intro hin
      rw [List.foldl_cons]
      by_cases hg : fd = g
      · apply RemoveWatchdog_fold_none
        rw [hg]
        exact mapFind_mapErase_self intLt_strictTotal g cm.m_idMap hs
      · have : fd ∈ rest := by simpa [hg] using hin
        exact i2 this

/-- C9: for every N and every sequence of N successful accepts and sends that
return distinct socket descriptors, EstablishWDConnections returns true and
assigns the i-th accepted connection the identity i: the map sends the
descriptor of the i-th connection to i, the message `UID i` is sent on it,
and the identities in the map are exactly 1, ..., N, each once. Removing
watchdogs afterwards, in any order, leaves the identity of every remaining
watchdog as it was, and a removed descriptor has no identity any more. -/
theorem C9_identities (N : Nat) (logfile : String) (listener listenRet : Int)
    (accepts : Nat → AcceptOutcome) (hlistener : listener ≠ -1) (hlisten : listenRet ≠ -1)
    (hok : ∀ j, j < N → (accepts j).fd ≠ -1 ∧ (accepts j).sendRet ≠ -1)
    (hdistinct : ∀ i j, i < N → j < N → (accepts i).fd = (accepts j).fd → i = j) :
    ((ConnectionManager.new N logfile).EstablishWDConnections listener listenRet accepts).ok
      = true ∧
    (∀ j, j < N →
      mapFind (accepts j).fd
        ((ConnectionManager.new N logfile).EstablishWDConnections listener listenRet
          accepts).state.m_idMap = some ((j : Int) + 1)) ∧
    (((ConnectionManager.new N logfile).EstablishWDConnections listener listenRet
        accepts).state.m_idMap.map Prod.snd).Perm
      ((List.range N).map (fun j : Nat => (j : Int) + 1)) ∧
    ((ConnectionManager.new N logfile).EstablishWDConnections listener listenRet accepts).sent
      = (List.range N).map
          (fun j : Nat => ((accepts j).fd, "UID " ++ toString ((j : Int) + 1))) ∧
    ((ConnectionManager.new N logfile).EstablishWDConnections listener listenRet
        accepts).state.m_idMap.length = N ∧
    ((ConnectionManager.new N logfile).EstablishWDConnections listener listenRet
        accepts).state.m_numWatchdogs = (N : Int) ∧
    (∀ (gone : List Int) (fd : Int),
      (fd ∉ gone →
        mapFind fd (gone.foldl ConnectionManager.RemoveWatchdog
          ((ConnectionManager.new N logfile).EstablishWDConnections listener listenRet
            accepts).state).m_idMap
          = mapFind fd ((ConnectionManager.new N logfile).EstablishWDConnections listener
              listenRet accepts).state.m_idMap) ∧
      (fd ∈ gone →
        mapFind fd (gone.foldl ConnectionManager.RemoveWatchdog
          ((ConnectionManager.new N logfile).EstablishWDConnections listener listenRet
            accepts).state).m_idMap = none)) := by
  have hrun : (ConnectionManager.new N logfile).EstablishWDConnections listener listenRet accepts
      = establishLoop accepts N ((0 : Nat) : Int) ["Listening on port 11353..."] []
          (ConnectionManager.new N logfile) := by
    simp [ConnectionManager.EstablishWDConnections, hlistener, hlisten, ConnectionManager.new]
  obtain ⟨g1, g2, g3, g4, g5⟩ := establishLoop_spec accepts N 0 ["Listening on port 11353..."] []
    (ConnectionManager.new N logfile)
    (by intro t ht; simpa using hok t ht)
    (by intro t _; simp [ConnectionManager.new])
    (by intro t u ht hu he; simp only [Nat.zero_add] at he; exact hdistinct t u ht hu he)
    (by simp [ConnectionManager.new, MapSorted])
  rw [hrun]
  simp only [Nat.zero_add, ConnectionManager.new, List.nil_append] at g2 g4 g5
  refine ⟨g1, ?_, ?_, g5, ?_, g2, ?_⟩
  · intro j hj
    apply mapFind_of_mem intLt_strictTotal _ _ _ g3
    exact g4.mem_iff.mpr (List.mem_map.mpr ⟨j, List.mem_range.mpr hj, rfl⟩)
  · have h := g4.map Prod.snd
    rw [List.map_map] at h
    exact h
  · have h := g4.length_eq
    rw [List.length_map, List.length_range] at h
    exact h
  · intro gone fd
    exact RemoveWatchdog_fold_find gone fd _ g3

/-- Witness of C9: three accepted connections on the descriptors 4, 5, 6. -/
theorem C9_identities_witness :
    ((3 : Int) ≠ -1 ∧ (0 : Int) ≠ -1) ∧
    ((ConnectionManager.new (3 : Nat) "log").EstablishWDConnections 3 0
        (fun n => { fd := 4 + (n : Int), ip := "10.0.0.5", sendRet := 5 })).state.m_idMap.length
      = 3 :=
  ⟨by decide, (C9_identities 3 "log" 3 0
    (fun n => { fd := 4 + (n : Int), ip := "10.0.0.5", sendRet := 5 }) (by decide) (by decide)
    (by intro j _; constructor
        · show (4 : Int) + (j : Int) ≠ -1
          omega
        · show (5 : Int) ≠ -1
          decide)
    (by intro i j _ _ h
        have h' : (4 : Int) + (i : Int) = 4 + (j : Int) := h
        omega)).2.2.2.2.1⟩

/-- After a successful `EstablishWDConnections` on descriptors that are not
negative, the manager is in a state between rounds. -/
theorem Started_of_EstablishWDConnections (N : Nat) (logfile : String)
    (listener listenRet : Int) (accepts : Nat → AcceptOutcome) (hlistener : listener ≠ -1)
    (hlisten : listenRet ≠ -1)
    (hok : ∀ j, j < N → 0 ≤ (accepts j).fd ∧ (accepts j).sendRet ≠ -1)
    (hdistinct : ∀ i j, i < N → j < N → (accepts i).fd = (accepts j).fd → i = j) :
    ((ConnectionManager.new N logfile).EstablishWDConnections listener listenRet
      accepts).state.Started := by
  have hrun : (ConnectionManager.new N logfile).EstablishWDConnections listener listenRet accepts
      = establishLoop accepts N ((0 : Nat) : Int) ["Listening on port 11353..."] []
          (ConnectionManager.new N logfile) := by
    simp [ConnectionManager.EstablishWDConnections, hlistener, hlisten, ConnectionManager.new]
  obtain ⟨_, g2, g3, g4, _⟩ := establishLoop_spec accepts N 0 ["Listening on port 11353..."] []
    (ConnectionManager.new N logfile)
    (by intro t ht
        have h := hok t ht
        simp only [Nat.zero_add]
        exact ⟨by omega, h.2⟩)
    (by intro t _; simp [ConnectionManager.new])
    (by intro t u ht hu he; simp only [Nat.zero_add] at he; exact hdistinct t u ht hu he)
    (by simp [ConnectionManager.new, MapSorted])
  rw [hrun]
  refine ⟨g3, ?_, ?_⟩
  · intro e he
    have hmem := g4.mem_iff.mp he
    simp only [ConnectionManager.new, List.nil_append, Nat.zero_add, List.mem_map,
      List.mem_range] at hmem
    obtain ⟨t, ht, hte⟩ := hmem
    rw [← hte]
    exact (hok t ht).1
  · have hlen := g4.length_eq
    simp only [ConnectionManager.new, List.nil_append, List.length_map, List.length_range]
      at hlen
    have hlen2 : (establishLoop accepts N ((0 : Nat) : Int) ["Listening on port 11353..."] []
        (ConnectionManager.new N logfile)).state.m_idMap.length = N := hlen
    rw [g2, hlen2]
    rfl

/-! ## One round of report collection -/

theorem payloads_zero (recv : Nat → RecvOutcome) (first : Nat) : payloads recv first 0 = [] := rfl

theorem payloads_succ (recv : Nat → RecvOutcome) (first count : Nat) :
    payloads recv first (count + 1)
      = (if 0 < (recv first).bytes then [(recv first).buf] else [])
        ++ payloads recv (first + 1) count := by
  unfold payloads
  rw [List.range_succ_eq_map, List.map_cons, List.map_map]
  have hmap : (List.range count).map ((fun t => recv (first + t)) ∘ Nat.succ)
      = (List.range count).map (fun t => recv (first + 1 + t)) := by
    apply List.map_congr_left
    intro t _
    simp only [Function.comp, Nat.succ_eq_add_one]
    congr 1
    omega
  rw [hmap]
  by_cases h : 0 < (recv first).bytes
  · simp [h, List.filter_cons]
  · simp [h, List.filter_cons]

theorem keys_nodup {α : Type} (m : List (Int × α)) (hs : MapSorted intLt m) :
    (m.map Prod.fst).Nodup := by
  unfold MapSorted at hs
  rw [List.Nodup, List.pairwise_map]
  apply hs.imp
  intro a b hab
  simp only [intLt, decide_eq_true_eq] at hab
  omega

theorem recvFor_spec (recv : Nat → RecvOutcome) :
    ∀ (rest : List Int) (st : RoundState),
      MapSorted intLt st.cm.m_idMap → (∀ e ∈ st.cm.m_idMap, 0 ≤ e.1) →
      st.cm.m_numWatchdogs = (st.cm.m_idMap.length : Int) →
      (∀ fd ∈ rest, fd ∈ st.cm.m_idMap.map Prod.fst) → rest.Nodup →
      st.cm.m_idMap.length = st.reports.length + rest.length →
      (recvFor recv rest st).st.cm.Started ∧
      (recvFor recv rest st).st.cm.m_numWatchdogs ≤ st.cm.m_numWatchdogs ∧
      (∀ st1, recvFor recv rest st = RoundOutcome.next st1 →
        st1.reportsToRecv = st.reportsToRecv - (rest.length : Int) ∧
        st1.cm.m_numWatchdogs = (st1.reports.length : Int) ∧
        st1.reports = st.reports ++ payloads recv st.recvCalls rest.length ∧
        (st.reports.length + rest.length ≠ 0 → 1 ≤ st1.cm.m_numWatchdogs) ∧
        (∀ t, t < rest.length → 0 < (recv (st.recvCalls + t)).bytes →
          insertPos (recv (st.recvCalls + t)).buf.data
            ≤ (recv (st.recvCalls + t)).buf.data.length)) ∧
      (∀ b st1, recvFor recv rest st = RoundOutcome.returned b st1 →
        b = false ∧ st1.cm.m_numWatchdogs = 0 ∧ st1.reports = [] ∧
        st.reports ++ payloads recv st.recvCalls rest.length = []) ∧
      (∀ st1, recvFor recv rest st = RoundOutcome.threw st1 →
        1 ≤ st1.cm.m_numWatchdogs ∧
        ∃ t, t < rest.length ∧ 0 < (recv (st.recvCalls + t)).bytes ∧
          ¬ insertPos (recv (st.recvCalls + t)).buf.data
              ≤ (recv (st.recvCalls + t)).buf.data.length) ∧
      (∀ st1, recvFor recv rest st ≠ RoundOutcome.blocked st1) := by
  intro rest
  induction rest with
  | nil =>
    intro st hs hk hc _ _ hf
    simp only [recvFor, RoundOutcome.st]
    refine ⟨⟨hs, hk, hc⟩, le_refl _, ?_, ?_, ?_, ?_⟩
    · intro st1 h
      injection h with h
      subst h
      simp only [List.length_nil, Nat.cast_zero, sub_zero, payloads_zero, List.append_nil,
        true_and, add_zero]
      refine ⟨by rw [hc, hf]; simp, ?_, ?_⟩
      · intro hne
        rw [hc, hf]
        simp only [List.length_nil, add_zero, Nat.one_le_cast]
        omega
      · intro t ht; omega
    · intro b st1 h; exact RoundOutcome.noConfusion h
    · intro st1 h; exact RoundOutcome.noConfusion h
    · intro st1 h; exact RoundOutcome.noConfusion h
  | cons i rest ih =>
    intro st hs hk hc hmem hnd hf
    have hi : i ∈ st.cm.m_idMap.map Prod.fst := hmem i (by simp)
    have hread : mapModify intLt (0 : Int) i (fun v => v) st.cm.m_idMap = st.cm.m_idMap :=
      mapModify_id_of_mem intLt_strictTotal 0 i _ hs hi
    have hnd2 : rest.Nodup := (List.nodup_cons.mp hnd).2
    have hni : i ∉ rest := (List.nodup_cons.mp hnd).1
    have hpay := payloads_succ recv st.recvCalls rest.length
    by_cases hb : (recv st.recvCalls).bytes ≤ 0
    · have hnot : ¬ 0 < (recv st.recvCalls).bytes := by omega
      have hlen := length_mapErase_of_mem i st.cm.m_idMap hi
      have hs2 : MapSorted intLt (mapErase i st.cm.m_idMap) := mapSorted_mapErase i _ hs
      have hk2 : ∀ e ∈ mapErase i st.cm.m_idMap, 0 ≤ e.1 :=
        fun e he => hk e (mem_mapErase i _ e he)
      have hc2 : st.cm.m_numWatchdogs - 1 = ((mapErase i st.cm.m_idMap).length : Int) := by
        rw [hc]; omega
      by_cases hz : st.cm.m_numWatchdogs - 1 = 0
      · have hout : recvFor recv (i :: rest) st
            = RoundOutcome.returned false
                { st with recvCalls := st.recvCalls + 1
                          cm := { st.cm with m_numWatchdogs := st.cm.m_numWatchdogs - 1
                                             m_idMap := mapErase i st.cm.m_idMap } } := by
          simp [recvFor, hb, hread, ConnectionManager.RemoveWatchdog, hz]
        rw [hout]
        simp only [RoundOutcome.st]
        have hrest : rest = [] ∧ st.reports = [] := by
          have h1 : st.cm.m_idMap.length = 1 := by omega
          simp only [List.length_cons] at hf
          constructor
          · apply List.eq_nil_of_length_eq_zero; omega
          · apply List.eq_nil_of_length_eq_zero; omega
        refine ⟨⟨hs2, hk2, hc2⟩, by simp, ?_, ?_, ?_, ?_⟩
        · intro st1 h; exact RoundOutcome.noConfusion h
        · intro b st1 h
          injection h with h1 h2
          subst h1 h2
          refine ⟨rfl, hz, hrest.2, ?_⟩
          rw [List.length_cons, hpay, hrest.1, hrest.2]
          simp [hnot, payloads_zero]
        · intro st1 h; exact RoundOutcome.noConfusion h
        · intro st1 h; exact RoundOutcome.noConfusion h
      · have hout : recvFor recv (i :: rest) st
            = recvFor recv rest
                { st with recvCalls := st.recvCalls + 1
                          cm := { st.cm with m_numWatchdogs := st.cm.m_numWatchdogs - 1
                                             m_idMap := mapErase i st.cm.m_idMap }
                          reportsToRecv := st.reportsToRecv - 1 } := by
          simp [recvFor, hb, hread, ConnectionManager.RemoveWatchdog, hz]
        rw [hout]
        have hmem2 : ∀ fd ∈ rest, fd ∈ (mapErase i st.cm.m_idMap).map Prod.fst := by
          intro fd hfd
          rw [keys_mapErase intLt_strictTotal i _ hs, List.mem_filter]
          refine ⟨hmem fd (by simp [hfd]), ?_⟩
          simp only [ne_eq, decide_not, Bool.not_eq_true', decide_eq_false_iff_not]
          intro hh; rw [hh] at hfd; exact hni hfd
        obtain ⟨g1, g2, g3, g4, g5, g6⟩ := ih
          { st with recvCalls := st.recvCalls + 1
                    cm := { st.cm with m_numWatchdogs := st.cm.m_numWatchdogs - 1
                                       m_idMap := mapErase i st.cm.m_idMap }
                    reportsToRecv := st.reportsToRecv - 1 }
          hs2 hk2 hc2 hmem2 hnd2 (by
            show (mapErase i st.cm.m_idMap).length = st.reports.length + rest.length
            simp only [List.length_cons] at hf; omega)
        refine ⟨g1, ?_, ?_, ?_, ?_, g6⟩
        · have : st.cm.m_numWatchdogs - 1 ≤ st.cm.m_numWatchdogs := by omega
          exact le_trans g2 this
        · intro st1 h
          obtain ⟨a1, a2, a3, a4, a5⟩ := g3 st1 h
          refine ⟨?_, a2, ?_, ?_, ?_⟩
          · rw [a1]; simp only [List.length_cons, Nat.cast_add, Nat.cast_one]; ring
          · rw [a3, List.length_cons, hpay]; simp [hnot]
          · intro _
            apply a4
            show st.reports.length + rest.length ≠ 0
            intro h0
            apply hz
            rw [hc]
            simp only [List.length_cons] at hf
            omega
          · intro t ht hpos
            cases t with
            | zero => exact absurd hpos hnot
            | succ t =>
              have e : st.recvCalls + (t + 1) = st.recvCalls + 1 + t := by omega
              rw [e] at hpos ⊢
              exact a5 t (by simp only [List.length_cons] at ht; omega) hpos
        · intro b st1 h
          obtain ⟨a1, a2, a3, a4⟩ := g4 b st1 h
          refine ⟨a1, a2, a3, ?_⟩
          rw [List.length_cons, hpay]; simpa [hnot] using a4
        · intro st1 h
          obtain ⟨a1, t, ht, a2, a3⟩ := g5 st1 h
          refine ⟨a1, t + 1, by simp only [List.length_cons]; omega, ?_, ?_⟩
          · have : st.recvCalls + (t + 1) = st.recvCalls + 1 + t := by omega
            rw [this]; exact a2
          · have : st.recvCalls + (t + 1) = st.recvCalls + 1 + t := by omega
            rw [this]; exact a3
    · have hpos : 0 < (recv st.recvCalls).bytes := by omega
      by_cases hins : insertPos (recv st.recvCalls).buf.data ≤ (recv st.recvCalls).buf.data.length
      · have hout : ∃ line : String, recvFor recv (i :: rest) st
            = recvFor recv rest
                { st with recvCalls := st.recvCalls + 1
                          reports := st.reports ++ [(recv st.recvCalls).buf]
                          logged := st.logged ++ [line]
                          reportsToRecv := st.reportsToRecv - 1 } := by
          refine ⟨"Received " ++ String.mk
            ((recv st.recvCalls).buf.data.take (insertPos (recv st.recvCalls).buf.data)
              ++ (" " ++ toString ((mapFind i st.cm.m_idMap).getD 0)).data
              ++ (recv st.recvCalls).buf.data.drop (insertPos (recv st.recvCalls).buf.data)), ?_⟩
          simp only [recvFor, hb, if_false, hread, insertId, hins, if_true]
        obtain ⟨line, hout⟩ := hout
        rw [hout]
        obtain ⟨g1, g2, g3, g4, g5, g6⟩ := ih
          { st with recvCalls := st.recvCalls + 1
                    reports := st.reports ++ [(recv st.recvCalls).buf]
                    logged := st.logged ++ [line]
                    reportsToRecv := st.reportsToRecv - 1 }
          hs hk hc (fun fd hfd => hmem fd (by simp [hfd])) hnd2
          (by
            show st.cm.m_idMap.length
              = (st.reports ++ [(recv st.recvCalls).buf]).length + rest.length
            simp only [List.length_cons] at hf
            simp only [List.length_append, List.length_singleton]; omega)
        refine ⟨g1, g2, ?_, ?_, ?_, g6⟩
        · intro st1 h
          obtain ⟨a1, a2, a3, a4, a5⟩ := g3 st1 h
          refine ⟨?_, a2, ?_, ?_, ?_⟩
          · rw [a1]; simp only [List.length_cons, Nat.cast_add, Nat.cast_one]; ring
          · rw [a3, List.length_cons, hpay]; simp [hpos]
          · intro _
            apply a4
            show (st.reports ++ [(recv st.recvCalls).buf]).length + rest.length ≠ 0
            simp
          · intro t ht hp
            cases t with
            | zero => exact hins
            | succ t =>
              have e : st.recvCalls + (t + 1) = st.recvCalls + 1 + t := by omega
              rw [e] at hp ⊢
              exact a5 t (by simp only [List.length_cons] at ht; omega) hp
        · intro b st1 h
          obtain ⟨a1, a2, a3, a4⟩ := g4 b st1 h
          simp at a4
        · intro st1 h
          obtain ⟨a1, t, ht, a2, a3⟩ := g5 st1 h
          refine ⟨a1, t + 1, by simp only [List.length_cons]; omega, ?_, ?_⟩
          · have : st.recvCalls + (t + 1) = st.recvCalls + 1 + t := by omega
            rw [this]; exact a2
          · have : st.recvCalls + (t + 1) = st.recvCalls + 1 + t := by omega
            rw [this]; exact a3
      · have hout : recvFor recv (i :: rest) st
            = RoundOutcome.threw
                { st with recvCalls := st.recvCalls + 1
                          reports := st.reports ++ [(recv st.recvCalls).buf] } := by
          simp only [recvFor, hb, if_false, hread, insertId, hins]
        rw [hout]
        simp only [RoundOutcome.st]
        refine ⟨⟨hs, hk, hc⟩, le_refl _, ?_, ?_, ?_, ?_⟩
        · intro st1 h; exact RoundOutcome.noConfusion h
        · intro b st1 h; exact RoundOutcome.noConfusion h
        · intro st1 h
          injection h with h
          subst h
          refine ⟨?_, 0, by simp, by simpa using hpos, by simpa using hins⟩
          show 1 ≤ st.cm.m_numWatchdogs
          rw [hc]
          simp only [List.length_cons] at hf
          omega
        · intro st1 h; exact RoundOutcome.noConfusion h

theorem payloads_eq_nil_iff (recv : Nat → RecvOutcome) (first count : Nat) :
    payloads recv first count = [] ↔ ∀ t, t < count → (recv (first + t)).bytes ≤ 0 := by
  unfold payloads
  simp only [List.map_eq_nil_iff, List.filter_eq_nil_iff, List.mem_map, List.mem_range,
    decide_eq_true_eq, not_lt, forall_exists_index, and_imp]
  constructor
  · intro h t ht
    exact h _ t ht rfl
  · intro h r t ht hr
    rw [← hr]; exact h t ht

theorem recvWhile_done (recv : Nat → RecvOutcome) (fds : List Int) (passes : Nat)
    (st : RoundState) (h : st.reportsToRecv ≤ 0) :
    recvWhile recv fds passes st = RoundOutcome.returned true st := by
  have hn : ¬ st.reportsToRecv > 0 := by omega
  cases passes <;> simp [recvWhile, hn]

/-- The call is one pass of the inner loop over the keys of `m_idMap`. -/
theorem ReceiveWDReports_eq (cm : ConnectionManager) (recv : Nat → RecvOutcome)
    (hstarted : cm.Started) (hlive : 1 ≤ cm.m_numWatchdogs) :
    (∀ st1,
      recvFor recv (cm.m_idMap.map Prod.fst)
          { cm := cm, reports := [], reportsToRecv := cm.m_numWatchdogs, logged := [],
            recvCalls := 0 } = RoundOutcome.next st1 →
      cm.ReceiveWDReports recv
        = recvWhile recv (cm.m_idMap.map Prod.fst) (cm.m_numWatchdogs.toNat - 1) st1) ∧
    ((∀ st1,
      recvFor recv (cm.m_idMap.map Prod.fst)
          { cm := cm, reports := [], reportsToRecv := cm.m_numWatchdogs, logged := [],
            recvCalls := 0 } ≠ RoundOutcome.next st1) →
      cm.ReceiveWDReports recv
        = recvFor recv (cm.m_idMap.map Prod.fst)
            { cm := cm, reports := [], reportsToRecv := cm.m_numWatchdogs, logged := [],
              recvCalls := 0 }) := by
  obtain ⟨_, hk, _⟩ := hstarted
  have hfds : (cm.m_idMap.map Prod.fst).filter (fun fd => decide (0 ≤ fd))
      = cm.m_idMap.map Prod.fst := by
    rw [List.filter_eq_self]
    intro fd hfd
    obtain ⟨e, he, hek⟩ := List.mem_map.mp hfd
    rw [← hek]
    simpa using hk e he
  have hpass : cm.m_numWatchdogs.toNat = (cm.m_numWatchdogs.toNat - 1) + 1 := by omega
  have hpos : cm.m_numWatchdogs > 0 := by omega
  unfold ConnectionManager.ReceiveWDReports
  rw [hfds, hpass]
  simp only [recvWhile, hpos, if_true, Nat.add_sub_cancel]
  constructor
  · intro st1 h
    rw [h]
  · intro h
    cases hr : recvFor recv (cm.m_idMap.map Prod.fst)
        { cm := cm, reports := [], reportsToRecv := cm.m_numWatchdogs, logged := [],
          recvCalls := 0 } with
    | next st1 => exact absurd hr (h st1)
    | returned b st1 => rfl
    | threw st1 => rfl
    | blocked st1 => rfl

/-- One round of `ReceiveWDReports`, from a state between rounds with at least
one live watchdog and for every outcome of the receives: the call ends (it
returns, or the logging of a payload throws; it does not block for ever); it
returns false exactly when the live-agent count m_numWatchdogs has reached 0,
which happens exactly when every receive of the round failed; it returns true
exactly when the round is completed with at least one watchdog still live, and
the list returned is then the list of the payloads received, one per live
watchdog; it throws exactly when some receive of the round yields a payload
that `report.insert` rejects. The live-agent count never increases, and the
state after the call is again a state between rounds. -/
theorem ReceiveWDReports_round (cm : ConnectionManager) (recv : Nat → RecvOutcome)
    (hstarted : cm.Started) (hlive : 1 ≤ cm.m_numWatchdogs) :
    ((∃ st, cm.ReceiveWDReports recv = RoundOutcome.returned true st) ∨
      (∃ st, cm.ReceiveWDReports recv = RoundOutcome.returned false st) ∨
      (∃ st, cm.ReceiveWDReports recv = RoundOutcome.threw st)) ∧
    ((∃ st, cm.ReceiveWDReports recv = RoundOutcome.returned false st) ↔
      (cm.ReceiveWDReports recv).st.cm.m_numWatchdogs = 0) ∧
    ((cm.ReceiveWDReports recv).st.cm.m_numWatchdogs = 0 ↔
      ∀ t, t < cm.m_idMap.length → (recv t).bytes ≤ 0) ∧
    ((∃ st, cm.ReceiveWDReports recv = RoundOutcome.returned true st) ↔
      (1 ≤ (cm.ReceiveWDReports recv).st.cm.m_numWatchdogs ∧
        ¬ ∃ st, cm.ReceiveWDReports recv = RoundOutcome.threw st)) ∧
    (∀ st, cm.ReceiveWDReports recv = RoundOutcome.returned true st →
      st.reports = payloads recv 0 cm.m_idMap.length ∧
      st.cm.m_numWatchdogs = (st.reports.length : Int)) ∧
    ((∃ st, cm.ReceiveWDReports recv = RoundOutcome.threw st) ↔
      ∃ t, t < cm.m_idMap.length ∧ 0 < (recv t).bytes ∧
        ¬ insertPos (recv t).buf.data ≤ (recv t).buf.data.length) ∧
    (cm.ReceiveWDReports recv).st.cm.m_numWatchdogs ≤ cm.m_numWatchdogs ∧
    (cm.ReceiveWDReports recv).st.cm.Started := by
  have heq := ReceiveWDReports_eq cm recv hstarted hlive
  obtain ⟨hs, hk, hc⟩ := hstarted
  have hlen : 1 ≤ cm.m_idMap.length := by
    have : (1 : Int) ≤ (cm.m_idMap.length : Int) := by rw [← hc]; exact hlive
    exact_mod_cast this
  obtain ⟨g1, g2, g3, g4, g5, g6⟩ := recvFor_spec recv (cm.m_idMap.map Prod.fst)
    { cm := cm, reports := [], reportsToRecv := cm.m_numWatchdogs, logged := [], recvCalls := 0 }
    hs hk hc (fun fd hfd => hfd) (keys_nodup cm.m_idMap hs) (by simp)
  simp only [List.length_map, List.nil_append, Nat.zero_add, List.length_nil] at g3 g4 g5
  cases hr : recvFor recv (cm.m_idMap.map Prod.fst)
      { cm := cm, reports := [], reportsToRecv := cm.m_numWatchdogs, logged := [],
        recvCalls := 0 } with
  | next st1 =>
    obtain ⟨a1, a2, a3, a4, a5⟩ := g3 st1 hr
    have hdone : cm.ReceiveWDReports recv = RoundOutcome.returned true st1 := by
      rw [heq.1 st1 hr]
      exact recvWhile_done recv _ _ st1 (by rw [a1, hc]; omega)
    have hcount : 1 ≤ st1.cm.m_numWatchdogs := a4 (by omega)
    rw [hr] at g1 g2
    simp only [RoundOutcome.st] at g1 g2
    rw [hdone]
    simp only [RoundOutcome.st]
    have hsome : ¬ ∀ t, t < cm.m_idMap.length → (recv t).bytes ≤ 0 := by
      intro hall
      have hnil := (payloads_eq_nil_iff recv 0 cm.m_idMap.length).mpr
        (by intro t ht; simpa using hall t ht)
      rw [hnil] at a3
      rw [a2, a3] at hcount
      simp at hcount
    refine ⟨Or.inl ⟨st1, rfl⟩, ?_, ?_, ?_, ?_, ?_, g2, g1⟩
    · constructor
      · rintro ⟨st, h⟩
        injection h with h1 _
        exact absurd h1 (by decide)
      · intro h0; omega
    · constructor
      · intro h0; omega
      · intro hall; exact absurd hall hsome
    · constructor
      · intro _
        refine ⟨hcount, ?_⟩
        rintro ⟨st, h⟩
        exact RoundOutcome.noConfusion h
      · intro _; exact ⟨st1, rfl⟩
    · intro st h
      injection h with _ h2
      subst h2
      exact ⟨a3, a2⟩
    · constructor
      · rintro ⟨st, h⟩
        exact RoundOutcome.noConfusion h
      · rintro ⟨t, ht, hp, hbad⟩
        exact absurd (a5 t ht hp) hbad
  | returned b st1 =>
    obtain ⟨b1, b2, _, b4⟩ := g4 b st1 hr
    subst b1
    have hdone : cm.ReceiveWDReports recv = RoundOutcome.returned false st1 := by
      rw [heq.2 (by intro st2 h2; rw [hr] at h2; exact RoundOutcome.noConfusion h2), hr]
    have hall : ∀ t, t < cm.m_idMap.length → (recv t).bytes ≤ 0 := by
      intro t ht
      have := (payloads_eq_nil_iff recv 0 cm.m_idMap.length).mp b4 t ht
      simpa using this
    rw [hr] at g1 g2
    simp only [RoundOutcome.st] at g1 g2
    rw [hdone]
    simp only [RoundOutcome.st]
    refine ⟨Or.inr (Or.inl ⟨st1, rfl⟩), ?_, ?_, ?_, ?_, ?_, g2, g1⟩
    · exact ⟨fun _ => b2, fun _ => ⟨st1, rfl⟩⟩
    · exact ⟨fun _ => hall, fun _ => b2⟩
    · constructor
      · rintro ⟨st, h⟩
        injection h with h1 _
        exact absurd h1 (by decide)
      · rintro ⟨h1, _⟩; omega
    · intro st h
      injection h with h1 _
      exact absurd h1 (by decide)
    · constructor
      · rintro ⟨st, h⟩
        exact RoundOutcome.noConfusion h
      · rintro ⟨t, ht, hp, _⟩
        have := hall t ht
        omega
  | threw st1 =>
    obtain ⟨c1, t, ht, c2, c3⟩ := g5 st1 hr
    have hdone : cm.ReceiveWDReports recv = RoundOutcome.threw st1 := by
      rw [heq.2 (by intro st2 h2; rw [hr] at h2; exact RoundOutcome.noConfusion h2), hr]
    rw [hr] at g1 g2
    simp only [RoundOutcome.st] at g1 g2
    rw [hdone]
    simp only [RoundOutcome.st]
    refine ⟨Or.inr (Or.inr ⟨st1, rfl⟩), ?_, ?_, ?_, ?_, ?_, g2, g1⟩
    · constructor
      · rintro ⟨st, h⟩
        exact RoundOutcome.noConfusion h
      · intro h0; omega
    · constructor
      · intro h0; omega
      · intro hall
        have := hall t ht
        omega
    · constructor
      · rintro ⟨st, h⟩
        exact RoundOutcome.noConfusion h
      · rintro ⟨_, h2⟩
        exact absurd ⟨st1, rfl⟩ h2
    · intro st h
      exact RoundOutcome.noConfusion h
    · exact ⟨fun _ => ⟨t, ht, c2, c3⟩, fun _ => ⟨st1, rfl⟩⟩
  | blocked st1 => exact absurd hr (g6 st1)

/-- A round in which the first of two watchdogs has disconnected and the
second delivers a report: the call returns true with that report. -/
theorem ReceiveWDReports_round_example :
    exampleManager.Started ∧ 1 ≤ exampleManager.m_numWatchdogs ∧
    ((∃ st, exampleManager.ReceiveWDReports exampleRecv = RoundOutcome.returned false st) ↔
      (exampleManager.ReceiveWDReports exampleRecv).st.cm.m_numWatchdogs = 0) ∧
    (exampleManager.ReceiveWDReports exampleRecv).st.reports
      = ["alert report 1 31 1000 2 10.0.0.2"] ∧
    (exampleManager.ReceiveWDReports exampleRecv).st.cm.m_numWatchdogs = 1 :=
  ⟨⟨by unfold MapSorted; decide, by decide, by decide⟩, by decide,
    (ReceiveWDReports_round exampleManager exampleRecv
      ⟨by unfold MapSorted; decide, by decide, by decide⟩ (by decide)).2.1,
    by decide, by decide⟩

/-- C10, at the failing input: two watchdogs are live and the first receive of
the round yields the two characters `al`, the beginning of an alert report.
The search for `report` fails, `pos` is 5, and `report.insert` throws
`out_of_range`: the call returns neither true nor false, although both
watchdogs are still live and the count has not reached 0. -/
theorem C10_short_payload_throws :
    exampleManager.Started ∧ 1 ≤ exampleManager.m_numWatchdogs ∧
    insertPos "al".data = 5 ∧
    exampleManager.ReceiveWDReports shortPayloadRecv
      = RoundOutcome.threw
          { cm := exampleManager, reports := ["al"], reportsToRecv := 2, logged := [],
            recvCalls := 1 } ∧
    (exampleManager.ReceiveWDReports shortPayloadRecv).st.cm.m_numWatchdogs = 2 ∧
    (∀ (value : Bool) (st : RoundState),
      exampleManager.ReceiveWDReports shortPayloadRecv ≠ RoundOutcome.returned value st) := by
  have h : exampleManager.ReceiveWDReports shortPayloadRecv
      = RoundOutcome.threw
          { cm := exampleManager, reports := ["al"], reportsToRecv := 2, logged := [],
            recvCalls := 1 } := by decide
  refine ⟨⟨by unfold MapSorted; decide, by decide, by decide⟩, by decide, by decide, h,
    by rw [h]; rfl, ?_⟩
  intro value st hret
  rw [h] at hret
  exact RoundOutcome.noConfusion hret

/-! ## Watchdogs lost during a round -/

theorem lostFds_subset (recv : Nat → RecvOutcome) :
    ∀ (fds : List Int) (first : Nat), ∀ fd ∈ lostFds recv first fds, fd ∈ fds := by
  intro fds
  induction fds with
  | nil => intro first fd h; simp [lostFds] at h
  | cons i rest ih =>
    intro first fd h
    simp only [lostFds] at h
    split at h
    · rw [List.mem_cons] at h
      rcases h with h | h
      · simp [h]
      · exact List.mem_cons_of_mem _ (ih _ fd h)
    · exact List.mem_cons_of_mem _ (ih _ fd h)

/-- Membership in `lostFds`, by position: the descriptor at position `t` is
lost exactly when receive number `first + t` fails. -/
theorem mem_lostFds (recv : Nat → RecvOutcome) :
    ∀ (fds : List Int) (first : Nat), fds.Nodup →
      ∀ (t : Nat) (h : t < fds.length),
        (fds.get ⟨t, h⟩ ∈ lostFds recv first fds ↔ (recv (first + t)).bytes ≤ 0) := by
  intro fds
  induction fds with
  | nil => intro first _ t h; simp at h
  | cons i rest ih =>
    intro first hnd t h
    have hnd2 : rest.Nodup := (List.nodup_cons.mp hnd).2
    have hni : i ∉ rest := (List.nodup_cons.mp hnd).1
    cases t with
    | zero =>
      simp only [List.get_cons_zero, Nat.add_zero, lostFds]
      split
      · rename_i hb; simp [hb]
      · rename_i hb
        constructor
        · intro hin; exact absurd (lostFds_subset recv rest _ i hin) hni
        · intro hh; exact absurd hh hb
    | succ t =>
      have h2 : t < rest.length := by simp only [List.length_cons] at h; omega
      have hget : (i :: rest).get ⟨t + 1, h⟩ = rest.get ⟨t, h2⟩ := rfl
      have hne : rest.get ⟨t, h2⟩ ≠ i := by
        intro hh; apply hni; rw [← hh]; exact List.get_mem _ _ _
      have e : first + (t + 1) = first + 1 + t := by omega
      rw [hget, e, ← ih (first + 1) hnd2 t h2]
      simp only [lostFds]
      split
      · rw [List.mem_cons]
        constructor
        · rintro (hh | hh)
          · exact absurd hh hne
          · exact hh
        · intro hh; exact Or.inr hh
      · rfl

theorem length_payloads_add_lostFds (recv : Nat → RecvOutcome) :
    ∀ (fds : List Int) (first : Nat),
      (payloads recv first fds.length).length + (lostFds recv first fds).length = fds.length := by
  intro fds
  induction fds with
  | nil => intro first; simp [payloads_zero, lostFds]
  | cons i rest ih =>
    intro first
    rw [List.length_cons, payloads_succ]
    have := ih (first + 1)
    simp only [lostFds]
    by_cases hb : (recv first).bytes ≤ 0
    · have hnot : ¬ 0 < (recv first).bytes := by omega
      simp only [hb, hnot, if_true, if_false, List.nil_append, List.length_cons]
      omega
    · have hpos : 0 < (recv first).bytes := by omega
      simp only [hb, hpos, if_true, if_false, List.length_append, List.length_singleton]
      omega

/-- A pass of the inner loop that runs to its end leaves the manager as the
calls of `RemoveWatchdog` for the lost descriptors leave it. -/
theorem recvFor_cm (recv : Nat → RecvOutcome) :
    ∀ (rest : List Int) (st : RoundState),
      MapSorted intLt st.cm.m_idMap →
      (∀ fd ∈ rest, fd ∈ st.cm.m_idMap.map Prod.fst) → rest.Nodup →
      ∀ st1, recvFor recv rest st = RoundOutcome.next st1 →
        st1.cm = (lostFds recv st.recvCalls rest).foldl ConnectionManager.RemoveWatchdog st.cm := by
  intro rest
  induction rest with
  | nil =>
    intro st _ _ _ st1 h
    simp only [recvFor] at h
    injection h with h
    subst h
    rfl
  | cons i rest ih =>
    intro st hs hmem hnd st1 h
    have hi : i ∈ st.cm.m_idMap.map Prod.fst := hmem i (by simp)
    have hread : mapModify intLt (0 : Int) i (fun v => v) st.cm.m_idMap = st.cm.m_idMap :=
      mapModify_id_of_mem intLt_strictTotal 0 i _ hs hi
    have hnd2 : rest.Nodup := (List.nodup_cons.mp hnd).2
    have hni : i ∉ rest := (List.nodup_cons.mp hnd).1
    by_cases hb : (recv st.recvCalls).bytes ≤ 0
    · have hs2 : MapSorted intLt (mapErase i st.cm.m_idMap) := mapSorted_mapErase i _ hs
      have hlost : lostFds recv st.recvCalls (i :: rest)
          = i :: lostFds recv (st.recvCalls + 1) rest := by
        simp [lostFds, hb]
      by_cases hz : st.cm.m_numWatchdogs - 1 = 0
      · have hout : recvFor recv (i :: rest) st
            = RoundOutcome.returned false
                { st with recvCalls := st.recvCalls + 1
                          cm := { st.cm with m_numWatchdogs := st.cm.m_numWatchdogs - 1
                                             m_idMap := mapErase i st.cm.m_idMap } } := by
          simp [recvFor, hb, hread, ConnectionManager.RemoveWatchdog, hz]
        rw [hout] at h
        exact RoundOutcome.noConfusion h
      · have hout : recvFor recv (i :: rest) st
            = recvFor recv rest
                { st with recvCalls := st.recvCalls + 1
                          cm := { st.cm with m_numWatchdogs := st.cm.m_numWatchdogs - 1
                                             m_idMap := mapErase i st.cm.m_idMap }
                          reportsToRecv := st.reportsToRecv - 1 } := by
          simp [recvFor, hb, hread, ConnectionManager.RemoveWatchdog, hz]
        rw [hout] at h
        have hmem2 : ∀ fd ∈ rest, fd ∈ (mapErase i st.cm.m_idMap).map Prod.fst := by
          intro fd hfd
          rw [keys_mapErase intLt_strictTotal i _ hs, List.mem_filter]
          refine ⟨hmem fd (by simp [hfd]), ?_⟩
          simp only [ne_eq, decide_not, Bool.not_eq_true', decide_eq_false_iff_not]
          intro hh; rw [hh] at hfd; exact hni hfd
        have := ih
          { st with recvCalls := st.recvCalls + 1
                    cm := { st.cm with m_numWatchdogs := st.cm.m_numWatchdogs - 1
                                       m_idMap := mapErase i st.cm.m_idMap }
                    reportsToRecv := st.reportsToRecv - 1 }
          hs2 hmem2 hnd2 st1 h
        rw [this, hlost]
        rfl
    · have hlost : lostFds recv st.recvCalls (i :: rest)
          = lostFds recv (st.recvCalls + 1) rest := by
        simp [lostFds, hb]
      by_cases hins : insertPos (recv st.recvCalls).buf.data ≤ (recv st.recvCalls).buf.data.length
      · have hout : ∃ line : String, recvFor recv (i :: rest) st
            = recvFor recv rest
                { st with recvCalls := st.recvCalls + 1
                          reports := st.reports ++ [(recv st.recvCalls).buf]
                          logged := st.logged ++ [line]
                          reportsToRecv := st.reportsToRecv - 1 } := by
          refine ⟨"Received " ++ String.mk
            ((recv st.recvCalls).buf.data.take (insertPos (recv st.recvCalls).buf.data)
              ++ (" " ++ toString ((mapFind i st.cm.m_idMap).getD 0)).data
              ++ (recv st.recvCalls).buf.data.drop (insertPos (recv st.recvCalls).buf.data)), ?_⟩
          simp only [recvFor, hb, if_false, hread, insertId, hins, if_true]
        obtain ⟨line, hout⟩ := hout
        rw [hout] at h
        have := ih
          { st with recvCalls := st.recvCalls + 1
                    reports := st.reports ++ [(recv st.recvCalls).buf]
                    logged := st.logged ++ [line]
                    reportsToRecv := st.reportsToRecv - 1 }
          hs (fun fd hfd => hmem fd (by simp [hfd])) hnd2 st1 h
        rw [this, hlost]
      · have hout : recvFor recv (i :: rest) st
            = RoundOutcome.threw
                { st with recvCalls := st.recvCalls + 1
                          reports := st.reports ++ [(recv st.recvCalls).buf] } := by
          simp only [recvFor, hb, if_false, hread, insertId, hins]
        rw [hout] at h
        exact RoundOutcome.noConfusion h

theorem findSub_le (pat : List Char) :
    ∀ (l : List Char) (j : Nat), findSub pat l = some j → j + pat.length ≤ l.length := by
  intro l
  induction l with
  | nil =>
    intro j h
    simp only [findSub] at h
    split at h
    · rename_i he
      injection h with h
      have : pat = [] := by simpa using he
      subst this; subst h; simp
    · exact Option.noConfusion h
  | cons c cs ih =>
    intro j h
    simp only [findSub] at h
    split at h
    · rename_i hp
      injection h with h
      subst h
      have := List.IsPrefix.length_le (List.isPrefixOf_iff_prefix.mp hp)
      omega
    · cases hf : findSub pat cs with
      | none => rw [hf] at h; exact Option.noConfusion h
      | some j2 =>
        rw [hf] at h
        simp only [Option.map_some'] at h
        injection h with h
        have := ih j2 hf
        simp only [List.length_cons]
        omega

/-- The insertion of the identity into the log line is within the payload
exactly when the payload contains `report` or has at least five characters. -/
theorem insertPos_le_iff (report : List Char) :
    insertPos report ≤ report.length
      ↔ (findSub "report".data report ≠ none ∨ 5 ≤ report.length) := by
  unfold insertPos
  cases hf : findSub "report".data report with
  | none => simp
  | some j =>
    have := findSub_le "report".data report j hf
    have hl : "report".data.length = 6 := by decide
    simp only [ne_eq, not_false_eq_true, true_or, iff_true, reduceCtorEq]
    omega

/-- A round in which at least one receive succeeds and every payload can take
the identity insertion: the call returns true, the list returned holds the
payloads in the order of the descriptors, and the manager afterwards is the
manager with the lost descriptors removed. -/
theorem ReceiveWDReports_survivors (cm : ConnectionManager) (recv : Nat → RecvOutcome)
    (hstarted : cm.Started) (hlive : 1 ≤ cm.m_numWatchdogs)
    (hsome : ∃ t, t < cm.m_idMap.length ∧ 0 < (recv t).bytes)
    (hins : ∀ t, t < cm.m_idMap.length → 0 < (recv t).bytes →
      insertPos (recv t).buf.data ≤ (recv t).buf.data.length) :
    ∃ st, cm.ReceiveWDReports recv = RoundOutcome.returned true st ∧
      st.reports = payloads recv 0 cm.m_idMap.length ∧
      st.cm = (lostFds recv 0 (cm.m_idMap.map Prod.fst)).foldl
        ConnectionManager.RemoveWatchdog cm ∧
      st.cm.m_numWatchdogs
        = cm.m_numWatchdogs - ((lostFds recv 0 (cm.m_idMap.map Prod.fst)).length : Int) ∧
      (st.reports.length : Int)
        = cm.m_numWatchdogs - ((lostFds recv 0 (cm.m_idMap.map Prod.fst)).length : Int) := by
  have heq := ReceiveWDReports_eq cm recv hstarted hlive
  obtain ⟨hs, hk, hc⟩ := hstarted
  obtain ⟨_, _, g3, g4, g5, g6⟩ := recvFor_spec recv (cm.m_idMap.map Prod.fst)
    { cm := cm, reports := [], reportsToRecv := cm.m_numWatchdogs, logged := [], recvCalls := 0 }
    hs hk hc (fun fd hfd => hfd) (keys_nodup cm.m_idMap hs) (by simp)
  have hcm := recvFor_cm recv (cm.m_idMap.map Prod.fst)
    { cm := cm, reports := [], reportsToRecv := cm.m_numWatchdogs, logged := [], recvCalls := 0 }
    hs (fun fd hfd => hfd) (keys_nodup cm.m_idMap hs)
  simp only [List.length_map, List.nil_append, Nat.zero_add, List.length_nil] at g3 g4 g5
  have hlen := length_payloads_add_lostFds recv (cm.m_idMap.map Prod.fst) 0
  rw [List.length_map] at hlen
  cases hr : recvFor recv (cm.m_idMap.map Prod.fst)
      { cm := cm, reports := [], reportsToRecv := cm.m_numWatchdogs, logged := [],
        recvCalls := 0 } with
  | next st1 =>
    obtain ⟨a1, a2, a3, _, _⟩ := g3 st1 hr
    have hdone : cm.ReceiveWDReports recv = RoundOutcome.returned true st1 := by
      rw [heq.1 st1 hr]
      exact recvWhile_done recv _ _ st1 (by rw [a1, hc]; omega)
    have hcount : (st1.reports.length : Int)
        = cm.m_numWatchdogs - ((lostFds recv 0 (cm.m_idMap.map Prod.fst)).length : Int) := by
      rw [a3, hc]
      omega
    exact ⟨st1, hdone, a3, hcm st1 hr, by rw [a2]; exact hcount, hcount⟩
  | returned b st1 =>
    obtain ⟨_, _, _, b4⟩ := g4 b st1 hr
    obtain ⟨t, ht, hpos⟩ := hsome
    have := (payloads_eq_nil_iff recv 0 cm.m_idMap.length).mp b4 t ht
    simp only [Nat.zero_add] at this
    omega
  | threw st1 =>
    obtain ⟨_, t, ht, c2, c3⟩ := g5 st1 hr
    exact absurd (hins t ht c2) c3
  | blocked st1 => exact absurd hr (g6 st1)

theorem mem_payloads (recv : Nat → RecvOutcome) (first count t : Nat) (ht : t < count)
    (hpos : 0 < (recv (first + t)).bytes) :
    (recv (first + t)).buf ∈ payloads recv first count := by
  unfold payloads
  rw [List.mem_map]
  refine ⟨recv (first + t), ?_, rfl⟩
  rw [List.mem_filter]
  refine ⟨List.mem_map.mpr ⟨t, List.mem_range.mpr ht, rfl⟩, ?_⟩
  simpa using hpos

/-- C11, at the failing input: two watchdogs are live (k = 2), the first
signals disconnect (j = 1) and the survivor delivers the two characters `al`.
The first watchdog is removed and the count becomes 1; then the search for
`report` fails, `pos` is 5 and `report.insert` throws `out_of_range`: the call
does not return true and hands no list to its caller. -/
theorem C11_survivor_short_payload_throws :
    exampleManager.Started ∧ exampleManager.m_numWatchdogs = 2 ∧
    (lostThenShortRecv 0).bytes ≤ 0 ∧ 0 < (lostThenShortRecv 1).bytes ∧
    exampleManager.ReceiveWDReports lostThenShortRecv
      = RoundOutcome.threw
          { cm := { m_numWatchdogs := 1, m_logfile := "log", m_idMap := [(5, 2)] },
            reports := ["al"], reportsToRecv := 1, logged := [], recvCalls := 2 } ∧
    (∀ (value : Bool) (st : RoundState),
      exampleManager.ReceiveWDReports lostThenShortRecv ≠ RoundOutcome.returned value st) := by
  have h : exampleManager.ReceiveWDReports lostThenShortRecv
      = RoundOutcome.threw
          { cm := { m_numWatchdogs := 1, m_logfile := "log", m_idMap := [(5, 2)] },
            reports := ["al"], reportsToRecv := 1, logged := [], recvCalls := 2 } := by decide
  refine ⟨⟨by unfold MapSorted; decide, by decide, by decide⟩, by decide, by decide, by decide,
    h, ?_⟩
  intro value st hret
  rw [h] at hret
  exact RoundOutcome.noConfusion hret

/-- C12 (as amended): `ReceiveWDReports` does not examine a payload. For every
round from a state between rounds in which every payload received can take the
identity insertion of the log line, a watchdog that delivers a non-empty
payload, matching the report grammar or not, is not deregistered: the call
returns true, the payload is in the list returned, which holds every payload
of the round in the order of the descriptors, the watchdog keeps its entry and
identity in the map, and the live-agent count is lowered only by the number of
watchdogs whose receive failed. -/
theorem C12_payload_not_validated (cm : ConnectionManager) (recv : Nat → RecvOutcome)
    (hstarted : cm.Started) (hlive : 1 ≤ cm.m_numWatchdogs)
    (hins : ∀ t, t < cm.m_idMap.length → 0 < (recv t).bytes →
      insertPos (recv t).buf.data ≤ (recv t).buf.data.length)
    (t : Nat) (ht : t < (cm.m_idMap.map Prod.fst).length) (hpayload : 0 < (recv t).bytes) :
    ∃ st, cm.ReceiveWDReports recv = RoundOutcome.returned true st ∧
      (recv t).buf ∈ st.reports ∧
      st.reports = payloads recv 0 cm.m_idMap.length ∧
      mapFind ((cm.m_idMap.map Prod.fst).get ⟨t, ht⟩) st.cm.m_idMap
        = mapFind ((cm.m_idMap.map Prod.fst).get ⟨t, ht⟩) cm.m_idMap ∧
      mapFind ((cm.m_idMap.map Prod.fst).get ⟨t, ht⟩) st.cm.m_idMap ≠ none ∧
      st.cm.m_numWatchdogs
        = cm.m_numWatchdogs - ((lostFds recv 0 (cm.m_idMap.map Prod.fst)).length : Int) ∧
      (∀ fd ∈ lostFds recv 0 (cm.m_idMap.map Prod.fst), mapFind fd st.cm.m_idMap = none) := by
  have ht2 : t < cm.m_idMap.length := by simpa using ht
  obtain ⟨st, h1, h2, h3, h4, _⟩ :=
    ReceiveWDReports_survivors cm recv hstarted hlive ⟨t, ht2, hpayload⟩ hins
  have hs : MapSorted intLt cm.m_idMap := hstarted.1
  have hnot : (cm.m_idMap.map Prod.fst).get ⟨t, ht⟩ ∉ lostFds recv 0 (cm.m_idMap.map Prod.fst) := by
    intro hin
    have := (mem_lostFds recv _ 0 (keys_nodup cm.m_idMap hs) t ht).mp hin
    simp only [Nat.zero_add] at this
    omega
  have hfind : mapFind ((cm.m_idMap.map Prod.fst).get ⟨t, ht⟩) st.cm.m_idMap
      = mapFind ((cm.m_idMap.map Prod.fst).get ⟨t, ht⟩) cm.m_idMap := by
    rw [h3]
    exact (RemoveWatchdog_fold_find _ _ cm hs).1 hnot
  refine ⟨st, h1, ?_, h2, hfind, ?_, h4, ?_⟩
  · rw [h2]
    have := mem_payloads recv 0 cm.m_idMap.length t ht2 (by simpa using hpayload)
    simpa using this
  · rw [hfind]
    intro hnone
    exact (mapFind_eq_none_iff _ _).mp hnone (List.get_mem _ _ _)
  · intro fd hfd
    rw [h3]
    exact (RemoveWatchdog_fold_find _ fd cm hs).2 hfd

/-- Witness of C12: the first of two watchdogs delivers a line that the report
grammar does not accept; it stays registered and the line is returned. -/
theorem C12_payload_not_validated_witness :
    specParseReport (junkRecv 0).buf = none ∧
    ∃ st, exampleManager.ReceiveWDReports junkRecv = RoundOutcome.returned true st ∧
      (junkRecv 0).buf ∈ st.reports ∧
      mapFind ((exampleManager.m_idMap.map Prod.fst).get ⟨0, by decide⟩) st.cm.m_idMap ≠ none :=
  ⟨by decide,
    (C12_payload_not_validated exampleManager junkRecv
      ⟨by unfold MapSorted; decide, by decide, by decide⟩ (by decide)
      (by
        intro t ht _
        have h2 : t < 2 := ht
        interval_cases t <;> decide)
      0 (by decide) (by decide)).imp
      (fun _ h => ⟨h.1, h.2.1, h.2.2.2.2.1⟩)⟩

/-- The claim C12 fails: the first of two watchdogs delivers the non-empty line
`hello world, this is junk`, which the report grammar rejects. The watchdog is
not deregistered: the call returns true, the map and the count are unchanged,
and the line is the first element of the list returned. `ProcessReports` then
reads the line like a report and counts its non-numeric words as 0. -/
theorem C12_counterexample :
    0 < (junkRecv 0).bytes ∧ (junkRecv 0).buf = "hello world, this is junk" ∧
    specParseReport "hello world, this is junk" = none ∧
    exampleManager.ReceiveWDReports junkRecv
      = RoundOutcome.returned true
          { cm := exampleManager, reports := ["hello world, this is junk", "report 1 2 80 1"],
            reportsToRecv := 0,
            logged := ["Received hello 1 world, this is junk", "Received report 2 1 2 80 1"],
            recvCalls := 2 } ∧
    mapFind 4 (exampleManager.ReceiveWDReports junkRecv).st.cm.m_idMap = some 1 ∧
    (exampleManager.ReceiveWDReports junkRecv).st.cm.m_numWatchdogs = 2 ∧
    ProcessReports ["hello world, this is junk", "report 1 2 80 1"]
      = some "Total traffic 2 80 1" := by
  refine ⟨by decide, by decide, by decide, by decide, by decide, by decide, by decide⟩

/-! ## Replay mode: timeslice boundaries -/

/-- A packet whose timestamp does not exceed the boundary: no report, the
boundary stays, the packet (if decoded) is ingested. -/
theorem GetPacket_within (timeslice_usecs : Int) (st : WatchdogState) (d : Delivery)
    (h : d.ts_usecs ≤ st.g_maxts_usecs) :
    (GetPacket false timeslice_usecs st d).g_reports = st.g_reports ∧
    (GetPacket false timeslice_usecs st d).g_maxts_usecs = st.g_maxts_usecs ∧
    (GetPacket false timeslice_usecs st d).analyzer
      = st.analyzer.AddPackets (d.pkt.toList) := by
  have h1 : ¬ d.ts_usecs > st.g_maxts_usecs := by omega
  unfold GetPacket
  simp only [Bool.not_false, if_true, h1, if_false]
  cases d.pkt with
  | none => exact ⟨rfl, rfl, rfl⟩
  | some p => exact ⟨rfl, rfl, rfl⟩

/-- The first packet of a trace: `g_maxts_usecs` is still 0, no report is
generated, and the boundary is set. -/
theorem GetPacket_first (timeslice_usecs : Int) (st : WatchdogState) (d : Delivery)
    (h : st.g_maxts_usecs < d.ts_usecs) (h0 : st.g_maxts_usecs ≤ 0) :
    (GetPacket false timeslice_usecs st d).g_reports = st.g_reports ∧
    (GetPacket false timeslice_usecs st d).g_maxts_usecs = d.ts_usecs + timeslice_usecs ∧
    (GetPacket false timeslice_usecs st d).analyzer
      = st.analyzer.AddPackets (d.pkt.toList) := by
  have h1 : d.ts_usecs > st.g_maxts_usecs := h
  have h2 : ¬ st.g_maxts_usecs > 0 := by omega
  unfold GetPacket
  simp only [Bool.not_false, if_true, h1, h2, if_false]
  cases d.pkt with
  | none => exact ⟨rfl, rfl, rfl⟩
  | some p => exact ⟨rfl, rfl, rfl⟩

/-- A packet whose timestamp exceeds a boundary that has been set: the
timeslice is closed by `GenerateReport`, the report is queued, the boundary
moves, and the packet (if decoded) is ingested into the new timeslice. -/
theorem GetPacket_cross (timeslice_usecs : Int) (st : WatchdogState) (d : Delivery)
    (h : st.g_maxts_usecs < d.ts_usecs) (h0 : 0 < st.g_maxts_usecs) :
    (GetPacket false timeslice_usecs st d).g_reports
      = st.g_reports ++ [st.analyzer.GenerateReport.report] ∧
    (GetPacket false timeslice_usecs st d).g_maxts_usecs = d.ts_usecs + timeslice_usecs ∧
    (GetPacket false timeslice_usecs st d).analyzer
      = st.analyzer.GenerateReport.state.AddPackets (d.pkt.toList) := by
  have h1 : d.ts_usecs > st.g_maxts_usecs := h
  have h2 : st.g_maxts_usecs > 0 := h0
  unfold GetPacket
  simp only [Bool.not_false, if_true, h1, h2]
  cases d.pkt with
  | none => exact ⟨rfl, rfl, rfl⟩
  | some p => exact ⟨rfl, rfl, rfl⟩

theorem AddPackets_append (s : TrafficAnalyzer) (ps qs : List PacketInfo) :
    (s.AddPackets ps).AddPackets qs = s.AddPackets (ps ++ qs) := by
  unfold TrafficAnalyzer.AddPackets
  rw [List.foldl_append]

theorem pkt_toList_append (x : Delivery) (rest : List Delivery) :
    x.pkt.toList ++ rest.filterMap (fun y => y.pkt) = (x :: rest).filterMap (fun y => y.pkt) := by
  cases hp : x.pkt <;> simp [List.filterMap_cons, hp]

/-- Packets that stay within the boundary leave the queue and the boundary as
they are. -/
theorem replay_within (timeslice_usecs : Int) (mid : List Delivery) :
    ∀ st : WatchdogState, (∀ x ∈ mid, x.ts_usecs ≤ st.g_maxts_usecs) →
      (mid.foldl (GetPacket false timeslice_usecs) st).g_reports = st.g_reports ∧
      (mid.foldl (GetPacket false timeslice_usecs) st).g_maxts_usecs = st.g_maxts_usecs ∧
      (mid.foldl (GetPacket false timeslice_usecs) st).analyzer
        = st.analyzer.AddPackets (mid.filterMap (fun x => x.pkt)) := by
  induction mid with
  | nil => intro st _; exact ⟨rfl, rfl, rfl⟩
  | cons x rest ih =>
    intro st h
    obtain ⟨a1, a2, a3⟩ := GetPacket_within timeslice_usecs st x (h x (by simp))
    obtain ⟨b1, b2, b3⟩ := ih (GetPacket false timeslice_usecs st x)
      (by intro y hy; rw [a2]; exact h y (by simp [hy]))
    rw [List.foldl_cons]
    refine ⟨by rw [b1, a1], by rw [b2, a2], ?_⟩
    rw [b3, a3, AddPackets_append, pkt_toList_append]

/-- C13 (as amended): in replay mode, for every trace whose first packet has
the timestamp t0 > 0 and every timeslice length T >= 0, GetPacket generates no
report for the first packet nor for any packet whose timestamp does not exceed
the first boundary t0 + T; the first report is generated by the first packet
whose timestamp exceeds the first boundary t0 + T. That report closes the
first timeslice (it is the report of the packets delivered so far, with the
sequence number 1), and the boundary moves to the timestamp of that packet
plus T. -/
theorem C13_first_report (logfile : String) (T : Int) (hT : 0 ≤ T) (d0 : Delivery)
    (mid : List Delivery) (ht0 : 0 < d0.ts_usecs)
    (hmid : ∀ x ∈ mid, x.ts_usecs ≤ d0.ts_usecs + T) :
    ((d0 :: mid).foldl (GetPacket false T) (WatchdogState.start logfile)).g_reports = [] ∧
    ((d0 :: mid).foldl (GetPacket false T) (WatchdogState.start logfile)).g_maxts_usecs
      = d0.ts_usecs + T ∧
    ((d0 :: mid).foldl (GetPacket false T) (WatchdogState.start logfile)).analyzer
      = (TrafficAnalyzer.new logfile).AddPackets ((d0 :: mid).filterMap (fun x => x.pkt)) ∧
    (∀ d : Delivery, d.ts_usecs ≤ d0.ts_usecs + T →
      (GetPacket false T
        ((d0 :: mid).foldl (GetPacket false T) (WatchdogState.start logfile)) d).g_reports
        = []) ∧
    (∀ d : Delivery, d0.ts_usecs + T < d.ts_usecs →
      (GetPacket false T
        ((d0 :: mid).foldl (GetPacket false T) (WatchdogState.start logfile)) d).g_reports
        = [((TrafficAnalyzer.new logfile).AddPackets
            ((d0 :: mid).filterMap (fun x => x.pkt))).GenerateReport.report] ∧
      reportSeq ((TrafficAnalyzer.new logfile).AddPackets
            ((d0 :: mid).filterMap (fun x => x.pkt))).GenerateReport.report = some 1 ∧
      (GetPacket false T
        ((d0 :: mid).foldl (GetPacket false T) (WatchdogState.start logfile)) d).g_maxts_usecs
        = d.ts_usecs + T) := by
  obtain ⟨a1, a2, a3⟩ := GetPacket_first T (WatchdogState.start logfile) d0 ht0 (le_refl _)
  obtain ⟨b1, b2, b3⟩ := replay_within T mid (GetPacket false T (WatchdogState.start logfile) d0)
    (by intro x hx; rw [a2]; exact hmid x hx)
  have hq : ((d0 :: mid).foldl (GetPacket false T) (WatchdogState.start logfile)).g_reports
      = [] := by
    rw [List.foldl_cons, b1, a1]; rfl
  have hb : ((d0 :: mid).foldl (GetPacket false T) (WatchdogState.start logfile)).g_maxts_usecs
      = d0.ts_usecs + T := by
    rw [List.foldl_cons, b2, a2]
  have ha : ((d0 :: mid).foldl (GetPacket false T) (WatchdogState.start logfile)).analyzer
      = (TrafficAnalyzer.new logfile).AddPackets ((d0 :: mid).filterMap (fun x => x.pkt)) := by
    rw [List.foldl_cons, b3, a3, AddPackets_append, pkt_toList_append]
    rfl
  refine ⟨hq, hb, ha, ?_, ?_⟩
  · intro d hd
    obtain ⟨c1, _, _⟩ := GetPacket_within T _ d (by rw [hb]; exact hd)
    rw [c1, hq]
  · intro d hd
    obtain ⟨c1, c2, _⟩ := GetPacket_cross T _ d (by rw [hb]; exact hd) (by rw [hb]; omega)
    refine ⟨by rw [c1, hq, ha]; rfl, ?_, c2⟩
    rw [reportSeq_GenerateReport]
    have hcnt : ∀ (ps : List PacketInfo) (s : TrafficAnalyzer),
        (s.AddPackets ps).m_reportsGenerated = s.m_reportsGenerated := by
      intro ps
      induction ps with
      | nil => intro s; rfl
      | cons p ps ih =>
        intro s
        show ((s.AddPacket p).AddPackets ps).m_reportsGenerated = _
        rw [ih, AddPacket_counter]
    rw [hcnt]
    rfl

/-- Witness of C13: a first packet at 1.0 s and T = 1.0 s; a packet at 2.5 s
exceeds the first boundary 2.0 s and produces the first report. -/
theorem C13_first_report_witness :
    (0 : Int) ≤ 1000000 ∧
    (GetPacket false 1000000
      (([{ ts_usecs := 1000000, pkt := some examplePacket }] : List Delivery).foldl
        (GetPacket false 1000000) (WatchdogState.start "log"))
      { ts_usecs := 2500000, pkt := some examplePacket }).g_reports
      = [((TrafficAnalyzer.new "log").AddPackets
          (([{ ts_usecs := 1000000, pkt := some examplePacket }] : List Delivery).filterMap
            (fun x => x.pkt))).GenerateReport.report] :=
  ⟨by decide,
    ((C13_first_report "log" 1000000 (by decide)
      { ts_usecs := 1000000, pkt := some examplePacket } [] (by decide)
      (by intro x hx; simp at hx)).2.2.2.2
      { ts_usecs := 2500000, pkt := some examplePacket } (by decide)).1⟩

/-- The claim C13 fails: with t0 = 1.0 s and T = 1.0 s the queue is empty
after the first packet, and the second packet, at 2.5 s, which does not exceed
t0 + T + T = 3.0 s, generates the first report. -/
theorem C13_counterexample :
    ¬ ((2500000 : Int) > 1000000 + 1000000 + 1000000) ∧
    ((exampleTrace.take 1).foldl (GetPacket false 1000000)
      (WatchdogState.start "log")).g_reports = [] ∧
    (exampleTrace.foldl (GetPacket false 1000000) (WatchdogState.start "log")).g_reports
      = ["alert report 1 1 40 1 10.0.0.2"] := by
  refine ⟨by decide, by decide, by decide⟩

/-! ## Replay mode: sending the queued reports -/

/-- On a queue that is not empty, and while no `send` fails, the report loop
sends exactly the queued reports, front first, and then leaves; it does not
touch an empty queue. -/
theorem replayEmission_nonempty (sendRet : Nat → Int) :
    ∀ (queue sent : List String), queue ≠ [] →
      (∀ n, n < queue.length → sendRet (sent.length + n) ≠ -1) →
      replayEmission sendRet queue sent = EmissionOutcome.finished (sent ++ queue) := by
  intro queue
  induction queue with
  | nil => intro sent h; exact absurd rfl h
  | cons report rest ih =>
    intro sent _ hsend
    have h0 : sendRet sent.length ≠ -1 := by
      have := hsend 0 (by simp)
      simpa using this
    cases rest with
    | nil => simp [replayEmission, h0]
    | cons r2 rest2 =>
      have hrec := ih (sent ++ [report]) (by simp) (by
        intro n hn
        have := hsend (n + 1) (by simp only [List.length_cons] at hn ⊢; omega)
        simp only [List.length_append, List.length_singleton]
        have e : sent.length + 1 + n = sent.length + (n + 1) := by omega
        rw [e]; exact this)
      rw [replayEmission]
      simp only [h0, if_false, List.isEmpty_cons, Bool.false_eq_true]
      rw [hrec]
      simp

/-- With a failing `send`, the loop stops at the first failure: the reports
before it have been sent, the others have not. -/
theorem replayEmission_sendFailed (sendRet : Nat → Int) :
    ∀ (queue sent : List String) (n : Nat), n < queue.length →
      (∀ i, i < n → sendRet (sent.length + i) ≠ -1) → sendRet (sent.length + n) = -1 →
      replayEmission sendRet queue sent = EmissionOutcome.sendFailed (sent ++ queue.take n) := by
  intro queue
  induction queue with
  | nil => intro sent n hn; simp at hn
  | cons report rest ih =>
    intro sent n hn hok hfail
    cases n with
    | zero =>
      have : sendRet sent.length = -1 := by simpa using hfail
      simp [replayEmission, this]
    | succ n =>
      have h0 : sendRet sent.length ≠ -1 := by
        have := hok 0 (by omega)
        simpa using this
      have hn2 : n < rest.length := by simp only [List.length_cons] at hn; omega
      have hne : rest.isEmpty = false := by
        cases rest with
        | nil => simp at hn2
        | cons _ _ => rfl
      have hrec := ih (sent ++ [report]) n hn2 (by
        intro i hi
        have := hok (i + 1) (by omega)
        simp only [List.length_append, List.length_singleton]
        have e : sent.length + 1 + i = sent.length + (i + 1) := by omega
        rw [e]; exact this) (by
        simp only [List.length_append, List.length_singleton]
        have e : sent.length + 1 + n = sent.length + (n + 1) := by omega
        rw [e]; exact hfail)
      rw [replayEmission]
      simp only [h0, if_false, hne, Bool.false_eq_true]
      rw [hrec]
      simp

/-- C14, at the failing input: the trace holds one packet, no packet crosses a
boundary, and the queue is empty when every packet has been delivered. The
report loop runs its body before it tests the queue, so `g_reports.front()`
and `g_reports.pop()` are executed on the empty queue, whatever `send` would
answer. The same holds for every trace whose packets after the first stay
within the first boundary, and for the empty trace. -/
theorem C14_empty_queue_front :
    (([{ ts_usecs := 1000000, pkt := some examplePacket }] : List Delivery).foldl
      (GetPacket false 1000000) (WatchdogState.start "log")).g_reports = [] ∧
    (∀ sendRet : Nat → Int,
      replayRun "log" 1000000 [{ ts_usecs := 1000000, pkt := some examplePacket }] sendRet
        = EmissionOutcome.emptyFront []) ∧
    (∀ sendRet : Nat → Int, replayRun "log" 1000000 [] sendRet = EmissionOutcome.emptyFront []) ∧
    (∀ (sendRet : Nat → Int) (sent : List String),
      replayEmission sendRet [] sent = EmissionOutcome.emptyFront sent) := by
  refine ⟨by decide, fun _ => rfl, fun _ => rfl, fun _ _ => rfl⟩

/-- In replay mode, a trace whose packets after the first stay within the
first boundary leaves the queue empty, and the report loop then reads the
front of the empty queue. -/
theorem replayRun_no_crossing (logfile : String) (T : Int) (d0 : Delivery)
    (mid : List Delivery) (ht0 : 0 < d0.ts_usecs)
    (hmid : ∀ x ∈ mid, x.ts_usecs ≤ d0.ts_usecs + T) (sendRet : Nat → Int) :
    replayRun logfile T (d0 :: mid) sendRet = EmissionOutcome.emptyFront [] := by
  obtain ⟨a1, a2, _⟩ := GetPacket_first T (WatchdogState.start logfile) d0 ht0 (le_refl _)
  obtain ⟨b1, _, _⟩ := replay_within T mid (GetPacket false T (WatchdogState.start logfile) d0)
    (by intro x hx; rw [a2]; exact hmid x hx)
  unfold replayRun
  rw [List.foldl_cons, b1, a1]
  rfl

/-! ## Ties between leading destinations -/

/-- The tracked key is the key of the first entry, in the order of the
traversal, that has the largest value: every entry before it has a smaller
value and no entry after it has a larger one. -/
theorem leader_first (g : TrafficData → Int) (most : ScanState → Int) (dst : ScanState → String)
    (hmost : ∀ st it, most (ScanState.step st it)
      = if g it.2 > most st then g it.2 else most st)
    (hdst : ∀ st it, dst (ScanState.step st it) = if g it.2 > most st then it.1 else dst st) :
    ∀ (m : List (String × TrafficData)) (st : ScanState),
      most st < most (m.foldl ScanState.step st) →
      ∃ pre e post, m = pre ++ e :: post ∧
        dst (m.foldl ScanState.step st) = e.1 ∧ most (m.foldl ScanState.step st) = g e.2 ∧
        (∀ x ∈ pre, g x.2 < g e.2) ∧ (∀ x ∈ post, g x.2 ≤ g e.2) := by
  intro m
  induction m with
  | nil => intro st h; simp at h
  | cons it rest ih =>
    intro st hlt
    rw [List.foldl_cons] at hlt ⊢
    obtain ⟨i1, i2, _, i4⟩ := leader_fold g most dst hmost hdst rest (st.step it)
    have hm := hmost st it
    have hd := hdst st it
    by_cases hstep : most (st.step it) < most (rest.foldl ScanState.step (st.step it))
    · obtain ⟨pre, e, post, h1, h2, h3, h4, h5⟩ := ih (st.step it) hstep
      refine ⟨it :: pre, e, post, by rw [h1]; rfl, h2, h3, ?_, h5⟩
      intro x hx
      rw [List.mem_cons] at hx
      rcases hx with hx | hx
      · rw [hx, ← h3]
        by_cases hgt : g it.2 > most st
        · rw [if_pos hgt] at hm; omega
        · rw [if_neg hgt] at hm; omega
      · exact h4 x hx
    · have heq : most (rest.foldl ScanState.step (st.step it)) = most (st.step it) := by omega
      have hgt : g it.2 > most st := by
        by_contra hn
        rw [if_neg hn] at hm
        omega
      rw [if_pos hgt] at hm hd
      refine ⟨[], it, rest, rfl, by rw [i4 heq, hd], by rw [heq, hm], by simp, ?_⟩
      intro x hx
      have := i2 x hx
      omega

/-- C16: for each of the three metrics and every destination map in which some
destination has a positive value of the metric, the leading destination
computed by the loop of GenerateReport is the first destination, in the order
of the traversal of the map, that holds the maximum per-destination value:
every destination visited before it has a strictly smaller value and no
destination visited after it has a larger one, so among tied destinations the
one seen first is kept. In one iteration a destination replaces the current
leader exactly when its value is strictly greater than the tracked maximum,
never when it is equal. -/
theorem C16_leader_tie_break (s : TrafficAnalyzer) :
    ((∃ x ∈ s.m_dstTrafficMap, 0 < x.2.packets) →
      ∃ pre e post, s.m_dstTrafficMap = pre ++ e :: post ∧
        (scanMap s.m_dstTrafficMap).dstWithMostPackets = e.1 ∧
        (scanMap s.m_dstTrafficMap).mostPackets = e.2.packets ∧
        (∀ x ∈ pre, x.2.packets < e.2.packets) ∧ (∀ x ∈ post, x.2.packets ≤ e.2.packets)) ∧
    ((∃ x ∈ s.m_dstTrafficMap, 0 < x.2.bytes) →
      ∃ pre e post, s.m_dstTrafficMap = pre ++ e :: post ∧
        (scanMap s.m_dstTrafficMap).dstWithMostBytes = e.1 ∧
        (scanMap s.m_dstTrafficMap).mostBytes = e.2.bytes ∧
        (∀ x ∈ pre, x.2.bytes < e.2.bytes) ∧ (∀ x ∈ post, x.2.bytes ≤ e.2.bytes)) ∧
    ((∃ x ∈ s.m_dstTrafficMap, 0 < x.2.flows.length) →
      ∃ pre e post, s.m_dstTrafficMap = pre ++ e :: post ∧
        (scanMap s.m_dstTrafficMap).dstWithMostFlows = e.1 ∧
        (scanMap s.m_dstTrafficMap).mostFlows = (e.2.flows.length : Int) ∧
        (∀ x ∈ pre, x.2.flows.length < e.2.flows.length) ∧
        (∀ x ∈ post, x.2.flows.length ≤ e.2.flows.length)) ∧
    (∀ (st : ScanState) (it : String × TrafficData),
      (st.step it).dstWithMostPackets
        = (if it.2.packets > st.mostPackets then it.1 else st.dstWithMostPackets) ∧
      (st.step it).dstWithMostBytes
        = (if it.2.bytes > st.mostBytes then it.1 else st.dstWithMostBytes) ∧
      (st.step it).dstWithMostFlows
        = (if (it.2.flows.length : Int) > st.mostFlows then it.1 else st.dstWithMostFlows)) ∧
    s.GenerateReport.report
      = reportText (s.CheckAlert s.totals).1 (s.CheckAlert s.totals).2 (s.m_reportsGenerated + 1)
          (scanMap s.m_dstTrafficMap) := by
  refine ⟨?_, ?_, ?_, ?_, rfl⟩
  · rintro ⟨x, hx, hpos⟩
    obtain ⟨_, i2, _, _⟩ := leader_fold (fun d => d.packets) ScanState.mostPackets
      ScanState.dstWithMostPackets (fun st it => (step_mostPackets st it).1)
      (fun st it => (step_mostPackets st it).2) s.m_dstTrafficMap ScanState.init
    have hle := i2 x hx
    exact leader_first (fun d => d.packets) ScanState.mostPackets
      ScanState.dstWithMostPackets (fun st it => (step_mostPackets st it).1)
      (fun st it => (step_mostPackets st it).2) s.m_dstTrafficMap ScanState.init
      (by
        have h0 : ScanState.init.mostPackets = 0 := rfl
        rw [h0]
        exact lt_of_lt_of_le hpos hle)
  · rintro ⟨x, hx, hpos⟩
    obtain ⟨_, i2, _, _⟩ := leader_fold (fun d => d.bytes) ScanState.mostBytes
      ScanState.dstWithMostBytes (fun st it => (step_mostBytes st it).1)
      (fun st it => (step_mostBytes st it).2) s.m_dstTrafficMap ScanState.init
    have hle := i2 x hx
    exact leader_first (fun d => d.bytes) ScanState.mostBytes
      ScanState.dstWithMostBytes (fun st it => (step_mostBytes st it).1)
      (fun st it => (step_mostBytes st it).2) s.m_dstTrafficMap ScanState.init
      (by
        have h0 : ScanState.init.mostBytes = 0 := rfl
        rw [h0]
        exact lt_of_lt_of_le hpos hle)
  · rintro ⟨x, hx, hpos⟩
    obtain ⟨_, i2, _, _⟩ := leader_fold (fun d => (d.flows.length : Int)) ScanState.mostFlows
      ScanState.dstWithMostFlows (fun st it => (step_mostFlows st it).1)
      (fun st it => (step_mostFlows st it).2) s.m_dstTrafficMap ScanState.init
    have hle := i2 x hx
    obtain ⟨pre, e, post, h1, h2, h3, h4, h5⟩ :=
      leader_first (fun d => (d.flows.length : Int)) ScanState.mostFlows
        ScanState.dstWithMostFlows (fun st it => (step_mostFlows st it).1)
        (fun st it => (step_mostFlows st it).2) s.m_dstTrafficMap ScanState.init
        (by
          have h0 : ScanState.init.mostFlows = 0 := rfl
          rw [h0]
          have : (0 : Int) < (x.2.flows.length : Int) := by exact_mod_cast hpos
          exact lt_of_lt_of_le this hle)
    refine ⟨pre, e, post, h1, h2, h3, ?_, ?_⟩
    · intro y hy
      have := h4 y hy
      simp only at this
      omega
    · intro y hy
      have := h5 y hy
      simp only at this
      omega
  · intro st it
    exact ⟨(step_mostPackets st it).2, (step_mostBytes st it).2, (step_mostFlows st it).2⟩

/-- Witness of C16: 10.0.0.2 and 10.0.0.3 tie on packets and the first of them
leads; 10.0.0.3 and 10.0.0.4 tie on bytes and on flows and 10.0.0.3 leads. -/
theorem C16_leader_tie_break_witness :
    (∃ pre e post, tiedAnalyzer.m_dstTrafficMap = pre ++ e :: post ∧
        (scanMap tiedAnalyzer.m_dstTrafficMap).dstWithMostPackets = e.1 ∧
        (scanMap tiedAnalyzer.m_dstTrafficMap).mostPackets = e.2.packets ∧
        (∀ x ∈ pre, x.2.packets < e.2.packets) ∧ (∀ x ∈ post, x.2.packets ≤ e.2.packets)) ∧
    (scanMap tiedAnalyzer.m_dstTrafficMap).dstWithMostPackets = "10.0.0.2" ∧
    (scanMap tiedAnalyzer.m_dstTrafficMap).dstWithMostBytes = "10.0.0.3" ∧
    (scanMap tiedAnalyzer.m_dstTrafficMap).dstWithMostFlows = "10.0.0.3" :=
  ⟨(C16_leader_tie_break tiedAnalyzer).1
      ⟨("10.0.0.2",
        { packets := 5, bytes := 200, flows := [("10.0.0.1", "10.0.0.2", 1, 80, "TCP")] }),
        by decide, by decide⟩,
    by decide, by decide, by decide⟩

/-! ## Totals of a batch of reports -/

theorem sumReports_GenerateReport (ss : List TrafficAnalyzer) :
    ∀ tot : Int × Int × Int, inIntRange tot.1 → inIntRange tot.2.1 → inIntRange tot.2.2 →
      sumReports tot (ss.map (fun s => s.GenerateReport.report))
        = some (wrapInt (tot.1 + (ss.map (fun s => s.totals.packets)).sum),
                wrapInt (tot.2.1 + (ss.map (fun s => s.totals.bytes)).sum),
                wrapInt (tot.2.2
                  + (ss.map (fun s => clampInt (s.totals.flows.length : Int))).sum)) := by
  induction ss with
  | nil =>
    intro tot h1 h2 h3
    simp [sumReports, wrapInt_of_inIntRange h1, wrapInt_of_inIntRange h2,
      wrapInt_of_inIntRange h3]
  | cons s rest ih =>
    intro tot _ _ _
    simp only [List.map_cons, sumReports, reportCounts_GenerateReport, List.sum_cons]
    rw [ih _ (wrapInt_inIntRange _) (wrapInt_inIntRange _) (wrapInt_inIntRange _)]
    simp only [wrapInt_wrapInt_add, add_assoc]

/-- C17 (as amended): for every report text that GenerateReport produces,
alerted or not, the words that ProcessReports reads (words 3, 4, 5, counted
from 0, when the first word is `alert`, and words 2, 3, 4 otherwise) are the
decimal texts of the packets, bytes and flows totals of the report, and they
are read back as those totals (a flow total beyond the range of `int` as the
largest `int`). ProcessReports adds them up in `int`s: for every batch of such
reports the logged line is `Total traffic` followed by the component-wise sums
of the totals of the reports of the batch, reduced to the range of `int`, and
so by the component-wise sums themselves whenever these are values of an
`int`. -/
theorem C17_batch_totals (ss : List TrafficAnalyzer) :
    (∀ s : TrafficAnalyzer,
      ((s.CheckAlert s.totals).1 = true →
        (reportData s.GenerateReport.report).head? = some "alert".data ∧
        (reportData s.GenerateReport.report).get? 3 = some (toString s.totals.packets).data ∧
        (reportData s.GenerateReport.report).get? 4 = some (toString s.totals.bytes).data ∧
        (reportData s.GenerateReport.report).get? 5
          = some (toString s.totals.flows.length).data) ∧
      ((s.CheckAlert s.totals).1 = false →
        (reportData s.GenerateReport.report).head? = some "report".data ∧
        (reportData s.GenerateReport.report).get? 2 = some (toString s.totals.packets).data ∧
        (reportData s.GenerateReport.report).get? 3 = some (toString s.totals.bytes).data ∧
        (reportData s.GenerateReport.report).get? 4
          = some (toString s.totals.flows.length).data) ∧
      extractInt (toString s.totals.packets).data = s.totals.packets ∧
      extractInt (toString s.totals.bytes).data = s.totals.bytes ∧
      extractInt (toString s.totals.flows.length).data
        = clampInt (s.totals.flows.length : Int) ∧
      (inIntRange (s.totals.flows.length : Int) →
        extractInt (toString s.totals.flows.length).data = (s.totals.flows.length : Int)) ∧
      reportCounts s.GenerateReport.report
        = some (s.totals.packets, s.totals.bytes, clampInt (s.totals.flows.length : Int))) ∧
    ProcessReports (ss.map (fun s => s.GenerateReport.report))
      = some ("Total traffic " ++ toString (wrapInt (ss.map (fun s => s.totals.packets)).sum)
          ++ " " ++ toString (wrapInt (ss.map (fun s => s.totals.bytes)).sum) ++ " "
          ++ toString (wrapInt
              (ss.map (fun s => clampInt (s.totals.flows.length : Int))).sum)) ∧
    (inIntRange (ss.map (fun s => s.totals.packets)).sum →
      inIntRange (ss.map (fun s => s.totals.bytes)).sum →
      inIntRange (ss.map (fun s => (s.totals.flows.length : Int))).sum →
      (∀ s ∈ ss, inIntRange (s.totals.flows.length : Int)) →
      ProcessReports (ss.map (fun s => s.GenerateReport.report))
        = some ("Total traffic " ++ toString (ss.map (fun s => s.totals.packets)).sum ++ " "
            ++ toString (ss.map (fun s => s.totals.bytes)).sum ++ " "
            ++ toString (ss.map (fun s => (s.totals.flows.length : Int))).sum)) := by
  have hproc : ProcessReports (ss.map (fun s => s.GenerateReport.report))
      = some ("Total traffic " ++ toString (wrapInt (ss.map (fun s => s.totals.packets)).sum)
          ++ " " ++ toString (wrapInt (ss.map (fun s => s.totals.bytes)).sum) ++ " "
          ++ toString (wrapInt
              (ss.map (fun s => clampInt (s.totals.flows.length : Int))).sum)) := by
    unfold ProcessReports
    rw [sumReports_GenerateReport ss (0, 0, 0) (by decide) (by decide) (by decide)]
    simp
  refine ⟨?_, hproc, ?_⟩
  · intro s
    have ht : (scanMap s.m_dstTrafficMap).totalData = s.totals := rfl
    have hw := words_reportText (s.CheckAlert s.totals).1 (s.CheckAlert s.totals).2
      (s.m_reportsGenerated + 1) (scanMap s.m_dstTrafficMap)
    rw [ht] at hw
    refine ⟨?_, ?_, ?_, ?_, extractInt_natRepr _, ?_, reportCounts_GenerateReport s⟩
    · intro ha
      unfold reportData
      rw [GenerateReport_report, hw, ha]
      simp
    · intro ha
      unfold reportData
      rw [GenerateReport_report, hw, ha]
      simp
    · rw [extractInt_intRepr, clampInt_of_inIntRange (totals_inIntRange s).1]
    · rw [extractInt_intRepr, clampInt_of_inIntRange (totals_inIntRange s).2]
    · intro hr
      rw [extractInt_natRepr, clampInt_of_inIntRange hr]
  · intro h1 h2 h3 h4
    have hmap : ss.map (fun s => clampInt (s.totals.flows.length : Int))
        = ss.map (fun s => (s.totals.flows.length : Int)) :=
      List.map_congr_left (fun s hs => clampInt_of_inIntRange (h4 s hs))
    rw [hproc, hmap, wrapInt_of_inIntRange h1, wrapInt_of_inIntRange h2, wrapInt_of_inIntRange h3]

/-- Witness of C17: an alerted report, whose words 3, 4, 5 are the decimal
texts of its totals, and a batch of that report and the next one, whose sums
31, 1000 and 2 are values of an `int`. -/
theorem C17_batch_totals_witness :
    (exampleAnalyzer.CheckAlert exampleAnalyzer.totals).1 = true ∧
    ((reportData exampleAnalyzer.GenerateReport.report).head? = some "alert".data ∧
      (reportData exampleAnalyzer.GenerateReport.report).get? 3
        = some (toString exampleAnalyzer.totals.packets).data ∧
      (reportData exampleAnalyzer.GenerateReport.report).get? 4
        = some (toString exampleAnalyzer.totals.bytes).data ∧
      (reportData exampleAnalyzer.GenerateReport.report).get? 5
        = some (toString exampleAnalyzer.totals.flows.length).data) ∧
    toString exampleAnalyzer.totals.packets = "31" ∧
    inIntRange
      ([exampleAnalyzer, exampleAnalyzer.GenerateReport.state].map
        (fun s => s.totals.packets)).sum ∧
    inIntRange
      ([exampleAnalyzer, exampleAnalyzer.GenerateReport.state].map
        (fun s => s.totals.bytes)).sum ∧
    inIntRange
      ([exampleAnalyzer, exampleAnalyzer.GenerateReport.state].map
        (fun s => (s.totals.flows.length : Int))).sum ∧
    (∀ s ∈ [exampleAnalyzer, exampleAnalyzer.GenerateReport.state],
      inIntRange (s.totals.flows.length : Int)) ∧
    ProcessReports
        ([exampleAnalyzer, exampleAnalyzer.GenerateReport.state].map
          (fun s => s.GenerateReport.report))
      = some ("Total traffic "
          ++ toString ([exampleAnalyzer, exampleAnalyzer.GenerateReport.state].map
              (fun s => s.totals.packets)).sum ++ " "
          ++ toString ([exampleAnalyzer, exampleAnalyzer.GenerateReport.state].map
              (fun s => s.totals.bytes)).sum ++ " "
          ++ toString ([exampleAnalyzer, exampleAnalyzer.GenerateReport.state].map
              (fun s => (s.totals.flows.length : Int))).sum) :=
  ⟨by decide,
    ((C17_batch_totals [exampleAnalyzer, exampleAnalyzer.GenerateReport.state]).1
      exampleAnalyzer).1 (by decide),
    by decide, by decide, by decide, by decide, by decide,
    (C17_batch_totals [exampleAnalyzer, exampleAnalyzer.GenerateReport.state]).2.2
      (by decide) (by decide) (by decide) (by decide)⟩

/-- Counterexample to C17 as stated: two watchdogs each report a timeslice of
30518 packets of 65535 bytes, that is 1999997130 bytes. Each report text is
`alert report 1 30518 1999997130 1 10.0.0.2`, ProcessReports reads the byte
total 1999997130 from it, and the line logged for the batch of the two reports
is `Total traffic 61036 -294973036 2`, whereas the sum of the two byte totals
is 3999994260. -/
theorem C17_counterexample :
    heavyAnalyzer
      = (TrafficAnalyzer.new "log").AddPackets (List.replicate 30518 (packetOfSize 65535)) ∧
    heavyAnalyzer.totals.bytes = 1999997130 ∧
    heavyAnalyzer.GenerateReport.report = "alert report 1 30518 1999997130 1 10.0.0.2" ∧
    reportCounts heavyAnalyzer.GenerateReport.report = some (30518, 1999997130, 1) ∧
    ProcessReports [heavyAnalyzer.GenerateReport.report, heavyAnalyzer.GenerateReport.report]
      = some "Total traffic 61036 -294973036 2" ∧
    heavyAnalyzer.totals.bytes + heavyAnalyzer.totals.bytes = 3999994260 := by
  refine ⟨rfl, ?_⟩
  rw [heavyAnalyzer_eq]
  decide

/-- A batch of two reports, one alerted and one not: the totals are summed. -/
theorem ProcessReports_example :
    ProcessReports [exampleAnalyzer.GenerateReport.report,
        exampleAnalyzer.GenerateReport.state.GenerateReport.report]
      = some "Total traffic 31 1000 2" := by
  decide

/-! ## The destination address of an alert is a destination of the timeslice -/

theorem AddPackets_prevData (ps : List PacketInfo) :
    ∀ s : TrafficAnalyzer, (s.AddPackets ps).m_prevData = s.m_prevData := by
  induction ps with
  | nil => intro s; rfl
  | cons p ps ih =>
    intro s
    show ((s.AddPacket p).AddPackets ps).m_prevData = _
    rw [ih]
    rfl

theorem AddPackets_sorted (ps : List PacketInfo) :
    ∀ s : TrafficAnalyzer, MapSorted strLt s.m_dstTrafficMap →
      MapSorted strLt (s.AddPackets ps).m_dstTrafficMap := by
  induction ps with
  | nil => intro s hs; exact hs
  | cons p ps ih =>
    intro s hs
    exact ih (s.AddPacket p) (AddPacket_sorted s p hs)

/-- Every destination in the map received a packet: the keys are destination
addresses of ingested packets. -/
theorem AddPackets_keys (ps : List PacketInfo) :
    ∀ (s : TrafficAnalyzer) (qs : List PacketInfo),
      (∀ e ∈ s.m_dstTrafficMap, ∃ p ∈ qs, p.dst_ip = e.1) →
      ∀ e ∈ (s.AddPackets ps).m_dstTrafficMap, ∃ p ∈ qs ++ ps, p.dst_ip = e.1 := by
  induction ps with
  | nil => intro s qs h e he; simpa using h e he
  | cons p ps ih =>
    intro s qs h e he
    have hstep : ∀ x ∈ (s.AddPacket p).m_dstTrafficMap, ∃ q ∈ qs ++ [p], q.dst_ip = x.1 := by
      intro x hx
      rcases mem_mapModify _ _ _ _ x hx with h1 | h1
      · exact ⟨p, by simp, h1.symm⟩
      · obtain ⟨q, hq, hqx⟩ := h x h1
        exact ⟨q, by simp [hq], hqx⟩
    obtain ⟨q, hq, hqe⟩ := ih (s.AddPacket p) (qs ++ [p]) hstep e he
    exact ⟨q, by simpa using hq, hqe⟩

theorem le_sum_of_nonneg (l : List Int) (hnn : ∀ x ∈ l, 0 ≤ x) : ∀ x ∈ l, x ≤ l.sum := by
  induction l with
  | nil => intro x hx; simp at hx
  | cons a l ih =>
    intro x hx
    have ha : 0 ≤ a := hnn a (by simp)
    have hl : 0 ≤ l.sum := List.sum_nonneg (fun y hy => hnn y (by simp [hy]))
    rw [List.sum_cons]
    rw [List.mem_cons] at hx
    rcases hx with hx | hx
    · rw [hx]; omega
    · have := ih (fun y hy => hnn y (by simp [hy])) x hx
      omega

/-- A count of an accumulator lies between 0 and the sum of that count over
the destinations, when no destination has a negative count. -/
theorem accumulator_le_sum (s : TrafficAnalyzer) (g : TrafficData → Int)
    (hg : g TrafficData.new = 0) (hnn : ∀ e ∈ s.m_dstTrafficMap, 0 ≤ g e.2) (dst : String) :
    0 ≤ g (s.accumulator dst) ∧
    g (s.accumulator dst) ≤ (s.m_dstTrafficMap.map (fun e => g e.2)).sum := by
  have hnn2 : ∀ y ∈ s.m_dstTrafficMap.map (fun e => g e.2), 0 ≤ y := by
    intro y hy
    obtain ⟨e, he, hye⟩ := List.mem_map.mp hy
    rw [← hye]
    exact hnn e he
  unfold TrafficAnalyzer.accumulator
  cases hf : mapFind dst s.m_dstTrafficMap with
  | none =>
    simp only [Option.getD_none, hg]
    exact ⟨le_refl 0, List.sum_nonneg hnn2⟩
  | some d =>
    simp only [Option.getD_some]
    have hmem := mem_of_mapFind dst d _ hf
    exact ⟨hnn _ hmem, le_sum_of_nonneg _ hnn2 _ (List.mem_map.mpr ⟨(dst, d), hmem, rfl⟩)⟩

/-- While the number of packets and the sum of their sizes are values of an
`int` and no size is negative, one more `AddPacket` keeps every count of every
destination non-negative, and the counts add up to the number of packets and
to the sum of the sizes. -/
theorem AddPacket_exact (s : TrafficAnalyzer) (p : PacketInfo) (n b : Int)
    (hsorted : MapSorted strLt s.m_dstTrafficMap)
    (hnn : ∀ e ∈ s.m_dstTrafficMap, 0 ≤ e.2.packets ∧ 0 ≤ e.2.bytes)
    (hn : (s.m_dstTrafficMap.map (fun e => e.2.packets)).sum = n)
    (hb : (s.m_dstTrafficMap.map (fun e => e.2.bytes)).sum = b)
    (hsize : 0 ≤ p.size) (hn1 : n + 1 ≤ 2147483647) (hb1 : b + p.size ≤ 2147483647) :
    (∀ e ∈ (s.AddPacket p).m_dstTrafficMap, 0 ≤ e.2.packets ∧ 0 ≤ e.2.bytes) ∧
    ((s.AddPacket p).m_dstTrafficMap.map (fun e => e.2.packets)).sum = n + 1 ∧
    ((s.AddPacket p).m_dstTrafficMap.map (fun e => e.2.bytes)).sum = b + p.size := by
  have hap := accumulator_le_sum s (fun d => d.packets) rfl (fun e he => (hnn e he).1) p.dst_ip
  have hab := accumulator_le_sum s (fun d => d.bytes) rfl (fun e he => (hnn e he).2) p.dst_ip
  simp only at hap hab
  rw [hn] at hap
  rw [hb] at hab
  have hpk : ((s.accumulator p.dst_ip).AddPacketData p.size p.flow).packets
      = (s.accumulator p.dst_ip).packets + 1 := by
    rw [AddPacketData_packets]
    exact wrapInt_of_inIntRange ⟨by omega, by omega⟩
  have hby : ((s.accumulator p.dst_ip).AddPacketData p.size p.flow).bytes
      = (s.accumulator p.dst_ip).bytes + p.size := by
    rw [AddPacketData_bytes]
    exact wrapInt_of_inIntRange ⟨by omega, by omega⟩
  refine ⟨?_, ?_, ?_⟩
  · intro e he
    rcases mem_mapModify_cases strLt_strictTotal _ _ _ _ e hsorted he with h1 | ⟨_, h2⟩
    · exact hnn e h1
    · have h3 : e.2 = (s.accumulator p.dst_ip).AddPacketData p.size p.flow := h2
      rw [h3, hpk, hby]
      exact ⟨by omega, by omega⟩
  · have h := sum_mapModify strLt_strictTotal (fun d : TrafficData => d.packets)
      TrafficData.new rfl p.dst_ip (fun d => d.AddPacketData p.size p.flow)
      s.m_dstTrafficMap hsorted
    have h' : ((s.AddPacket p).m_dstTrafficMap.map (fun e => e.2.packets)).sum
        = (s.m_dstTrafficMap.map (fun e => e.2.packets)).sum
          + ((s.accumulator p.dst_ip).AddPacketData p.size p.flow).packets
          - (s.accumulator p.dst_ip).packets := h
    rw [h', hpk, hn]
    ring
  · have h := sum_mapModify strLt_strictTotal (fun d : TrafficData => d.bytes)
      TrafficData.new rfl p.dst_ip (fun d => d.AddPacketData p.size p.flow)
      s.m_dstTrafficMap hsorted
    have h' : ((s.AddPacket p).m_dstTrafficMap.map (fun e => e.2.bytes)).sum
        = (s.m_dstTrafficMap.map (fun e => e.2.bytes)).sum
          + ((s.accumulator p.dst_ip).AddPacketData p.size p.flow).bytes
          - (s.accumulator p.dst_ip).bytes := h
    rw [h', hby, hb]
    ring

/-- A timeslice without overflow: while no packet has a negative size and the
number of packets and the sum of their sizes are values of an `int`, every
count of every destination is non-negative and the counts add up to the number
of packets and to the sum of the sizes. -/
theorem AddPackets_exact (ps : List PacketInfo) :
    ∀ (s : TrafficAnalyzer) (n b : Int),
    MapSorted strLt s.m_dstTrafficMap →
    (∀ e ∈ s.m_dstTrafficMap, 0 ≤ e.2.packets ∧ 0 ≤ e.2.bytes) →
    (s.m_dstTrafficMap.map (fun e => e.2.packets)).sum = n →
    (s.m_dstTrafficMap.map (fun e => e.2.bytes)).sum = b →
    (∀ p ∈ ps, 0 ≤ p.size) →
    n + (ps.length : Int) ≤ 2147483647 →
    b + (ps.map (fun q => q.size)).sum ≤ 2147483647 →
    (∀ e ∈ (s.AddPackets ps).m_dstTrafficMap, 0 ≤ e.2.packets ∧ 0 ≤ e.2.bytes) ∧
    ((s.AddPackets ps).m_dstTrafficMap.map (fun e => e.2.packets)).sum = n + (ps.length : Int) ∧
    ((s.AddPackets ps).m_dstTrafficMap.map (fun e => e.2.bytes)).sum
      = b + (ps.map (fun q => q.size)).sum := by
  induction ps with
  | nil =>
    intro s n b _ hnn hn hb _ _ _
    simp only [List.length_nil, Nat.cast_zero, add_zero, List.map_nil, List.sum_nil]
    exact ⟨hnn, hn, hb⟩
  | cons p ps ih =>
    intro s n b hsorted hnn hn hb hsize hn1 hb1
    have hrest : 0 ≤ (ps.map (fun q => q.size)).sum := by
      apply List.sum_nonneg
      intro x hx
      obtain ⟨q, hq, hqx⟩ := List.mem_map.mp hx
      rw [← hqx]
      exact hsize q (by simp [hq])
    simp only [List.length_cons, Nat.cast_add, Nat.cast_one, List.map_cons, List.sum_cons]
      at hn1 hb1
    have hp0 : 0 ≤ p.size := hsize p (by simp)
    obtain ⟨g1, g2, g3⟩ := AddPacket_exact s p n b hsorted hnn hn hb hp0 (by omega) (by omega)
    obtain ⟨i1, i2, i3⟩ := ih (s.AddPacket p) (n + 1) (b + p.size) (AddPacket_sorted s p hsorted)
      g1 g2 g3 (fun q hq => hsize q (by simp [hq])) (by omega) (by omega)
    refine ⟨i1, ?_, ?_⟩
    · rw [show (s.AddPackets (p :: ps)) = (s.AddPacket p).AddPackets ps from rfl, i2]
      simp only [List.length_cons, Nat.cast_add, Nat.cast_one]
      ring
    · rw [show (s.AddPackets (p :: ps)) = (s.AddPacket p).AddPackets ps from rfl, i3]
      simp only [List.map_cons, List.sum_cons]
      ring

/-- When the previous packet and byte totals are not negative, their threefold
is a value of an `int`, and no destination has a negative count, an alert
appends the key of a map entry that has a positive value of the selecting
metric. -/
theorem alert_destination (s : TrafficAnalyzer) (hsorted : MapSorted strLt s.m_dstTrafficMap)
    (hnn : ∀ e ∈ s.m_dstTrafficMap, 0 ≤ e.2.packets ∧ 0 ≤ e.2.bytes)
    (hp : 0 ≤ s.m_prevData.packets) (hp3 : 3 * s.m_prevData.packets ≤ 2147483647)
    (hb : 0 ≤ s.m_prevData.bytes) (hb3 : 3 * s.m_prevData.bytes ≤ 2147483647)
    (halert : (s.CheckAlert s.totals).1 = true) :
    ∃ e ∈ s.m_dstTrafficMap,
      s.GenerateReport.report
        = "alert " ++ reportBody (s.m_reportsGenerated + 1) s.totals ++ " " ++ e.1 ∧
      s.accumulator e.1 = e.2 ∧
      ((s.CheckAlert s.totals).2.packets = true →
        e.1 = (scanMap s.m_dstTrafficMap).dstWithMostPackets ∧ 0 < e.2.packets) ∧
      ((s.CheckAlert s.totals).2.packets = false → (s.CheckAlert s.totals).2.bytes = true →
        e.1 = (scanMap s.m_dstTrafficMap).dstWithMostBytes ∧ 0 < e.2.bytes) ∧
      ((s.CheckAlert s.totals).2.packets = false → (s.CheckAlert s.totals).2.bytes = false →
        e.1 = (scanMap s.m_dstTrafficMap).dstWithMostFlows ∧ 0 < e.2.flows.length) := by
  have hret : (s.CheckAlert s.totals).1
      = ((s.CheckAlert s.totals).2.packets || (s.CheckAlert s.totals).2.bytes
        || (s.CheckAlert s.totals).2.flows) := rfl
  have hacc : ∀ e ∈ s.m_dstTrafficMap, s.accumulator e.1 = e.2 := by
    intro e he
    unfold TrafficAnalyzer.accumulator
    rw [mapFind_of_mem strLt_strictTotal e.1 e.2 _ hsorted he]
    rfl
  cases hfp : (s.CheckAlert s.totals).2.packets with
  | true =>
    have hgt : s.totals.packets > wrapInt (s.m_prevData.packets * 3) := of_decide_eq_true hfp
    rw [wrapInt_threefold hp hp3] at hgt
    obtain ⟨e, he, h1, h2, _⟩ := leader_packets s (fun x hx => (hnn x hx).1) (by omega)
    have hr := report_with_destination s e.1 halert
      (by unfold destinationSuffix; simp [hfp, h1])
    refine ⟨e, he, hr.1, hacc e he, fun _ => ⟨h1, h2⟩, ?_, ?_⟩
    · intro hh; exact absurd hh (by simp)
    · intro hh; exact absurd hh (by simp)
  | false =>
    cases hfb : (s.CheckAlert s.totals).2.bytes with
    | true =>
      have hgt : s.totals.bytes > wrapInt (s.m_prevData.bytes * 3) := of_decide_eq_true hfb
      rw [wrapInt_threefold hb hb3] at hgt
      obtain ⟨e, he, h1, h2, _⟩ := leader_bytes s (fun x hx => (hnn x hx).2) (by omega)
      have hr := report_with_destination s e.1 halert
        (by unfold destinationSuffix; simp [hfp, hfb, h1])
      refine ⟨e, he, hr.1, hacc e he, ?_, fun _ _ => ⟨h1, h2⟩, ?_⟩
      · intro hh; exact absurd hh (by simp)
      · intro _ hh; exact absurd hh (by simp)
    | false =>
      have hff : (s.CheckAlert s.totals).2.flows = true := by
        rw [hret, hfp, hfb] at halert
        simpa using halert
      have hgt : s.totals.flows.length > s.m_prevData.flows.length * 3 := of_decide_eq_true hff
      obtain ⟨e, he, h1, h2, _⟩ := leader_flows s (by omega)
      have hr := report_with_destination s e.1 halert
        (by unfold destinationSuffix; simp [hfp, hfb, hff, h1])
      refine ⟨e, he, hr.1, hacc e he, ?_, ?_, fun _ _ => ⟨h1, h2⟩⟩
      · intro hh; exact absurd hh (by simp)
      · intro _ hh; exact absurd hh (by simp)

/-- C18 (as amended): for every timeslice whose packets all have a
non-negative size, whose number of packets and sum of sizes are values of an
`int` (the totals do not overflow), and whose previous packet and byte totals
are not negative and have a threefold that is a value of an `int` (the
threshold of CheckAlert does not overflow), whenever GenerateReport raises an
alert the destination address it appends is a key of the destination map, the
address of a destination that received at least one packet in the timeslice,
and that destination has a strictly positive value of the metric that
selected it; the address is not the empty string unless a packet of the
timeslice has the empty string as its destination address. The totals of the
timeslice are the number of packets and the sum of their sizes. -/
theorem C18_alert_destination (s0 : TrafficAnalyzer) (ps : List PacketInfo)
    (s : TrafficAnalyzer) (hstart : s0.m_dstTrafficMap = []) (hrun : s = s0.AddPackets ps)
    (hps : ∀ p ∈ ps, 0 ≤ p.size) (hcount : (ps.length : Int) ≤ 2147483647)
    (hsum : (ps.map (fun q => q.size)).sum ≤ 2147483647)
    (hprevp : 0 ≤ s0.m_prevData.packets ∧ 3 * s0.m_prevData.packets ≤ 2147483647)
    (hprevb : 0 ≤ s0.m_prevData.bytes ∧ 3 * s0.m_prevData.bytes ≤ 2147483647)
    (halert : (s.CheckAlert s.totals).1 = true) :
    ∃ d : String,
      s.GenerateReport.report
        = "alert " ++ reportBody (s.m_reportsGenerated + 1) s.totals ++ " " ++ d ∧
      d ∈ s.m_dstTrafficMap.map Prod.fst ∧
      (∃ p ∈ ps, p.dst_ip = d) ∧
      ((∀ p ∈ ps, p.dst_ip ≠ "") → d ≠ "") ∧
      ((s.CheckAlert s.totals).2.packets = true →
        d = (scanMap s.m_dstTrafficMap).dstWithMostPackets ∧ 0 < (s.accumulator d).packets) ∧
      ((s.CheckAlert s.totals).2.packets = false → (s.CheckAlert s.totals).2.bytes = true →
        d = (scanMap s.m_dstTrafficMap).dstWithMostBytes ∧ 0 < (s.accumulator d).bytes) ∧
      ((s.CheckAlert s.totals).2.packets = false → (s.CheckAlert s.totals).2.bytes = false →
        d = (scanMap s.m_dstTrafficMap).dstWithMostFlows ∧
        0 < (s.accumulator d).flows.length) ∧
      s.totals.packets = (ps.length : Int) ∧
      s.totals.bytes = (ps.map (fun q => q.size)).sum := by
  have hsorted0 : MapSorted strLt s0.m_dstTrafficMap := by
    rw [hstart]
    simp [MapSorted]
  have hsorted : MapSorted strLt s.m_dstTrafficMap := by
    rw [hrun]
    exact AddPackets_sorted ps s0 hsorted0
  have hprev : s.m_prevData = s0.m_prevData := by
    rw [hrun, AddPackets_prevData]
  have hkeys : ∀ e ∈ s.m_dstTrafficMap, ∃ p ∈ ps, p.dst_ip = e.1 := by
    intro e he
    rw [hrun] at he
    have := AddPackets_keys ps _ [] (by rw [hstart]; simp) e he
    simpa using this
  have hsum0 : 0 ≤ (ps.map (fun q => q.size)).sum := by
    apply List.sum_nonneg
    intro x hx
    obtain ⟨q, hq, hqx⟩ := List.mem_map.mp hx
    rw [← hqx]
    exact hps q hq
  obtain ⟨e1, _, _⟩ := AddPackets_exact ps s0 0 0 hsorted0 (by rw [hstart]; simp)
    (by rw [hstart]; simp) (by rw [hstart]; simp) hps (by omega) (by omega)
  rw [← hrun] at e1
  obtain ⟨t1, t2, _⟩ := totals_of_AddPackets s0 ps hstart
  rw [← hrun] at t1 t2
  obtain ⟨e, he, h1, h2, h3, h4, h5⟩ := alert_destination s hsorted e1
    (by rw [hprev]; exact hprevp.1) (by rw [hprev]; exact hprevp.2)
    (by rw [hprev]; exact hprevb.1) (by rw [hprev]; exact hprevb.2) halert
  obtain ⟨p, hp, hpe⟩ := hkeys e he
  refine ⟨e.1, h1, List.mem_map.mpr ⟨e, he, rfl⟩, ⟨p, hp, hpe⟩, ?_, ?_, ?_, ?_, ?_, ?_⟩
  · intro hne hd
    exact hne p hp (by rw [hpe, hd])
  · rw [h2]; exact h3
  · rw [h2]; exact h4
  · rw [h2]; exact h5
  · rw [t1]
    exact wrapInt_of_inIntRange ⟨by omega, hcount⟩
  · rw [t2]
    exact wrapInt_of_inIntRange ⟨by omega, hsum⟩

/-- Witness of C18: a first timeslice of one packet of 40 bytes, then a
timeslice of four such packets, which alerts on packets and on bytes; the
address appended is the destination 10.0.0.2 of the packets. -/
theorem C18_alert_destination_witness :
    (((TrafficAnalyzer.new "log").runTimeslices [[examplePacket]]).AddPackets
      [examplePacket, examplePacket, examplePacket, examplePacket]).GenerateReport.report
      = "alert report 2 4 160 1 10.0.0.2" ∧
    ∃ d : String,
      (((TrafficAnalyzer.new "log").runTimeslices [[examplePacket]]).AddPackets
        [examplePacket, examplePacket, examplePacket, examplePacket]).GenerateReport.report
        = "alert " ++ reportBody
            ((((TrafficAnalyzer.new "log").runTimeslices [[examplePacket]]).AddPackets
              [examplePacket, examplePacket, examplePacket, examplePacket]).m_reportsGenerated + 1)
            (((TrafficAnalyzer.new "log").runTimeslices [[examplePacket]]).AddPackets
              [examplePacket, examplePacket, examplePacket, examplePacket]).totals ++ " " ++ d ∧
      d ∈ (((TrafficAnalyzer.new "log").runTimeslices [[examplePacket]]).AddPackets
        [examplePacket, examplePacket, examplePacket, examplePacket]).m_dstTrafficMap.map
          Prod.fst :=
  ⟨by decide,
    (C18_alert_destination ((TrafficAnalyzer.new "log").runTimeslices [[examplePacket]])
      [examplePacket, examplePacket, examplePacket, examplePacket] _ rfl rfl
      (by decide) (by decide) (by decide) (by decide) (by decide)
      (by decide)).imp (fun _ h => ⟨h.1, h.2.1⟩)⟩

/-- Counterexample to C18 as stated: after a timeslice of 16000 packets of
50000 bytes, whose byte total 800000000 becomes the previous total, comes a
timeslice without any packet; no packet of it has a negative size and its
totals are 0, 0 and 0. GenerateReport raises an alert on bytes, because the
`int` product of 800000000 and 3 is negative, and appends the empty initial
string, which is not a key of the destination map: no destination received a
packet in the timeslice. -/
theorem C18_counterexample :
    afterHeavyTimeslice
      = (TrafficAnalyzer.new "log").runTimeslices [List.replicate 16000 (packetOfSize 50000)] ∧
    afterHeavyTimeslice.m_prevData.packets = 16000 ∧
    afterHeavyTimeslice.m_prevData.bytes = 800000000 ∧
    afterHeavyTimeslice.AddPackets [] = afterHeavyTimeslice ∧
    afterHeavyTimeslice.m_dstTrafficMap = [] ∧
    afterHeavyTimeslice.totals = { packets := 0, bytes := 0, flows := [] } ∧
    afterHeavyTimeslice.CheckAlert afterHeavyTimeslice.totals
      = (true, { packets := false, bytes := true, flows := false }) ∧
    afterHeavyTimeslice.GenerateReport.report = "alert report 2 0 0 0 " ∧
    (scanMap afterHeavyTimeslice.m_dstTrafficMap).dstWithMostBytes = "" ∧
    "" ∉ afterHeavyTimeslice.m_dstTrafficMap.map Prod.fst := by
  refine ⟨rfl, ?_⟩
  rw [afterHeavyTimeslice_eq]
  decide

/-! ## Mutual exclusion on the analyzer -/

theorem lockDiscipline_append :
    ∀ (a : List Op) (held inside : Bool) (b : List Op),
      lockDiscipline held inside a = true → lockDiscipline false false b = true →
      lockDiscipline held inside (a ++ b) = true := by
  intro a
  induction a with
  | nil =>
    intro held inside b ha hb
    simp only [lockDiscipline, Bool.and_eq_true, Bool.not_eq_true'] at ha
    rw [ha.1, ha.2]
    exact hb
  | cons op r ih =>
    intro held inside b ha hb
    cases op <;>
      simp only [List.cons_append, lockDiscipline, Bool.and_eq_true, Bool.not_eq_true'] at ha ⊢ <;>
      first
        | exact ⟨⟨ha.1.1, ha.1.2⟩, ih _ _ b ha.2 hb⟩
        | exact ⟨ha.1, ih _ _ b ha.2 hb⟩

/-- One call of `GetPacket` keeps the lock discipline. -/
theorem GetPacketOps_discipline (g_liveMode : Bool) (st : WatchdogState) (d : Delivery) :
    lockDiscipline false false (GetPacketOps g_liveMode st d) = true := by
  unfold GetPacketOps
  cases g_liveMode <;> cases d.pkt <;> simp only [Bool.not_false, Bool.not_true, if_true,
    Bool.false_eq_true, if_false] <;> (try split_ifs) <;> rfl

/-- The capture thread keeps the lock discipline, whatever packets arrive. -/
theorem MonitorTrafficOps_discipline (g_liveMode : Bool) (timeslice_usecs : Int)
    (trace : List Delivery) :
    ∀ st : WatchdogState,
      lockDiscipline false false (MonitorTrafficOps g_liveMode timeslice_usecs st trace)
        = true := by
  induction trace with
  | nil => intro st; rfl
  | cons d rest ih =>
    intro st
    exact lockDiscipline_append _ _ _ _ (GetPacketOps_discipline g_liveMode st d) (ih _)

/-- The main thread keeps the lock discipline, however many passes it makes. -/
theorem mainOps_discipline (g_liveMode : Bool) (passes : Nat) :
    lockDiscipline false false (mainOps g_liveMode passes) = true := by
  induction passes with
  | zero => rfl
  | succ n ih =>
    apply lockDiscipline_append _ _ _ _ ih
    cases g_liveMode <;> rfl

theorem init_safe (captureOps mainThreadOps : List Op)
    (hc : lockDiscipline false false captureOps = true)
    (hm : lockDiscipline false false mainThreadOps = true) :
    (ThreadsState.init captureOps mainThreadOps).Safe := by
  refine ⟨rfl, ?_, ?_⟩
  · intro u
    cases u
    · exact hc
    · exact hm
  · intro u h
    exact Option.noConfusion h

/-- The state after a step of thread `t` is in order when the statements left
to `t` keep the discipline from its new standing and the standing of the other
thread is as before. -/
theorem safe_of_step (s : ThreadsState) (t : Thread) (r : List Op) (g ia : Option Thread)
    (fl : List Fault) (hs : s.Safe) (hfaults : fl = [])
    (hown : lockDiscipline (decide (g = some t)) (decide (ia = some t)) r = true)
    (hother : ∀ u, u ≠ t →
      decide (g = some u) = decide (s.g_mtx = some u) ∧
      decide (ia = some u) = decide (s.inAnalyzer = some u))
    (hin : ∀ u, ia = some u → g = some u) :
    ThreadsState.Safe
      { g_mtx := g, inAnalyzer := ia, ops := fun u => if u = t then r else s.ops u,
        faults := fl } := by
  refine ⟨hfaults, ?_, hin⟩
  intro u
  by_cases hu : u = t
  · subst hu
    simpa using hown
  · show lockDiscipline (decide (g = some u)) (decide (ia = some u))
      (if u = t then r else s.ops u) = true
    rw [(hother u hu).1, (hother u hu).2, if_neg hu]
    exact hs.2.1 u

/-- A step of a thread keeps the state of the two threads in order. -/
theorem step_safe (s : ThreadsState) (t : Thread) (hs : s.Safe) : (s.step t).Safe := by
  obtain ⟨hf, hd, hi⟩ := hs
  have hdt := hd t
  have hne : ∀ u : Thread, u ≠ t → ¬ (some t = some u) := by
    intro u hu h
    injection h with h
    exact hu h.symm
  unfold ThreadsState.step
  cases hops : s.ops t with
  | nil => exact ⟨hf, hd, hi⟩
  | cons op r =>
    rw [hops] at hdt
    cases op with
    | lock =>
      simp only [lockDiscipline, Bool.and_eq_true, Bool.not_eq_true', decide_eq_false_iff_not]
        at hdt
      obtain ⟨⟨hheld, hins⟩, hr⟩ := hdt
      by_cases hfree : s.g_mtx = none
      · simp only [hfree, if_true]
        have hnone : s.inAnalyzer = none := by
          cases hia : s.inAnalyzer with
          | none => rfl
          | some u =>
            have := hi u hia
            rw [hfree] at this
            exact Option.noConfusion this
        refine safe_of_step s t r _ _ _ ⟨hf, hd, hi⟩ hf ?_ ?_ ?_
        · simpa [hins] using hr
        · intro u hu
          simp [hfree, hne u hu]
        · intro u hu
          rw [hnone] at hu
          exact Option.noConfusion hu
      · simp only [hfree, if_false]
        exact ⟨hf, hd, hi⟩
    | unlock =>
      simp only [lockDiscipline, Bool.and_eq_true, Bool.not_eq_true', decide_eq_false_iff_not,
        decide_eq_true_eq] at hdt
      obtain ⟨⟨hheld, hins⟩, hr⟩ := hdt
      have hnone : s.inAnalyzer = none := by
        cases hia : s.inAnalyzer with
        | none => rfl
        | some u =>
          have h1 := hi u hia
          rw [hheld] at h1
          injection h1 with h1
          rw [← h1] at hia
          exact absurd hia hins
      refine safe_of_step s t r _ _ _ ⟨hf, hd, hi⟩ ?_ ?_ ?_ ?_
      · simp [hf, hheld]
      · simpa [hins] using hr
      · intro u hu
        simp [hheld, hne u hu]
      · intro u hu
        rw [hnone] at hu
        exact Option.noConfusion hu
    | enter c =>
      simp only [lockDiscipline, Bool.and_eq_true, Bool.not_eq_true', decide_eq_false_iff_not,
        decide_eq_true_eq] at hdt
      obtain ⟨⟨hheld, hins⟩, hr⟩ := hdt
      have hnone : s.inAnalyzer = none := by
        cases hia : s.inAnalyzer with
        | none => rfl
        | some u =>
          have h1 := hi u hia
          rw [hheld] at h1
          injection h1 with h1
          rw [← h1] at hia
          exact absurd hia hins
      refine safe_of_step s t r _ _ _ ⟨hf, hd, hi⟩ ?_ ?_ ?_ ?_
      · simp [hf, hheld, hnone]
      · simpa [hheld] using hr
      · intro u hu
        simp [hnone, hne u hu]
      · intro u hu
        injection hu with hu
        rw [← hu]
        exact hheld
    | leave =>
      simp only [lockDiscipline, Bool.and_eq_true, decide_eq_true_eq] at hdt
      obtain ⟨⟨hheld, hins⟩, hr⟩ := hdt
      refine safe_of_step s t r _ _ _ ⟨hf, hd, hi⟩ hf ?_ ?_ ?_
      · simpa [hheld] using hr
      · intro u hu
        simp [hins, hne u hu]
      · intro u hu
        exact Option.noConfusion hu
    | queuePush =>
      simp only [lockDiscipline, Bool.and_eq_true, Bool.not_eq_true', decide_eq_false_iff_not]
        at hdt
      obtain ⟨hins, hr⟩ := hdt
      refine safe_of_step s t r _ _ _ ⟨hf, hd, hi⟩ hf ?_ ?_ ?_
      · simpa [hins] using hr
      · intro u _; exact ⟨rfl, rfl⟩
      · exact hi
    | queueFrontPop =>
      simp only [lockDiscipline, Bool.and_eq_true, Bool.not_eq_true', decide_eq_false_iff_not]
        at hdt
      obtain ⟨hins, hr⟩ := hdt
      refine safe_of_step s t r _ _ _ ⟨hf, hd, hi⟩ hf ?_ ?_ ?_
      · simpa [hins] using hr
      · intro u _; exact ⟨rfl, rfl⟩
      · exact hi
    | queueEmpty =>
      simp only [lockDiscipline, Bool.and_eq_true, Bool.not_eq_true', decide_eq_false_iff_not]
        at hdt
      obtain ⟨hins, hr⟩ := hdt
      refine safe_of_step s t r _ _ _ ⟨hf, hd, hi⟩ hf ?_ ?_ ?_
      · simpa [hins] using hr
      · intro u _; exact ⟨rfl, rfl⟩
      · exact hi
    | sleep =>
      simp only [lockDiscipline, Bool.and_eq_true, Bool.not_eq_true', decide_eq_false_iff_not]
        at hdt
      obtain ⟨hins, hr⟩ := hdt
      refine safe_of_step s t r _ _ _ ⟨hf, hd, hi⟩ hf ?_ ?_ ?_
      · simpa [hins] using hr
      · intro u _; exact ⟨rfl, rfl⟩
      · exact hi
    | send =>
      simp only [lockDiscipline, Bool.and_eq_true, Bool.not_eq_true', decide_eq_false_iff_not]
        at hdt
      obtain ⟨⟨hheld, hins⟩, hr⟩ := hdt
      refine safe_of_step s t r _ _ _ ⟨hf, hd, hi⟩ ?_ ?_ ?_ ?_
      · simp [hf, hheld]
      · simpa [hheld, hins] using hr
      · intro u _; exact ⟨rfl, rfl⟩
      · exact hi
    | recv =>
      simp only [lockDiscipline, Bool.and_eq_true, Bool.not_eq_true', decide_eq_false_iff_not]
        at hdt
      obtain ⟨⟨hheld, hins⟩, hr⟩ := hdt
      refine safe_of_step s t r _ _ _ ⟨hf, hd, hi⟩ ?_ ?_ ?_ ?_
      · simp [hf, hheld]
      · simpa [hheld, hins] using hr
      · intro u _; exact ⟨rfl, rfl⟩
      · exact hi

/-- Every schedule keeps the state of the two threads in order. -/
theorem run_safe (schedule : List Thread) :
    ∀ s : ThreadsState, s.Safe → (s.run schedule).Safe := by
  induction schedule with
  | nil => intro s hs; exact hs
  | cons t rest ih =>
    intro s hs
    exact ih (s.step t) (step_safe s t hs)

/-- The statements listed for a call of `GetPacket` agree with what the call
does to the state: a report is queued exactly when `GenerateReport` is
entered, once, and the analyzer is entered for `AddPacket` exactly when a
decoded packet is ingested. -/
theorem GetPacketOps_calls (g_liveMode : Bool) (timeslice_usecs : Int) (st : WatchdogState)
    (d : Delivery) :
    (GetPacket g_liveMode timeslice_usecs st d).g_reports.length
      = st.g_reports.length
        + (GetPacketOps g_liveMode st d).count (Op.enter EngineCall.generateReport) ∧
    (GetPacketOps g_liveMode st d).count Op.queuePush
      = (GetPacketOps g_liveMode st d).count (Op.enter EngineCall.generateReport) ∧
    (GetPacketOps g_liveMode st d).count (Op.enter EngineCall.addPacket) = d.pkt.toList.length := by
  unfold GetPacket GetPacketOps
  cases g_liveMode <;> cases d.pkt <;>
    simp only [Bool.not_false, Bool.not_true, if_true, Bool.false_eq_true, if_false] <;>
    (try split_ifs) <;> simp

/-- The run of the two threads records a fault when the analyzer is entered
without the mutex: two threads that call the analyzer without locking can be
within it at the same time. -/
theorem run_records_race :
    ((ThreadsState.init [Op.enter EngineCall.addPacket, Op.leave]
        [Op.enter EngineCall.generateReport, Op.leave]).run
      [Thread.capture, Thread.main]).faults
      = [Fault.notLocked, Fault.notLocked, Fault.race] := by
  decide

/-- C15: in the watchdog, for every mode, every sequence of delivered packets,
every number of passes of the report loop and every interleaving of the two
threads under the mutex g_mtx: each thread locks and unlocks g_mtx in
alternation, every call of AddPacket and of GenerateReport is made, and
returns, while the calling thread holds g_mtx, and no send or recv is executed
between a lock and its unlock; hence no thread enters the analyzer while the
other thread is within it, and a thread within the analyzer is the owner of
g_mtx. -/
theorem C15_analyzer_under_mutex (g_liveMode : Bool) (timeslice_usecs : Int)
    (st : WatchdogState) (trace : List Delivery) (passes : Nat) (schedule : List Thread) :
    lockDiscipline false false (MonitorTrafficOps g_liveMode timeslice_usecs st trace) = true ∧
    lockDiscipline false false (mainOps g_liveMode passes) = true ∧
    ((ThreadsState.init (MonitorTrafficOps g_liveMode timeslice_usecs st trace)
        (mainOps g_liveMode passes)).run schedule).faults = [] ∧
    (∀ u : Thread,
      ((ThreadsState.init (MonitorTrafficOps g_liveMode timeslice_usecs st trace)
        (mainOps g_liveMode passes)).run schedule).inAnalyzer = some u →
      ((ThreadsState.init (MonitorTrafficOps g_liveMode timeslice_usecs st trace)
        (mainOps g_liveMode passes)).run schedule).g_mtx = some u) := by
  have hc := MonitorTrafficOps_discipline g_liveMode timeslice_usecs trace st
  have hm := mainOps_discipline g_liveMode passes
  have hsafe := run_safe schedule _ (init_safe _ _ hc hm)
  exact ⟨hc, hm, hsafe.1, hsafe.2.2⟩

end NIDS
